import Mathlib

/-!
Verification development for the Autopart graph-partitioning implementation
(`src/algorithms/autopart.py`).

The source keeps a square adjacency matrix whose rows/columns are permuted so
that each group's members occupy one contiguous block, together with the
mappings `map_g_n` (group to node set), `map_n_g` (node to group) and
`map_n_r` (node to row).  All numeric quantities the algorithm compares or
accumulates (block weights, densities, costs) depend only on the adjacency
relation between *nodes* and on the group *member sets*, never on the order of
rows inside a block, so the embedding below indexes the matrix directly by
node identifiers (node `u`'s row holds `adj u v` in the column of node `v`)
and represents `map_g_n` as a list of finsets.  Matrix entries are the
integers produced by `networkx.adjacency_matrix`; on unweighted graphs they
are 0/1.  Cached block weights and densities are kept as exact rationals; the
floating-point costs of the source are modelled as real numbers, with
`math.log`'s domain errors (raised on arguments `≤ 0`) modelled by explicit
decidable error predicates and `Option`-valued cost functions.
-/

namespace Autopart

/-- Base-2 logarithm, the source's `log2` helper (`math.log(x, 2)`).  The
source raises `ValueError` for `x ≤ 0`; callers that can reach such arguments
are modelled with explicit error predicates, and `Real.logb`'s junk value `0`
on nonpositive arguments is never relied upon. -/
noncomputable def log2 (x : ℝ) : ℝ := Real.logb 2 x

/-- The module-level convergence threshold `epsilon = 0.0001`. -/
noncomputable def eps : ℝ := 1 / 10000

/-- Fuelled loop of the source's `log_star`: `res = 0; val = log2 x; while
val > epsilon: res += val; val = log2 val`. -/
noncomputable def logStarAux : ℕ → ℝ → ℝ → ℝ
| 0, acc, _ => acc
| fuel + 1, acc, val => if eps < val then logStarAux fuel (acc + val) (log2 val) else acc

/-- The source's `log_star(k)` (universal code length for the group count).
It is only ever applied to the group count `k ≥ 1`.  `k + 1` units of fuel
are more than enough: iterating `log2` starting from `log2 k` falls below
`epsilon` after `log* k ≤ k` steps, so the fuelled loop returns the same
value the `while` loop computes. -/
noncomputable def logStar (k : ℕ) : ℝ := logStarAux (k + 1) 0 (log2 k)

/-- A graph together with its adjacency matrix, indexed by node identifiers
`0, …, n-1` (the embedding identifies nodes with their initial row numbers;
all quantities below depend only on group membership, not on row order). -/
structure Graph where
  n : ℕ
  adj : ℕ → ℕ → ℕ

/-- The mutable state of an `Autopart` instance: the graph, the
group-to-nodes mapping `map_g_n` (a list of finsets, index = group id), the
node-to-group mapping `map_n_g`, the cached block weights `w` and densities
`P`, and the iteration counter `step`. -/
structure St where
  g : Graph
  gn : List (Finset ℕ)
  ng : ℕ → ℕ
  w : ℕ → ℕ → ℚ
  P : ℕ → ℕ → ℚ
  step : ℕ

/-- The current number of groups `self.k` (kept equal to the length of
`map_g_n` by every operation of the source). -/
def numGroups (s : St) : ℕ := s.gn.length

/-- The member set of group `i`. -/
def grp (s : St) (i : ℕ) : Finset ℕ := s.gn.getD i ∅

/-- The source's `group_size`: `len(self.map_g_n[group_i])`. -/
def groupSize (s : St) (i : ℕ) : ℕ := (grp s i).card

/-- The source's `block_size`: `group_size(i) * group_size(j)`. -/
def blockSize (s : St) (i j : ℕ) : ℕ := groupSize s i * groupSize s j

/-- The source's `_block_weight`: the sum of the matrix entries in the slice
`[rows of group i] × [columns of group j]`.  Because the matrix rows/columns
of a group are exactly its member nodes, this equals the sum of `adj u v`
over members `u` of group `i` and `v` of group `j`. -/
def blockWeightN (s : St) (i j : ℕ) : ℕ :=
∑ u ∈ grp s i, ∑ v ∈ grp s j, s.g.adj u v

/-- The Laplace-smoothed density formula of `_block_density`:
`(w + 0.5) / (n + 1)`. -/
def smoothedDensity (w n : ℚ) : ℚ := (w + 1 / 2) / (n + 1)

/-- The source's `_recalculate_block_properties`: rebuild the cached `w`
table from the matrix and then the cached `P` table from the fresh weights. -/
def recalc (s : St) : St :=
{ s with
  w := fun i j => (blockWeightN s i j : ℚ)
  P := fun i j => smoothedDensity (blockWeightN s i j : ℚ) (blockSize s i j : ℚ) }

/-- The source's `row_weight`: sum of row `x` over the columns of group `j`. -/
def rowWeightN (s : St) (x j : ℕ) : ℕ := ∑ v ∈ grp s j, s.g.adj x v

/-- The source's `col_weight`: sum of column `x` over the rows of group `j`. -/
def colWeightN (s : St) (x j : ℕ) : ℕ := ∑ u ∈ grp s j, s.g.adj u x

/-- The source's `cell(row, col)`: a single matrix entry. -/
def cell (s : St) (x y : ℕ) : ℚ := (s.g.adj x y : ℚ)

/-- The source's `block_code_cost` (Autopart Eq. 1), computed from the
*cached* weight and density:
`-w·log2(P) - (n - w)·log2(1 - P)`. -/
noncomputable def blockCodeCost (s : St) (i j : ℕ) : ℝ :=
-(s.w i j : ℝ) * log2 (s.P i j : ℝ)
  - ((blockSize s i j : ℝ) - (s.w i j : ℝ)) * log2 (1 - (s.P i j : ℝ))

/-- The source's `code_cost`: the sum of `block_code_cost` over all ordered
group pairs. -/
noncomputable def codeCost (s : St) : ℝ :=
∑ i ∈ Finset.range (numGroups s), ∑ j ∈ Finset.range (numGroups s), blockCodeCost s i j

/-- Decidable detector for the `math domain error` of `code_cost`: `log2` is
applied to `P i j` and to `1 - P i j` for every ordered pair, so the call
raises exactly when some cached density lies outside the open interval
`(0, 1)`. -/
def codeCostErr (s : St) : Bool :=
(List.range (numGroups s)).any fun i =>
  (List.range (numGroups s)).any fun j =>
    decide (s.P i j ≤ 0) || decide (1 ≤ s.P i j)

/-- The source's `group_sizes` list (in group-index order). -/
def groupSizes (s : St) : List ℕ := s.gn.map Finset.card

/-- The descending sort `sorted(sizes, reverse=True)` used by
`description_cost_group_sizes`. -/
def sizesDesc (s : St) : List ℕ := List.insertionSort (fun a b => b ≤ a) (groupSizes s)

/-- The inner helper `a(group_i)` of `description_cost_group_sizes`:
`1 - k + group_i + sum(sizes[group_i:])` (the loop `for g in
range(group_i, k)` sums the tail of the length-`k` sorted list). -/
def aVal (s : St) (t : ℕ) : ℤ :=
1 - (numGroups s : ℤ) + t + (((sizesDesc s).drop t).sum : ℤ)

/-- Decidable detector for the `math domain error` of
`description_cost_group_sizes` when `k > 1`: `log2(a(grp))` is evaluated for
every `grp < k - 1`, and `math.log` raises exactly when some `a(grp) ≤ 0`. -/
def dcgsErr (s : St) : Bool :=
(List.range (numGroups s - 1)).any fun t => decide (aVal s t ≤ 0)

/-- The numeric value of `description_cost_group_sizes` in the non-error
case: `sum(ceil(log2(a(grp))) for grp in range(k-1))`. -/
noncomputable def dcgsVal (s : St) : ℝ :=
∑ t ∈ Finset.range (numGroups s - 1), (⌈log2 ((aVal s t : ℝ))⌉ : ℝ)

/-- The source's `description_cost_group_sizes`: `0` for `k = 1`, otherwise
the ceil-log sum, with `none` modelling the `ValueError` raised when some
`log2` argument is `≤ 0`. -/
noncomputable def dcgs? (s : St) : Option ℝ :=
if numGroups s = 1 then some 0
else if dcgsErr s then none else some (dcgsVal s)

/-- The source's `description_cost_block_weights`:
`sum(ceil(log2(block_size(i,j) + 1)))` over all ordered pairs (the argument
is `≥ 1`, so this component never raises). -/
noncomputable def dcbw (s : St) : ℝ :=
∑ i ∈ Finset.range (numGroups s), ∑ j ∈ Finset.range (numGroups s),
  (⌈log2 ((blockSize s i j : ℝ) + 1)⌉ : ℝ)

/-- The source's `description_cost`: `log_star(k) + description cost of the
group sizes + description cost of the block weights`; it propagates the
domain error of the group-size component. -/
noncomputable def descriptionCost? (s : St) : Option ℝ :=
match dcgs? s with
| none => none
| some d => some (logStar (numGroups s) + d + dcbw s)

/-- The source's `total_cost`: `description_cost() + code_cost()`, evaluated
in that order, raising if either component raises. -/
noncomputable def totalCost? (s : St) : Option ℝ :=
match descriptionCost? s with
| none => none
| some d => if codeCostErr s then none else some (d + codeCost s)

/-- The source's `rearrange_cost(node, next_group)` (Autopart Eq. 4): the
approximate cost of placing `node`'s row and column in group `next_group`,
computed from the node's row/column weights against every group and the
*cached* densities.  (The diagonal double-counting correction is commented
out in the source and therefore absent here.)  In every state in which the
inner loop evaluates it, the cached densities lie strictly inside `(0, 1)`,
so no `log2` domain error can occur and the function is total. -/
noncomputable def rearrangeCost (s : St) (x i : ℕ) : ℝ :=
-∑ j ∈ Finset.range (numGroups s),
  ((rowWeightN s x j : ℝ) * log2 (s.P i j : ℝ)
    + ((groupSize s j : ℝ) - (rowWeightN s x j : ℝ)) * log2 (1 - (s.P i j : ℝ))
    + (colWeightN s x j : ℝ) * log2 (s.P j i : ℝ)
    + ((groupSize s j : ℝ) - (colWeightN s x j : ℝ)) * log2 (1 - (s.P j i : ℝ)))

/-- The source's `group_entropy_per_node`: `0` for an empty group, otherwise
the sum of `block_code_cost(i, g) + block_code_cost(g, i)` over all groups
`g`, divided by the group size.  With a freshly recalculated cache all
densities lie in `(0, 1)`, so the function is total. -/
noncomputable def groupEntropyPerNode (s : St) (i : ℕ) : ℝ :=
if groupSize s i = 0 then 0
else (∑ t ∈ Finset.range (numGroups s), (blockCodeCost s i t + blockCodeCost s t i))
  / (groupSize s i : ℝ)

/-- The per-direction weight/size pairs `((w_rj, n_rj), (w_jr, n_jr))`
computed by the three structural branches of `group_entropy_per_node_exclude`
for crossing group `j`.  `none` records the case in which no branch body
runs, leaving the Python locals at `0` so that the subsequent
`log2(p) = log2(0)` raises. -/
def excludeWN (s : St) (gi x j : ℕ) : Option ((ℚ × ℚ) × (ℚ × ℚ)) :=
if j = gi then
  if 1 < groupSize s gi then
    let n : ℚ := ((groupSize s j : ℚ) - 1) * ((groupSize s j : ℚ) - 1)
    let wv : ℚ := s.w j j - (rowWeightN s x gi : ℚ) - (colWeightN s x gi : ℚ) + cell s x x
    some ((wv, n), (wv, n))
  else none
else if j = numGroups s - 1 then
  if 1 < groupSize s gi then
    let n : ℚ := ((groupSize s gi : ℚ) - 1) * ((groupSize s j : ℚ) + 1)
    let wrj : ℚ := s.w gi j - (rowWeightN s x j : ℚ) + (colWeightN s x gi : ℚ)
    let wjr : ℚ := s.w j gi - (colWeightN s x j : ℚ) + (rowWeightN s x gi : ℚ)
    some ((wrj, n), (wjr, n))
  else none
else
  if 1 < groupSize s gi ∧ 0 < groupSize s j then
    let n : ℚ := ((groupSize s gi : ℚ) - 1) * (groupSize s j : ℚ)
    let wrj : ℚ := s.w gi j - (rowWeightN s x j : ℚ)
    let wjr : ℚ := s.w j gi - (colWeightN s x j : ℚ)
    some ((wrj, n), (wjr, n))
  else none

/-- The smoothed density `P(w, n) = (w + 0.5)/(n + 1)` applied to one
direction's pair. -/
def excludeP (p : ℚ × ℚ) : ℚ := smoothedDensity p.1 p.2

/-- Decidable detector for the `math domain error` of
`group_entropy_per_node_exclude` (reachable when the loop body for some
crossing group `j` evaluates `log2` at an argument `≤ 0`): either a branch
body was skipped (its density local stays `0`), or a computed density falls
outside `(0, 1)`. -/
def excludeErr (s : St) (gi x : ℕ) : Bool :=
(List.range (numGroups s)).any fun j =>
  match excludeWN s gi x j with
  | none => true
  | some (a, b) =>
    decide (excludeP a ≤ 0) || decide (1 ≤ excludeP a)
      || decide (excludeP b ≤ 0) || decide (1 ≤ excludeP b)

/-- One direction's contribution `-(w·log2(p) + (n - w)·log2(1 - p))` to the
entropy accumulator of `group_entropy_per_node_exclude`. -/
noncomputable def excludeTerm (p : ℚ × ℚ) : ℝ :=
-((p.1 : ℝ) * log2 (excludeP p : ℝ) + ((p.2 : ℝ) - (p.1 : ℝ)) * log2 (1 - (excludeP p : ℝ)))

/-- The entropy accumulator of `group_entropy_per_node_exclude` before the
final division (meaningful only when no branch was skipped). -/
noncomputable def excludeSum (s : St) (gi x : ℕ) : ℝ :=
∑ j ∈ Finset.range (numGroups s),
  (match excludeWN s gi x j with
  | none => 0
  | some (a, b) => excludeTerm a + excludeTerm b)

/-- The source's `group_entropy_per_node_exclude(group_i, node)`: `0` when
the group has `≤ 1` members, otherwise the three-branch analytic prediction
divided by `group_size - 1`; `none` models the `ValueError` raised when some
`log2` argument is `≤ 0`. -/
noncomputable def groupEntropyPerNodeExclude? (s : St) (gi x : ℕ) : Option ℝ :=
if groupSize s gi = 1 ∨ groupSize s gi = 0 then some 0
else if excludeErr s gi x then none
else some (excludeSum s gi x / ((groupSize s gi : ℝ) - 1))

/-- The consistency `assert` of `_rearrange_matrix_and_mappings`: the number
of `map_n_g` entries must equal the sum of the group sizes.  (The key set of
`map_n_g` always holds every node of the graph: it is created that way and
every rewrite reassigns exactly the same keys, so the entry count is the
node count.) -/
def rearrangeCheck (numKeys : ℕ) (gn : List (Finset ℕ)) : Bool :=
numKeys == (gn.map Finset.card).sum

/-- `order_node` of `_rearrange_matrix_and_mappings` (line 123): every node
of the proposed grouping, listed group by group.  CPython iterates a set of
small non-negative integers in ascending numeric order, mirrored here by
`Finset.sort`; none of the asserted conditions depends on that order. -/
def orderNode : List (Finset ℕ) → List ℕ
| [] => []
| t :: rest => t.sort (· ≤ ·) ++ orderNode rest

/-- `order_row` (line 125): the current row numbers `map_n_r[node]` of the
listed nodes; `none` models the `KeyError` raised when a listed node is not
a key of `map_n_r`, whose keys are exactly the nodes `0..n-1` of the graph.
In every reachable state `map_n_r` is a bijection from the `n` nodes onto
the `n` rows and the embedding reads the physically permuted matrix through
it (`adj u v` is `adj_matrix[map_n_r[u], map_n_r[v]]`), so on the embedded
view `map_n_r` is the identity and the listed rows are the nodes
themselves. -/
def orderRow? (n : ℕ) (gn : List (Finset ℕ)) : Option (List ℕ) :=
if (orderNode gn).all (fun u => decide (u < n)) then some (orderNode gn) else none

/-- The mutable state of the row-switching pass of
`_rearrange_matrix_and_mappings` (lines 129-147): the matrix rows, the
temporary row storage `temp`, and the set `used` of row numbers already
consumed. -/
structure RowPass where
  mat : ℕ → ℕ → ℕ
  temp : ℕ → Option (ℕ → ℕ)
  used : Finset ℕ

/-- One iteration of the row-switching loop (lines 132-147): when the row
already sits at its target index nothing moves; otherwise the row about to
be overwritten is saved to `temp` (unless its index was already consumed as
a row number), and the incoming row is pulled from `temp` when an earlier
iteration saved it, or copied from the matrix otherwise.  Either way the
consumed row number joins `used`. -/
def rowStep (st : RowPass) (idx rowNum : ℕ) : RowPass :=
if idx = rowNum then { st with used := insert rowNum st.used }
else
  let temp1 := if idx ∈ st.used then st.temp
    else Function.update st.temp idx (some (st.mat idx))
  { mat := Function.update st.mat idx
      (match temp1 rowNum with
        | some row => row
        | none => st.mat rowNum)
    temp := temp1
    used := insert rowNum st.used }

/-- The whole row-switching pass: the loop body folded over
`enumerate(order_row)`, starting from the given matrix with empty `temp`
and empty `used`. -/
def rowPass (mat : ℕ → ℕ → ℕ) (ord : List ℕ) : RowPass :=
ord.enum.foldl (fun st p => rowStep st p.1 p.2) ⟨mat, fun _ => none, ∅⟩

/-- The source's `_rearrange_matrix_and_mappings`, as its effect on the
mappings and the cache: assert the count consistency (line 121), build
`order_row` (line 125, a `KeyError` for an unknown node), run the
row-switching pass, assert `len(used) == self.graph.order()` (line 148),
and only then install the new mappings and recalculate the block
properties; `none` models an escaping `AssertionError` or `KeyError`.  The
column-switching pass (lines 152-165) consumes the same `order_row`, so its
`used` set and its line-165 assert repeat the row-pass condition verbatim
and need no second check here.  On success the row/column permutation
merely reorders the physical matrix into the new contiguous block layout
while `map_n_r` is rewritten to match (line 169), leaving every entry
`adj u v` read through the mappings intact, so the permuted matrix itself
is invisible to the node-indexed embedding. -/
def rearrange? (s : St) (gn : List (Finset ℕ)) (ng : ℕ → ℕ) : Option St :=
if rearrangeCheck s.g.n gn then
  match orderRow? s.g.n gn with
  | none => none
  | some ord =>
    if (rowPass s.g.adj ord).used.card = s.g.n then
      some (recalc { s with gn := gn, ng := ng })
    else none
else none

/-- The source's `_add_new_group`: append an empty group, increment `k`, and
recalculate the block properties. -/
def addNewGroup (s : St) : St := recalc { s with gn := s.gn ++ [∅] }

/-- The source's `_move_node_to_new_group(node)`: remove the node from its
current group's member set, add it to the newest group, update `map_n_g`,
and rearrange (which re-asserts count consistency and recalculates the
cache). -/
def moveNodeToNewGroup (s : St) (x : ℕ) : Option St :=
rearrange?
  { s with
    gn := (s.gn.set (s.ng x) ((grp s (s.ng x)).erase x)).set (numGroups s - 1)
      (insert x (((s.gn.set (s.ng x) ((grp s (s.ng x)).erase x))).getD (numGroups s - 1) ∅)) }
  ((s.gn.set (s.ng x) ((grp s (s.ng x)).erase x)).set (numGroups s - 1)
    (insert x (((s.gn.set (s.ng x) ((grp s (s.ng x)).erase x))).getD (numGroups s - 1) ∅)))
  (Function.update s.ng x (numGroups s - 1))

/-- The density `outlier_score` writes into the cache while it simulates the
removal of one edge: `self.P[i][j] = self.w[i][j] / self.block_size(i, j)`
evaluated after the decrement — the plain ratio `(w - 1)/n`, not the smoothed
formula used everywhere else. -/
def outlierMutatedP (s : St) (i j : ℕ) : ℚ := (s.w i j - 1) / (blockSize s i j : ℚ)

/-- The state during `outlier_score`'s what-if evaluation: the cached
weight `w(i,j)` decremented and the cached density overwritten with the
unsmoothed ratio. -/
def outlierMutState (s : St) (i j : ℕ) : St :=
{ s with
  w := Function.update s.w i (Function.update (s.w i) j (s.w i j - 1))
  P := Function.update s.P i (Function.update (s.P i) j (outlierMutatedP s i j)) }

/-- The state after `outlier_score`'s manual restore (line 474 of the
source): the two mutated scalars written back. -/
def outlierRestState (s : St) (i j : ℕ) : St :=
{ outlierMutState s i j with
  w := Function.update (outlierMutState s i j).w i
    (Function.update ((outlierMutState s i j).w i) j (s.w i j))
  P := Function.update (outlierMutState s i j).P i
    (Function.update ((outlierMutState s i j).P i) j (s.P i j)) }

/-- The source's `outlier_score(group_i, group_j)` together with its effect
on the cached tables.  `Except.error` carries the state left behind by a
`ValueError` escaping from `total_cost` (the source has no `try/finally`, so
the manual restore on line 474 is skipped); `Except.ok` carries the final
state and the returned score. -/
noncomputable def outlierScore (s : St) (i j : ℕ) : Except St (St × ℝ) :=
if s.w i j = 0 then .ok (s, 0)
else
  match totalCost? s with
  | none => .error s
  | some cost =>
    match totalCost? (outlierMutState s i j) with
    | none => .error (outlierMutState s i j)
    | some cost1 => .ok (outlierRestState s i j, cost - cost1)

/-- The cached density a failed `outlier_score` call leaves behind (`none`
when the call returned normally). -/
def errCachedP (e : Except St (St × ℝ)) (i j : ℕ) : Option ℚ :=
match e with
| .error t => some (t.P i j)
| .ok _ => none

/-- The cached weight a failed `outlier_score` call leaves behind (`none`
when the call returned normally). -/
def errCachedW (e : Except St (St × ℝ)) (i j : ℕ) : Option ℚ :=
match e with
| .error t => some (t.w i j)
| .ok _ => none

/-- A list of groups partitions a node set when every node lies in exactly
one group and every group consists of nodes. -/
def isPartition (gn : List (Finset ℕ)) (nodes : Finset ℕ) : Prop :=
(∀ u ∈ nodes, gn.countP (fun t => decide (u ∈ t)) = 1) ∧ ∀ t ∈ gn, t ⊆ nodes

instance (gn : List (Finset ℕ)) (nodes : Finset ℕ) : Decidable (isPartition gn nodes) := by
unfold isPartition
infer_instance

/-- The group list built by the inner loop's reassignment step from an
assignment function: group `t` receives exactly the nodes assigned to `t`. -/
def assignPartition (n k : ℕ) (f : ℕ → ℕ) : List (Finset ℕ) :=
(List.range k).map fun t => (Finset.range n).filter fun u => f u = t

/-- The record `Autopart.__init__` assembles before its first
`_recalculate_block_properties` call: one group holding every node and an
empty cache. -/
def initBase (g : Graph) : St :=
{ g := g
  gn := [Finset.range g.n]
  ng := fun _ => 0
  w := fun _ _ => 0
  P := fun _ _ => 0
  step := 0 }

/-- The state built by `Autopart.__init__` before `_run` starts: one group
holding every node and a freshly computed cache. -/
def initState (g : Graph) : St := recalc (initBase g)

open Classical in
/-- Python's `min(iterable, key=f)` on a nonempty list: fold keeping the
current best, replacing it only on a strictly smaller key, so ties go to the
earliest element. -/
noncomputable def pyMinAux (f : ℕ → ℝ) : ℕ → List ℕ → ℕ
| best, [] => best
| best, x :: xs => if f x < f best then pyMinAux f x xs else pyMinAux f best xs

/-- Python's `min(l, key=f)` (the algorithm never applies it to an empty
sequence; `0` is a junk value for that case). -/
noncomputable def pyMin (f : ℕ → ℝ) : List ℕ → ℕ
| [] => 0
| x :: xs => pyMinAux f x xs

open Classical in
/-- Python's `max(iterable, key=f)`: fold replacing the best only on a
strictly larger key, so ties go to the earliest element. -/
noncomputable def pyMaxAux (f : ℕ → ℝ) : ℕ → List ℕ → ℕ
| best, [] => best
| best, x :: xs => if f best < f x then pyMaxAux f x xs else pyMaxAux f best xs

/-- Python's `max(l, key=f)`. -/
noncomputable def pyMax (f : ℕ → ℝ) : List ℕ → ℕ
| [] => 0
| x :: xs => pyMaxAux f x xs

/-- The group the inner loop's STEP 1 assigns to a node: the group with the
lowest `rearrange_cost`, ties broken by the iteration order of
`self.groups()` (lowest index first). -/
noncomputable def innerAssign (s : St) (x : ℕ) : ℕ :=
pyMin (rearrangeCost s x) (List.range (numGroups s))

/-- The `map_g_n` dictionary built by the inner loop's STEP 1. -/
noncomputable def innerNewGn (s : St) : List (Finset ℕ) :=
assignPartition s.g.n (numGroups s) (innerAssign s)

/-- The node list `list(self.map_g_n[group_r])` the splitting loop of `_run`
iterates over: a snapshot of the candidate group's members, taken before any
of them moves.  (CPython iterates a set of small non-negative integers in
ascending numeric order.) -/
def seedList (s : St) (r : ℕ) : List ℕ :=
(List.range s.g.n).filter fun u => decide (u ∈ grp s r)

/-- How a loop of the algorithm came to an end: its `epsilon` stop condition
fired, a `ValueError` (math domain error) escaped, the rearrangement
`assert` failed, or the fuel of the embedded loop ran out (the source's
`while True` has no such bound; fuel exhaustion never occurs when enough
fuel is supplied). -/
inductive ExitK
| stopped
| domainErr
| assertFail
| innerFuelOut
| outerFuelOut
deriving DecidableEq

/-- The observable outcome of a loop: final state, the `(previous, current)`
total-cost pair recorded at the end of each inner-loop iteration, the matrix
snapshots written by `_report_adj_matrix`, and how the loop exited. -/
structure LoopRes where
  s : St
  pairs : List (ℝ × ℝ)
  snaps : List (List (Finset ℕ) × ℕ)
  exit : ExitK

/-- The source's `_report_adj_matrix`: emit a snapshot of the permuted
matrix (determined by the current grouping) when the logging level is at
most `INFO = 20`, and increment `self.step` unconditionally. -/
def reportAdjMatrix (lvl : ℕ) (s : St) : St × List (List (Finset ℕ) × ℕ) :=
({ s with step := s.step + 1 }, if lvl ≤ 20 then [(s.gn, s.step)] else [])

open Classical in
/-- The source's `_inner_loop`, with explicit fuel standing in for
`while True`.  Each iteration reassigns every node to its cheapest group,
records the total cost before and after the rearrangement, and stops when
the decrease falls below `epsilon`. -/
noncomputable def innerLoop (lvl : ℕ) : ℕ → St → LoopRes
| 0, s => ⟨s, [], [], .innerFuelOut⟩
| fuel + 1, s =>
  match totalCost? s with
  | none => ⟨s, [], [], .domainErr⟩
  | some prev =>
    match rearrange? s (innerNewGn s) (innerAssign s) with
    | none => ⟨s, [], [], .assertFail⟩
    | some s1 =>
      let rep := reportAdjMatrix lvl s1
      match totalCost? rep.1 with
      | none => ⟨rep.1, [], rep.2, .domainErr⟩
      | some cur =>
        if prev - cur < eps then ⟨rep.1, [(prev, cur)], rep.2, .stopped⟩
        else
          let r := innerLoop lvl fuel rep.1
          ⟨r.s, (prev, cur) :: r.pairs, rep.2 ++ r.snaps, r.exit⟩

/-- STEP 2 of the source's `_run`: walk the splitting candidates in order,
moving each node whose predicted exclusive entropy is strictly below the
group's current per-node entropy.  The `Option ExitK` component reports an
escaping `ValueError` (from the entropy prediction) or `AssertionError`
(from the rearrangement triggered by a move). -/
noncomputable def seedLoop (r : ℕ) : St → List ℕ → St × Option ExitK
| s, [] => (s, none)
| s, x :: rest =>
  match groupEntropyPerNodeExclude? s r x with
  | none => (s, some .domainErr)
  | some ex =>
    if ex < groupEntropyPerNode s r then
      match moveNodeToNewGroup s x with
      | none => (s, some .assertFail)
      | some s' => seedLoop r s' rest
    else seedLoop r s rest

open Classical in
/-- The source's `_run` (the outer loop), with explicit fuel standing in for
`while True`: pick the group with maximal per-node entropy, add a new group,
seed the split, snapshot, run the inner loop, and stop when the total cost
fails to drop by `epsilon`. -/
noncomputable def outerLoop (lvl Fi : ℕ) : ℕ → St → LoopRes
| 0, s => ⟨s, [], [], .outerFuelOut⟩
| fuel + 1, s =>
  match totalCost? s with
  | none => ⟨s, [], [], .domainErr⟩
  | some prev =>
    let r0 := pyMax (groupEntropyPerNode s) (List.range (numGroups s))
    let s1 := addNewGroup s
    match seedLoop r0 s1 (seedList s1 r0) with
    | (s2, some e) => ⟨s2, [], [], e⟩
    | (s2, none) =>
      let rep := reportAdjMatrix lvl s2
      let ri := innerLoop lvl Fi rep.1
      match ri.exit with
      | .stopped =>
        match totalCost? ri.s with
        | none => ⟨ri.s, ri.pairs, rep.2 ++ ri.snaps, .domainErr⟩
        | some cur =>
          if prev - cur < eps then ⟨ri.s, ri.pairs, rep.2 ++ ri.snaps, .stopped⟩
          else
            let ro := outerLoop lvl Fi fuel ri.s
            ⟨ro.s, ri.pairs ++ ro.pairs, rep.2 ++ ri.snaps ++ ro.snaps, ro.exit⟩
      | e => ⟨ri.s, ri.pairs, rep.2 ++ ri.snaps, e⟩

/-- A complete run of the algorithm on a graph: `__init__` followed by
`_run`, at a given logging level and with the two loop fuels. -/
noncomputable def autopartRun (g : Graph) (lvl Fi Fo : ℕ) : LoopRes :=
outerLoop lvl Fi Fo (initState g)

/-- The result a caller consumes after a run: the final group-to-nodes
partition (`clusters()`) and the final total cost. -/
noncomputable def runResult (r : LoopRes) : List (Finset ℕ) × Option ℝ :=
(r.s.gn, totalCost? r.s)

/-- The claim's closed-form reading of `description_cost_group_sizes` for
`k > 1`, written from the specification text: the sum over group indices `g`
from `0` to `k - 2` of `ceil(log2(1 - k + g + sum of the descending-sorted
group sizes from position g to k - 1))`. -/
noncomputable def dcgsSpec (s : St) : ℝ :=
if numGroups s = 1 then 0
else ∑ t ∈ Finset.range (numGroups s - 1),
  (⌈log2 (1 - (numGroups s : ℝ) + (t : ℝ)
    + ∑ i ∈ Finset.Icc t (numGroups s - 1), ((sizesDesc s).getD i 0 : ℝ))⌉ : ℝ)

/-- The group sizes in ascending order, so that the first `m` entries are
the `m` smallest sizes. -/
def sizesAsc (s : St) : List ℕ := List.insertionSort (· ≤ ·) (groupSizes s)

/-- The sum of the `m` smallest group sizes. -/
def mSmallestSum (s : St) (m : ℕ) : ℕ := ((sizesAsc s).take m).sum

/-- The 3-node graph with directed edges `(0,1), (0,2), (1,0), (1,2)` (no
self-loops).  Running the algorithm on it, the inner loop's first iteration
strictly increases the total cost. -/
def G46 : Graph :=
⟨3, fun u v =>
  if (u = 0 ∧ v = 1) ∨ (u = 0 ∧ v = 2) ∨ (u = 1 ∧ v = 0) ∨ (u = 1 ∧ v = 2) then 1 else 0⟩

/-- The 3-node star graph with edges `(0,0), (0,1), (0,2)`.  Running the
algorithm on it raises a math domain error during the very first splitting
step: the predicted density for the block crossing the new group is
`(3 + 0.5)/(2 + 1) = 7/6 > 1`, so `log2(1 - 7/6)` is evaluated on a negative
number. -/
def G7 : Graph :=
⟨3, fun u v => if u = 0 ∧ (v = 0 ∨ v = 1 ∨ v = 2) then 1 else 0⟩

/-- A one-node graph with a self-loop: its single block has weight 1, the
case in which `outlier_score` caches density `(1-1)/1 = 0`. -/
def stC4 : St := initState ⟨1, fun _ _ => 1⟩

/-- A two-node graph with the single edge `(0,1)` and one group: block
weight 1, so `outlier_score(0,0)` mutates the cache and then dies inside
`total_cost`, skipping the restore. -/
def stC8 : St := initState ⟨2, fun u v => if u = 0 ∧ v = 1 then 1 else 0⟩

/-- A one-node graph with no edges: block weight 0, the `outlier_score`
early-return case. -/
def stZero : St := initState ⟨1, fun _ _ => 0⟩

/-- A state with group sizes `1, 1, 0` (two singleton groups and one empty
group): `description_cost_group_sizes` evaluates `log2(1 - 3 + 1 + 1 + 0) =
log2(0)` and raises. -/
def stC9 : St :=
recalc
  { g := ⟨2, fun _ _ => 0⟩
    gn := [{0}, {1}, ∅]
    ng := fun u => u
    w := fun _ _ => 0
    P := fun _ _ => 0
    step := 0 }

/-- The state `_move_node_to_new_group(node)` produces when its `assert`
passes: the node moved from its group to the newest group, `map_n_g`
updated, and the cache recalculated. -/
def movedState (s : St) (x : ℕ) : St :=
recalc
  { s with
    gn := (s.gn.set (s.ng x) ((grp s (s.ng x)).erase x)).set (numGroups s - 1)
      (insert x (((s.gn.set (s.ng x) ((grp s (s.ng x)).erase x))).getD (numGroups s - 1) ∅))
    ng := Function.update s.ng x (numGroups s - 1) }

/-- The state in which `_run` first calls `group_entropy_per_node_exclude`
on the star graph `G7`: one group holding all three nodes plus the freshly
added empty group. -/
def stC2bad : St := addNewGroup (initState G7)

/-- The analogous two-node edgeless state, on which the entropy prediction
is well defined. -/
def stC2w : St := addNewGroup (initState ⟨2, fun _ _ => 0⟩)

/-- A two-node graph split into two singleton groups, a state on which
`description_cost_group_sizes` returns a value. -/
def stC7 : St :=
recalc
  { g := ⟨2, fun _ _ => 0⟩
    gn := [{0}, {1}]
    ng := fun u => u
    w := fun _ _ => 0
    P := fun _ _ => 0
    step := 0 }

/-- The state of the `G46` run when `_run` adds the first new group: all
three nodes in group 0 plus the fresh empty group 1. -/
def sB46 : St := addNewGroup (initState G46)

/-- The `G46` run after the first splitting move (node 0 to group 1). -/
def sC46 : St := movedState sB46 0

/-- The `G46` run after the second splitting move (node 1 to group 1). -/
def sD46 : St := movedState sC46 1

/-- The `G46` run after the third splitting move: group 0 empty, group 1
holding all three nodes. -/
def sE46 : St := movedState sD46 2

/-- `sE46` after `_report_adj_matrix` bumps the step counter: the state on
which the inner loop runs. -/
def sE46s : St := { sE46 with step := sE46.step + 1 }

/-- The state produced by the first inner-loop rearrangement of the `G46`
run: nodes 0 and 1 in group 0, node 2 in group 1. -/
noncomputable def sF46 : St :=
recalc { sE46s with gn := [{0, 1}, {2}], ng := innerAssign sE46s }

/-- `sF46` after the step bump, the final state of the first (and only)
inner-loop iteration of the `G46` run. -/
noncomputable def sF46s : St := { sF46 with step := sF46.step + 1 }

/-- The state the single inner-loop iteration of the 1-node empty graph
produces before the step bump: the same one-group partition, rebuilt. -/
noncomputable def stZF : St :=
recalc { stZero with gn := innerNewGn stZero, ng := innerAssign stZero }

/-- `stZF` after the step bump. -/
noncomputable def stZFs : St := { stZF with step := stZF.step + 1 }

/-- A state whose cached block weights are exactly the weights recomputed
from the current adjacency matrix and groups — the invariant
`_recalculate_block_properties` establishes, and every loop re-establishes
before it evaluates `total_cost`. -/
def fresh (s : St) : Prop := ∀ i j, s.w i j = (blockWeightN s i j : ℚ)

/-- For a partition, the sum of the group sizes is the number of nodes. -/
theorem isPartition_sum_card {gn : List (Finset ℕ)} {nodes : Finset ℕ}
    (h : isPartition gn nodes) : (gn.map Finset.card).sum = nodes.card := by
induction gn generalizing nodes with
| nil =>
  obtain ⟨h1, _⟩ := h
  simp only [List.map_nil, List.sum_nil]
  by_contra hne
  obtain ⟨u, hu⟩ := Finset.card_pos.mp (Nat.pos_of_ne_zero fun hz => hne hz.symm)
  simpa using h1 u hu
| cons t rest ih =>
  obtain ⟨h1, h2⟩ := h
  have htsub : t ⊆ nodes := h2 t (List.mem_cons_self t rest)
  have hrest : isPartition rest (nodes \ t) := by
    constructor
    · intro u hu
      have hun : u ∈ nodes := (Finset.mem_sdiff.mp hu).1
      have hut : u ∉ t := (Finset.mem_sdiff.mp hu).2
      have := h1 u hun
      rwa [List.countP_cons, if_neg (by simpa using hut), Nat.add_zero] at this
    · intro t' ht' u hu
      have hun : u ∈ nodes := h2 t' (List.mem_cons_of_mem t ht') hu
      refine Finset.mem_sdiff.mpr ⟨hun, fun hut => ?_⟩
      have := h1 u hun
      rw [List.countP_cons, if_pos (by simpa using hut)] at this
      have hpos : 0 < rest.countP (fun t'' => decide (u ∈ t'')) :=
        List.countP_pos_iff.mpr ⟨t', ht', by simpa using hu⟩
      omega
  have hc := ih hrest
  simp only [List.map_cons, List.sum_cons, hc]
  rw [Finset.card_sdiff htsub]
  have := Finset.card_le_card htsub
  omega

/-- Every valid partition passes the count-consistency `assert` of
`_rearrange_matrix_and_mappings` (the entry count of `map_n_g` is the node
count). -/
theorem isPartition_rearrangeCheck {gn : List (Finset ℕ)} {nodes : Finset ℕ}
    (h : isPartition gn nodes) : rearrangeCheck nodes.card gn = true := by
have := isPartition_sum_card h
simp [rearrangeCheck, this]

/-- A node is listed in `order_node` exactly when some group holds it. -/
theorem mem_orderNode {gn : List (Finset ℕ)} {u : ℕ} :
    u ∈ orderNode gn ↔ ∃ t ∈ gn, u ∈ t := by
induction gn with
| nil => simp [orderNode]
| cons t rest ih =>
  rw [orderNode, List.mem_append, ih, Finset.mem_sort]
  simp

/-- `order_node` lists as many entries as the group sizes sum to. -/
theorem orderNode_length (gn : List (Finset ℕ)) :
    (orderNode gn).length = (gn.map Finset.card).sum := by
induction gn with
| nil => rfl
| cons t rest ih =>
  rw [orderNode, List.length_append, ih, Finset.length_sort, List.map_cons,
    List.sum_cons]

/-- A node occurs in `order_node` once per group holding it. -/
theorem orderNode_count (gn : List (Finset ℕ)) (u : ℕ) :
    (orderNode gn).count u = gn.countP (fun t => decide (u ∈ t)) := by
induction gn with
| nil => rfl
| cons t rest ih =>
  rw [orderNode, List.count_append, ih, List.countP_cons]
  by_cases h : u ∈ t
  · rw [if_pos (by simpa using h), List.count_eq_one_of_mem (Finset.sort_nodup _ t)
      ((Finset.mem_sort _).mpr h)]
    omega
  · rw [if_neg (by simpa using h), List.count_eq_zero_of_not_mem
      (fun hm => h ((Finset.mem_sort _).mp hm))]
    omega

/-- Each iteration of the row-switching loop consumes exactly its row
number. -/
theorem rowStep_used (st : RowPass) (idx rowNum : ℕ) :
    (rowStep st idx rowNum).used = insert rowNum st.used := by
rw [rowStep]
split
· rfl
· rfl

theorem rowPass_foldl_used (l : List (ℕ × ℕ)) (st : RowPass) :
    (l.foldl (fun a p => rowStep a p.1 p.2) st).used
      = st.used ∪ (l.map Prod.snd).toFinset := by
induction l generalizing st with
| nil => simp
| cons p rest ih =>
  rw [List.foldl_cons, ih, rowStep_used, List.map_cons, List.toFinset_cons]
  ext u
  simp only [Finset.mem_union, Finset.mem_insert, List.mem_toFinset]
  tauto

/-- After the row-switching pass, `used` holds exactly the row numbers of
`order_row`: the set whose size the line-148 `assert` compares with the
node count. -/
theorem rowPass_used (mat : ℕ → ℕ → ℕ) (ord : List ℕ) :
    (rowPass mat ord).used = ord.toFinset := by
rw [rowPass, rowPass_foldl_used]
simp [List.enum_map_snd]

/-- Every genuine partition of the node set passes all of the checks of
`_rearrange_matrix_and_mappings` — the count `assert`, the `order_row`
construction and the `used` `assert`s — and the new mappings are
installed. -/
theorem rearrange?_some_of_isPartition (s : St) (gn : List (Finset ℕ)) (ng : ℕ → ℕ)
    (h : isPartition gn (Finset.range s.g.n)) :
    rearrange? s gn ng = some (recalc { s with gn := gn, ng := ng }) := by
have hmem : ∀ u, u ∈ orderNode gn ↔ u ∈ Finset.range s.g.n := by
  intro u
  rw [mem_orderNode]
  constructor
  · rintro ⟨t, ht, hu⟩
    exact h.2 t ht hu
  · intro hu
    have hc := h.1 u hu
    have hpos : 0 < gn.countP (fun t => decide (u ∈ t)) := by omega
    obtain ⟨t, ht, hp⟩ := List.countP_pos_iff.mp hpos
    exact ⟨t, ht, by simpa using hp⟩
have htof : (orderNode gn).toFinset = Finset.range s.g.n := by
  ext u
  rw [List.mem_toFinset]
  exact hmem u
have hcount : rearrangeCheck s.g.n gn = true := by
  have := isPartition_sum_card h
  rw [Finset.card_range] at this
  simp [rearrangeCheck, this]
have hall : (orderNode gn).all (fun u => decide (u < s.g.n)) = true := by
  rw [List.all_eq_true]
  intro u hu
  simpa using Finset.mem_range.mp ((hmem u).mp hu)
have hord : orderRow? s.g.n gn = some (orderNode gn) := by
  rw [orderRow?, if_pos hall]
rw [rearrange?, if_pos hcount, hord]
show (if (rowPass s.g.adj (orderNode gn)).used.card = s.g.n then
    some (recalc { s with gn := gn, ng := ng }) else none)
  = some (recalc { s with gn := gn, ng := ng })
rw [rowPass_used, htof, Finset.card_range, if_pos rfl]

/-- A grouping that `_rearrange_matrix_and_mappings` accepts is a genuine
partition of the node set: the count `assert`, the `KeyError`-free
`order_row` construction and the `used` `assert` together force every node
into exactly one group. -/
theorem isPartition_of_rearrange?_some {s : St} {gn : List (Finset ℕ)}
    {ng : ℕ → ℕ} {s' : St} (h : rearrange? s gn ng = some s') :
    isPartition gn (Finset.range s.g.n) := by
by_cases hcount : rearrangeCheck s.g.n gn = true
swap
· rw [rearrange?, if_neg hcount] at h
  exact absurd h (by simp)
by_cases hall : (orderNode gn).all (fun u => decide (u < s.g.n)) = true
swap
· rw [rearrange?, if_pos hcount,
    show orderRow? s.g.n gn = none from by rw [orderRow?, if_neg hall]] at h
  simp at h
rw [rearrange?, if_pos hcount,
  show orderRow? s.g.n gn = some (orderNode gn) from by rw [orderRow?, if_pos hall]]
  at h
by_cases hused : (rowPass s.g.adj (orderNode gn)).used.card = s.g.n
swap
· simp [hused] at h
rw [rowPass_used] at hused
have hsum : s.g.n = (gn.map Finset.card).sum := by
  rw [rearrangeCheck] at hcount
  exact beq_iff_eq.mp hcount
have hlen : (orderNode gn).length = s.g.n := by rw [orderNode_length, ← hsum]
have hnd : (orderNode gn).Nodup := by
  have h1 : (orderNode gn).dedup.length = (orderNode gn).length := by
    rw [← List.card_toFinset, hused, hlen]
  exact List.dedup_eq_self.mp (List.Sublist.eq_of_length (List.dedup_sublist _) h1)
have htof : (orderNode gn).toFinset = Finset.range s.g.n := by
  apply Finset.eq_of_subset_of_card_le
  · intro u hu
    rw [List.mem_toFinset] at hu
    have := List.all_eq_true.mp hall u hu
    simpa [Finset.mem_range] using this
  · rw [hused, Finset.card_range]
constructor
· intro u hu
  rw [← orderNode_count]
  exact List.count_eq_one_of_mem hnd (by rw [← List.mem_toFinset, htof]; exact hu)
· intro t ht u hu
  rw [← htof, List.mem_toFinset]
  exact mem_orderNode.mpr ⟨t, ht, hu⟩

/-- When the proposed grouping is a genuine partition, all the
rearrangement checks pass and `_move_node_to_new_group` produces exactly
`movedState`. -/
theorem moveNodeToNewGroup_eq {s : St} {x : ℕ}
    (h : isPartition
      ((s.gn.set (s.ng x) ((grp s (s.ng x)).erase x)).set (numGroups s - 1)
        (insert x (((s.gn.set (s.ng x) ((grp s (s.ng x)).erase x))).getD
          (numGroups s - 1) ∅))) (Finset.range s.g.n)) :
    moveNodeToNewGroup s x = some (movedState s x) := by
rw [moveNodeToNewGroup]
exact rearrange?_some_of_isPartition _ _ _ h

/-- The assignment-built group list is a partition of the nodes whenever the
assignment targets existing groups. -/
theorem assignPartition_isPartition (n k : ℕ) (f : ℕ → ℕ)
    (hf : ∀ u, u < n → f u < k) : isPartition (assignPartition n k f) (Finset.range n) := by
constructor
· intro u hu
  have hun : u < n := Finset.mem_range.mp hu
  rw [assignPartition, List.countP_map]
  rw [List.countP_congr (q := fun t => t == f u) (fun t _ => by
    simp only [Function.comp_apply, decide_eq_true_eq, beq_iff_eq, Finset.mem_filter,
      Finset.mem_range]
    constructor
    · exact fun h' => h'.2.symm
    · exact fun h' => ⟨hun, h'.symm⟩)]
  have : (List.range k).countP (fun t => t == f u) = (List.range k).count (f u) := rfl
  rw [this, List.count_eq_one_of_mem (List.nodup_range k)
    (List.mem_range.mpr (hf u hun))]
· intro t ht
  rw [assignPartition] at ht
  obtain ⟨i, _, rfl⟩ := List.mem_map.mp ht
  exact Finset.filter_subset _ _

theorem log2_one : log2 1 = 0 := Real.logb_one

theorem log2_two : log2 2 = 1 := Real.logb_self_eq_one (by norm_num)

theorem log2_two_pow (n : ℕ) : log2 ((2 : ℝ) ^ n) = n := by
rw [log2, Real.logb_pow, Real.logb_self_eq_one (by norm_num), mul_one]

theorem log2_lt_log2 {x y : ℝ} (hx : 0 < x) (h : x < y) : log2 x < log2 y :=
Real.logb_lt_logb (by norm_num) hx h

theorem log2_le_log2 {x y : ℝ} (hx : 0 < x) (h : x ≤ y) : log2 x ≤ log2 y :=
Real.logb_le_logb_of_le (by norm_num) hx h

theorem log2_nonneg {x : ℝ} (h : 1 ≤ x) : 0 ≤ log2 x := Real.logb_nonneg (by norm_num) h

/-- Locate `⌈log2 x⌉` between consecutive powers of two:
if `2^z < 2x` and `x ≤ 2^z` then the ceiling of `log2 x` is `z`. -/
theorem ceil_log2_eq {x : ℝ} (z : ℕ) (h0 : 0 < x) (h1 : (2 : ℝ) ^ z < 2 * x)
    (h2 : x ≤ (2 : ℝ) ^ z) : ⌈log2 x⌉ = (z : ℤ) := by
rw [Int.ceil_eq_iff]
constructor
· have hlt : log2 ((2 : ℝ) ^ z / 2) < log2 x := by
    apply log2_lt_log2 (by positivity)
    linarith
  have he : log2 ((2 : ℝ) ^ z / 2) = (z : ℝ) - 1 := by
    rw [log2, Real.logb_div (by positivity) (by norm_num)]
    have := log2_two_pow z
    have := log2_two
    simp only [log2] at *
    linarith
  push_cast
  linarith
· have hle : log2 x ≤ log2 ((2 : ℝ) ^ z) := log2_le_log2 h0 h2
  rw [log2_two_pow] at hle
  push_cast
  linarith

theorem logStar_one : logStar 1 = 0 := by
have h1 : log2 ((1 : ℕ) : ℝ) = 0 := by rw [Nat.cast_one, log2_one]
rw [logStar, h1]
show (if eps < (0 : ℝ) then logStarAux 1 (0 + 0) (log2 0) else 0) = 0
rw [if_neg]
rw [eps]
norm_num

theorem logStar_two : logStar 2 = 1 := by
have h1 : log2 ((2 : ℕ) : ℝ) = 1 := by rw [Nat.cast_ofNat, log2_two]
rw [logStar, h1]
show (if eps < (1 : ℝ) then logStarAux 2 (0 + 1) (log2 1) else 0) = 1
rw [if_pos (by rw [eps]; norm_num), log2_one]
show (if eps < (0 : ℝ) then logStarAux 1 (0 + 1 + 0) (log2 0) else 0 + 1) = 1
rw [if_neg (by rw [eps]; norm_num)]
norm_num

theorem logStarAux_nonneg : ∀ (fuel : ℕ) (acc val : ℝ), 0 ≤ acc → 0 ≤ logStarAux fuel acc val
| 0, acc, _, h => h
| fuel + 1, acc, val, h => by
  rw [logStarAux]
  split
  · refine logStarAux_nonneg fuel _ _ ?_
    have : (0 : ℝ) < eps := by rw [eps]; norm_num
    linarith
  · exact h

theorem logStar_nonneg (k : ℕ) : 0 ≤ logStar k := logStarAux_nonneg _ _ _ le_rfl

/-- Group `i`'s member set is one of the list's entries when `i` is in
range. -/
theorem grp_mem {s : St} {i : ℕ} (h : i < numGroups s) : grp s i ∈ s.gn := by
rw [grp, List.getD_eq_getElem s.gn ∅ h]
exact List.getElem_mem h

/-- A node can only sit in a group whose index is in range. -/
theorem lt_numGroups_of_mem_grp {s : St} {i x : ℕ} (h : x ∈ grp s i) : i < numGroups s := by
by_contra hlt
rw [grp, List.getD_eq_default s.gn ∅ (not_lt.mp hlt)] at h
exact absurd h (Finset.not_mem_empty x)

/-- Moving a node out of its group into the newest group preserves the
partition property of the proposed group list. -/
theorem movedGn_isPartition (s : St) (x : ℕ)
    (hpart : isPartition s.gn (Finset.range s.g.n))
    (hx : x ∈ grp s (s.ng x)) (hk : 0 < numGroups s) :
    isPartition
      ((s.gn.set (s.ng x) ((grp s (s.ng x)).erase x)).set (numGroups s - 1)
        (insert x (((s.gn.set (s.ng x) ((grp s (s.ng x)).erase x))).getD
          (numGroups s - 1) ∅))) (Finset.range s.g.n) := by
have hng : numGroups s = s.gn.length := rfl
have hgi : s.ng x < numGroups s := lt_numGroups_of_mem_grp hx
have hxn : x ∈ Finset.range s.g.n := hpart.2 _ (grp_mem hgi) hx
set gi := s.ng x with hgidef
set l1 := s.gn.set gi ((grp s gi).erase x) with hl1
have hlen1 : l1.length = s.gn.length := List.length_set s.gn gi _
have hlast : numGroups s - 1 < s.gn.length := by omega
have hlast1 : numGroups s - 1 < l1.length := by omega
have hgetD : l1.getD (numGroups s - 1) ∅ = l1[numGroups s - 1] :=
  List.getD_eq_getElem l1 ∅ hlast1
set tl := l1[numGroups s - 1] with htl
set l2 := l1.set (numGroups s - 1) (insert x (l1.getD (numGroups s - 1) ∅)) with hl2
have hl2' : l2 = l1.set (numGroups s - 1) (insert x tl) := by rw [hl2, hgetD]
have hsgn : ∀ t, (ht : t < s.gn.length) → s.gn[t] = grp s t := by
  intro t ht
  rw [grp, List.getD_eq_getElem s.gn ∅ ht]
have hpart2 : isPartition l2 (Finset.range s.g.n) := by
  constructor
  · intro u hu
    have hc := hpart.1 u hu
    have hcount1 : l1.countP (fun t => decide (u ∈ t)) =
        (s.gn.countP (fun t => decide (u ∈ t)) - if u ∈ grp s gi then 1 else 0)
          + if u ∈ (grp s gi).erase x then 1 else 0 := by
      rw [hl1, List.countP_set _ _ _ _ (by omega)]
      rw [hsgn gi (by omega)]
      by_cases h1 : u ∈ grp s gi <;> by_cases h2 : u ∈ (grp s gi).erase x <;>
        simp [h1, h2]
    have hcount2 : l2.countP (fun t => decide (u ∈ t)) =
        (l1.countP (fun t => decide (u ∈ t)) - if u ∈ tl then 1 else 0)
          + if u ∈ insert x tl then 1 else 0 := by
      rw [hl2', List.countP_set _ _ _ _ hlast1]
      by_cases h1 : u ∈ tl <;> by_cases h2 : u ∈ insert x tl <;> simp [h1, h2]
    by_cases hux : u = x
    · subst hux
      have h1 : l1.countP (fun t => decide (u ∈ t)) = 0 := by
        rw [hcount1, if_pos hx, if_neg (Finset.not_mem_erase u _)]
        omega
      have h2 : u ∉ tl := by
        intro hmem
        have := List.countP_eq_zero.mp h1 tl (htl ▸ List.getElem_mem hlast1)
        simp only [decide_eq_true_eq] at this
        exact this hmem
      rw [hcount2, h1, if_neg h2, if_pos (Finset.mem_insert_self u _)]
    · have he : ((u ∈ (grp s gi).erase x)) ↔ (u ∈ grp s gi) := by
        by_cases h' : u ∈ grp s gi <;> simp [Finset.mem_erase, hux, h']
      have h1 : l1.countP (fun t => decide (u ∈ t)) = 1 := by
        rw [hcount1, hc]
        by_cases h' : u ∈ grp s gi
        · rw [if_pos h', if_pos (he.mpr h')]
        · rw [if_neg h', if_neg (fun hh => h' (he.mp hh))]
      have hi : (u ∈ insert x tl) ↔ (u ∈ tl) := by
        by_cases h' : u ∈ tl <;> simp [Finset.mem_insert, hux, h']
      rw [hcount2, h1]
      by_cases h' : u ∈ tl
      · rw [if_pos h', if_pos (hi.mpr h')]
      · rw [if_neg h', if_neg (fun hh => h' (hi.mp hh))]
  · intro t ht
    rw [hl2'] at ht
    rcases List.mem_or_eq_of_mem_set ht with ht1 | rfl
    · rcases List.mem_or_eq_of_mem_set (hl1 ▸ ht1) with ht2 | rfl
      · exact hpart.2 t ht2
      · exact fun u hu => hpart.2 _ (grp_mem hgi) (Finset.mem_of_mem_erase hu)
    · intro u hu
      rcases Finset.mem_insert.mp hu with rfl | hu'
      · exact hxn
      · have hmem : tl ∈ l1 := htl ▸ List.getElem_mem hlast1
        rcases List.mem_or_eq_of_mem_set (hl1 ▸ hmem) with h2 | h2
        · exact hpart.2 _ h2 hu'
        · rw [h2] at hu'
          exact hpart.2 _ (grp_mem hgi) (Finset.mem_of_mem_erase hu')
exact hpart2

/-- Moving a node to the newest group keeps the grouping a partition and
succeeds (its `assert`s pass). -/
theorem moveNode_isPartition (s : St) (x : ℕ)
    (hpart : isPartition s.gn (Finset.range s.g.n))
    (hx : x ∈ grp s (s.ng x)) (hk : 0 < numGroups s) :
    ∃ s', moveNodeToNewGroup s x = some s' ∧ isPartition s'.gn (Finset.range s.g.n) := by
have h2 := movedGn_isPartition s x hpart hx hk
exact ⟨movedState s x, moveNodeToNewGroup_eq h2, h2⟩

theorem dcgs?_one {s : St} (h : numGroups s = 1) : dcgs? s = some 0 := by
rw [dcgs?, if_pos h]

theorem dcgs?_some {s : St} (h1 : numGroups s ≠ 1) (h2 : dcgsErr s = false) :
    dcgs? s = some (dcgsVal s) := by
rw [dcgs?, if_neg h1, if_neg (by rw [h2]; exact Bool.false_ne_true)]

theorem dcgs?_none {s : St} (h1 : numGroups s ≠ 1) (h2 : dcgsErr s = true) :
    dcgs? s = none := by
rw [dcgs?, if_neg h1, if_pos h2]

theorem totalCost?_some {s : St} {d : ℝ} (h1 : dcgs? s = some d)
    (h2 : codeCostErr s = false) :
    totalCost? s = some (logStar (numGroups s) + d + dcbw s + codeCost s) := by
rw [totalCost?, descriptionCost?, h1]
show (if codeCostErr s = true then none else some _) = _
rw [if_neg (by rw [h2]; exact Bool.false_ne_true)]

theorem totalCost?_none_code {s : St} {d : ℝ} (h1 : dcgs? s = some d)
    (h2 : codeCostErr s = true) : totalCost? s = none := by
rw [totalCost?, descriptionCost?, h1]
show (if codeCostErr s = true then none else some _) = _
rw [if_pos h2]

theorem totalCost?_none_dcgs {s : St} (h1 : dcgs? s = none) : totalCost? s = none := by
rw [totalCost?, descriptionCost?, h1]

theorem outlierMutState_P (s : St) (i j : ℕ) :
    (outlierMutState s i j).P i j = outlierMutatedP s i j := by
show Function.update s.P i (Function.update (s.P i) j (outlierMutatedP s i j)) i j
  = outlierMutatedP s i j
rw [Function.update_same, Function.update_same]

theorem outlierMutState_w (s : St) (i j : ℕ) :
    (outlierMutState s i j).w i j = s.w i j - 1 := by
show Function.update s.w i (Function.update (s.w i) j (s.w i j - 1)) i j = s.w i j - 1
rw [Function.update_same, Function.update_same]

theorem codeCostErr_eq_false {s : St}
    (h : ∀ i < numGroups s, ∀ j < numGroups s, 0 < s.P i j ∧ s.P i j < 1) :
    codeCostErr s = false := by
rw [codeCostErr, List.any_eq_false]
intro i hi
rw [List.mem_range] at hi
simp only [List.any_eq_true, List.mem_range, not_exists, not_and, Bool.or_eq_true,
  decide_eq_true_eq, not_or]
intro j hj
exact ⟨by linarith [(h i hi j hj).1], by linarith [(h i hi j hj).2]⟩

theorem codeCostErr_eq_true {s : St} {i j : ℕ} (hi : i < numGroups s)
    (hj : j < numGroups s) (h : s.P i j ≤ 0 ∨ 1 ≤ s.P i j) : codeCostErr s = true := by
rw [codeCostErr, List.any_eq_true]
refine ⟨i, List.mem_range.mpr hi, ?_⟩
rw [List.any_eq_true]
refine ⟨j, List.mem_range.mpr hj, ?_⟩
simpa using h

/-- The `outlier_score` run that dies inside the second `total_cost` call:
the error carries the mutated cache. -/
theorem outlierScore_error_mut {s : St} {i j : ℕ} {c : ℝ} (h0 : ¬s.w i j = 0)
    (h1 : totalCost? s = some c) (h2 : totalCost? (outlierMutState s i j) = none) :
    outlierScore s i j = .error (outlierMutState s i j) := by
rw [outlierScore, if_neg h0]
simp only [h1, h2]

/-- The block weight never exceeds the block size when the matrix entries
are at most 1. -/
theorem blockWeightN_le_blockSize (s : St) (i j : ℕ)
    (h01 : ∀ u v, s.g.adj u v ≤ 1) : blockWeightN s i j ≤ blockSize s i j := by
rw [blockWeightN, blockSize, groupSize, groupSize]
calc ∑ u ∈ grp s i, ∑ v ∈ grp s j, s.g.adj u v
    ≤ ∑ _u ∈ grp s i, (grp s j).card * 1 := by
      refine Finset.sum_le_sum fun u _ => ?_
      calc ∑ v ∈ grp s j, s.g.adj u v ≤ ∑ _v ∈ grp s j, 1 :=
            Finset.sum_le_sum fun v _ => h01 u v
        _ = (grp s j).card * 1 := by rw [Finset.sum_const, smul_eq_mul]
  _ = (grp s i).card * (grp s j).card := by
      rw [Finset.sum_const, smul_eq_mul, mul_one, mul_comm]

/-- C5: after every rearrangement — the initial construction, a move of a
node to the newest group, and the inner loop's node reassignment — every
node of the graph belongs to exactly one group, and the sum of the group
sizes equals the total node count. -/
theorem c5_partition_invariant (g : Graph) (s : St) (x : ℕ) (f : ℕ → ℕ)
    (hpart : isPartition s.gn (Finset.range s.g.n))
    (hx : x ∈ grp s (s.ng x)) (hk : 0 < numGroups s)
    (hf : ∀ u, u < s.g.n → f u < numGroups s) :
    (isPartition (initState g).gn (Finset.range g.n)
      ∧ ((initState g).gn.map Finset.card).sum = g.n)
    ∧ (∃ s', moveNodeToNewGroup s x = some s'
        ∧ isPartition s'.gn (Finset.range s.g.n)
        ∧ (s'.gn.map Finset.card).sum = s.g.n)
    ∧ (isPartition (assignPartition s.g.n (numGroups s) f) (Finset.range s.g.n)
      ∧ ((assignPartition s.g.n (numGroups s) f).map Finset.card).sum = s.g.n) := by
have hinit : isPartition (initState g).gn (Finset.range g.n) := by
  constructor
  · intro u hu
    show List.countP _ [Finset.range g.n] = 1
    rw [List.countP_cons, List.countP_nil, if_pos (by simpa using hu)]
  · intro t ht
    have : t = Finset.range g.n := by simpa [initState, initBase, recalc] using ht
    rw [this]
refine ⟨⟨hinit, ?_⟩, ?_, ?_⟩
· have := isPartition_sum_card hinit
  rwa [Finset.card_range] at this
· obtain ⟨s', h1, h2⟩ := moveNode_isPartition s x hpart hx hk
  refine ⟨s', h1, h2, ?_⟩
  have := isPartition_sum_card h2
  rwa [Finset.card_range] at this
· have hp := assignPartition_isPartition s.g.n (numGroups s) f hf
  refine ⟨hp, ?_⟩
  have := isPartition_sum_card hp
  rwa [Finset.card_range] at this

theorem c5_partition_invariant_witness :
    (isPartition (initState ⟨1, fun _ _ => 0⟩).gn (Finset.range (1 : ℕ))
      ∧ ((initState ⟨1, fun _ _ => 0⟩).gn.map Finset.card).sum = 1)
    ∧ (∃ s', moveNodeToNewGroup stC9 0 = some s'
        ∧ isPartition s'.gn (Finset.range stC9.g.n)
        ∧ (s'.gn.map Finset.card).sum = stC9.g.n)
    ∧ (isPartition (assignPartition stC9.g.n (numGroups stC9) fun _ => 0)
        (Finset.range stC9.g.n)
      ∧ ((assignPartition stC9.g.n (numGroups stC9) fun _ => 0).map Finset.card).sum
          = stC9.g.n) :=
c5_partition_invariant ⟨1, fun _ _ => 0⟩ stC9 0 (fun _ => 0) (by decide) (by decide)
  (by decide) (by decide)

/-- C6 counterexample: on the two-node graph of `stC8`, the malformed
grouping that places node `0` in two groups and node `1` in none has
matching counts, so it passes the only validation run before the
permutation begins (the line-121 count `assert`) although it is not a
partition of `{0, 1}`; the row-switching pass then overwrites row `1` with
row `0` — the entry at `(1, 1)` becomes `1` where the matrix held `0` —
before the line-148 `len(used) == order` `assert` fails (`used` ends up as
the single row `{0}`), so the rearrangement raises only after the matrix
has been mutated, and the mutation is not rolled back. -/
theorem c6_counterexample :
    rearrangeCheck stC8.g.n [{0}, {0}] = true
    ∧ ¬ isPartition [{0}, {0}] (Finset.range stC8.g.n)
    ∧ rearrange? stC8 [{0}, {0}] (fun _ => 0) = none
    ∧ (rowPass stC8.g.adj (orderNode [{0}, {0}])).used = {0}
    ∧ (rowPass stC8.g.adj (orderNode [{0}, {0}])).mat 1 1 = 1
    ∧ stC8.g.adj 1 1 = 0 := by
have hord : orderNode [({0} : Finset ℕ), {0}] = [0, 0] := by
  simp [orderNode, Finset.sort_singleton]
have horow : orderRow? stC8.g.n [{0}, {0}] = some [0, 0] := by
  rw [orderRow?, hord, if_pos (by decide)]
refine ⟨rfl, by decide, ?_, ?_, ?_, rfl⟩
· rw [rearrange?, if_pos (show rearrangeCheck stC8.g.n [{0}, {0}] = true from rfl),
    horow]
  show (if (rowPass stC8.g.adj [0, 0]).used.card = stC8.g.n then
      some (recalc { stC8 with gn := [{0}, {0}], ng := fun _ => 0 }) else none) = none
  rw [if_neg (by decide)]
· rw [hord]
  decide
· rw [hord]
  decide

/-- C6 (amended): `_rearrange_matrix_and_mappings` installs a proposed
grouping exactly when it is a genuine partition of the node set — every
malformed partition makes the count `assert`, the `order_row` lookup or the
`len(used)` `assert` raise before the mappings are written — but the only
validation performed before the permutation begins is the count comparison
of the line-121 `assert`, so a count-matching malformed partition is caught
only after the row pass has started overwriting matrix rows. -/
theorem c6_rearrange_validation (s : St) (gn : List (Finset ℕ)) (ng : ℕ → ℕ) :
    ((∃ s', rearrange? s gn ng = some s') ↔ isPartition gn (Finset.range s.g.n))
    ∧ (rearrangeCheck s.g.n gn = true ↔ s.g.n = (gn.map Finset.card).sum) := by
constructor
· constructor
  · rintro ⟨s', h⟩
    exact isPartition_of_rearrange?_some h
  · intro h
    exact ⟨_, rearrange?_some_of_isPartition s gn ng h⟩
· rw [rearrangeCheck]
  exact beq_iff_eq

/-- C4 (amended): every density cached by
`_recalculate_block_properties` lies strictly between 0 and 1 (given 0/1
matrix entries), but the density `outlier_score` temporarily caches is the
unsmoothed ratio `(w - 1)/n`, which equals 0 — outside the claimed open
interval — exactly on blocks of weight 1. -/
theorem smoothedDensity_bounds {w n : ℚ} (h0 : 0 ≤ w) (h1 : w ≤ n) :
    0 < smoothedDensity w n ∧ smoothedDensity w n < 1 := by
rw [smoothedDensity]
constructor
· apply div_pos <;> linarith
· rw [div_lt_one (by linarith)]
  linarith

theorem recalc_P_bounds (s : St) (i j : ℕ) (h01 : ∀ u v, s.g.adj u v ≤ 1) :
    0 < (recalc s).P i j ∧ (recalc s).P i j < 1 := by
have hw0 : (0 : ℚ) ≤ (blockWeightN s i j : ℚ) := by positivity
have hwn : (blockWeightN s i j : ℚ) ≤ (blockSize s i j : ℚ) := by
  exact_mod_cast blockWeightN_le_blockSize s i j h01
exact smoothedDensity_bounds hw0 hwn

theorem c4_density_bounds_amended (s : St) (i j : ℕ)
    (h01 : ∀ u v, s.g.adj u v ≤ 1) :
    (0 < (recalc s).P i j ∧ (recalc s).P i j < 1)
    ∧ (s.w i j = 1 → outlierMutatedP s i j = 0) := by
constructor
· exact recalc_P_bounds s i j h01
· intro h
  rw [outlierMutatedP, h]
  norm_num

theorem c4_density_bounds_amended_witness :
    (0 < (recalc stC4).P 0 0 ∧ (recalc stC4).P 0 0 < 1)
    ∧ (stC4.w 0 0 = 1 → outlierMutatedP stC4 0 0 = 0) :=
c4_density_bounds_amended stC4 0 0 fun _ _ => le_refl 1

/-- C4 counterexample: on the one-node graph with a self-loop (single block
of weight 1 and size 1), the call `outlier_score(0, 0)` caches the density
`(1 - 1)/1 = 0` — exactly 0, not inside `(0, 1)` — and then dies inside
`total_cost` (`log2(0)`), so the zero density is also what the cache still
holds when the call ends. -/
theorem c4_counterexample : errCachedP (outlierScore stC4 0 0) 0 0 = some 0 := by
have hw : stC4.w 0 0 = 1 := rfl
have hP4 : stC4.P 0 0 = 3 / 4 := by
  show smoothedDensity ((blockWeightN (initBase ⟨1, fun _ _ => 1⟩) 0 0 : ℕ) : ℚ)
    ((blockSize (initBase ⟨1, fun _ _ => 1⟩) 0 0 : ℕ) : ℚ) = 3 / 4
  rw [show blockWeightN (initBase ⟨1, fun _ _ => 1⟩) 0 0 = 1 from rfl,
    show blockSize (initBase ⟨1, fun _ _ => 1⟩) 0 0 = 1 from rfl, smoothedDensity]
  norm_num
have hk : numGroups stC4 = 1 := rfl
have hce : codeCostErr stC4 = false := by
  refine codeCostErr_eq_false ?_
  intro i hi j hj
  rw [hk] at hi hj
  interval_cases i
  interval_cases j
  rw [hP4]
  norm_num
have hmutP : (outlierMutState stC4 0 0).P 0 0 = 0 := by
  rw [outlierMutState_P, outlierMutatedP, hw]
  norm_num
have hmutK : numGroups (outlierMutState stC4 0 0) = 1 := rfl
have hceMut : codeCostErr (outlierMutState stC4 0 0) = true :=
  codeCostErr_eq_true (i := 0) (j := 0) (by rw [hmutK]; norm_num) (by rw [hmutK]; norm_num)
    (Or.inl (by rw [hmutP]))
rw [outlierScore_error_mut (by rw [hw]; norm_num) (totalCost?_some (dcgs?_one hk) hce)
  (totalCost?_none_code (dcgs?_one hmutK) hceMut)]
rw [show errCachedP (Except.error (outlierMutState stC4 0 0)) 0 0
  = some ((outlierMutState stC4 0 0).P 0 0) from rfl, hmutP]

/-- C8 (amended): `outlier_score` returns 0 on a zero-weight block leaving
the state untouched, and on the successful path it restores the two cached
scalars exactly (the result state is the input state, so no other state is
touched either); but when the inner `total_cost` evaluation raises, the
exception propagates and the mutated weight `w - 1` and density `(w - 1)/n`
are left in the cache. -/
theorem c8_outlier_frame_amended (s : St) (i j : ℕ) :
    (s.w i j = 0 → outlierScore s i j = .ok (s, 0))
    ∧ (∀ t r, outlierScore s i j = .ok (t, r) → t = s)
    ∧ (∀ t, outlierScore s i j = .error t →
        t = s ∨ (t.w i j = s.w i j - 1 ∧ t.P i j = outlierMutatedP s i j)) := by
have hrest : outlierRestState s i j = s := by
  have hw : (outlierRestState s i j).w = s.w := by
    show Function.update
        (Function.update s.w i (Function.update (s.w i) j (s.w i j - 1))) i
        (Function.update
          (Function.update s.w i (Function.update (s.w i) j (s.w i j - 1)) i) j
          (s.w i j)) = s.w
    rw [Function.update_same, Function.update_idem, Function.update_idem,
      Function.update_eq_self, Function.update_eq_self]
  have hP : (outlierRestState s i j).P = s.P := by
    show Function.update
        (Function.update s.P i (Function.update (s.P i) j (outlierMutatedP s i j))) i
        (Function.update
          (Function.update s.P i
            (Function.update (s.P i) j (outlierMutatedP s i j)) i) j
          (s.P i j)) = s.P
    rw [Function.update_same, Function.update_idem, Function.update_idem,
      Function.update_eq_self, Function.update_eq_self]
  have hse : outlierRestState s i j
      = { s with w := (outlierRestState s i j).w, P := (outlierRestState s i j).P } := rfl
  rw [hse, hw, hP]
refine ⟨?_, ?_, ?_⟩
· intro h
  rw [outlierScore, if_pos h]
· intro t r h
  rw [outlierScore] at h
  split at h
  · rw [Except.ok.injEq, Prod.mk.injEq] at h
    exact h.1.symm
  · split at h
    · exact absurd h (by simp)
    · split at h
      · exact absurd h (by simp)
      · rw [Except.ok.injEq, Prod.mk.injEq] at h
        rw [← h.1, hrest]
· intro t h
  rw [outlierScore] at h
  split at h
  · exact absurd h (by simp)
  · split at h
    · rw [Except.error.injEq] at h
      exact Or.inl h.symm
    · split at h
      · rw [Except.error.injEq] at h
        subst h
        refine Or.inr ⟨?_, ?_⟩
        · show Function.update s.w i (Function.update (s.w i) j (s.w i j - 1)) i j
            = s.w i j - 1
          rw [Function.update_same, Function.update_same]
        · show Function.update s.P i
            (Function.update (s.P i) j (outlierMutatedP s i j)) i j = outlierMutatedP s i j
          rw [Function.update_same, Function.update_same]
      · exact absurd h (by simp)

theorem c8_outlier_frame_amended_witness : outlierScore stZero 0 0 = .ok (stZero, 0) :=
(c8_outlier_frame_amended stZero 0 0).1 (by decide)

/-- C8 counterexample: on the two-node graph with the single edge `(0, 1)`
and one group, the block `(0, 0)` has weight 1; `outlier_score(0, 0)`
decrements the cached weight to 0, caches density 0, and the inner
`total_cost` raises — the call exits on the error path with the cached
weight still 0 instead of the original 1, so the exact original values are
not restored on this exit path. -/
theorem c8_counterexample :
    errCachedW (outlierScore stC8 0 0) 0 0 = some 0 ∧ stC8.w 0 0 = 1 := by
have hw : stC8.w 0 0 = 1 := rfl
have hP8 : stC8.P 0 0 = 3 / 10 := by
  show smoothedDensity
    ((blockWeightN (initBase ⟨2, fun u v => if u = 0 ∧ v = 1 then 1 else 0⟩) 0 0 : ℕ) : ℚ)
    ((blockSize (initBase ⟨2, fun u v => if u = 0 ∧ v = 1 then 1 else 0⟩) 0 0 : ℕ) : ℚ)
    = 3 / 10
  rw [show blockWeightN (initBase ⟨2, fun u v => if u = 0 ∧ v = 1 then 1 else 0⟩) 0 0 = 1
      from rfl,
    show blockSize (initBase ⟨2, fun u v => if u = 0 ∧ v = 1 then 1 else 0⟩) 0 0 = 4
      from rfl, smoothedDensity]
  norm_num
have hk : numGroups stC8 = 1 := rfl
have hce : codeCostErr stC8 = false := by
  refine codeCostErr_eq_false ?_
  intro i hi j hj
  rw [hk] at hi hj
  interval_cases i
  interval_cases j
  rw [hP8]
  norm_num
have hmutP : (outlierMutState stC8 0 0).P 0 0 = 0 := by
  rw [outlierMutState_P, outlierMutatedP, hw]
  norm_num
have hmutW : (outlierMutState stC8 0 0).w 0 0 = 0 := by
  rw [outlierMutState_w, hw]
  norm_num
have hmutK : numGroups (outlierMutState stC8 0 0) = 1 := rfl
have hceMut : codeCostErr (outlierMutState stC8 0 0) = true :=
  codeCostErr_eq_true (i := 0) (j := 0) (by rw [hmutK]; norm_num) (by rw [hmutK]; norm_num)
    (Or.inl (by rw [hmutP]))
refine ⟨?_, hw⟩
rw [outlierScore_error_mut (by rw [hw]; norm_num) (totalCost?_some (dcgs?_one hk) hce)
  (totalCost?_none_code (dcgs?_one hmutK) hceMut)]
rw [show errCachedW (Except.error (outlierMutState stC8 0 0)) 0 0
  = some ((outlierMutState stC8 0 0).w 0 0) from rfl, hmutW]

theorem sum_take_eq_sum_range (l : List ℕ) :
    ∀ m, m ≤ l.length → (l.take m).sum = ∑ i ∈ Finset.range m, l.getD i 0 := by
intro m
induction m with
| zero => simp
| succ m ih =>
  intro h
  rw [List.sum_take_succ l m (by omega), Finset.sum_range_succ, ih (by omega),
    List.getD_eq_getElem l 0 (by omega)]

theorem sum_drop_eq_sum_Ico (l : List ℕ) (t : ℕ) (h : t ≤ l.length) :
    (l.drop t).sum = ∑ i ∈ Finset.Ico t l.length, l.getD i 0 := by
have h1 := List.sum_take_add_sum_drop l t
have h2 := sum_take_eq_sum_range l t h
have h3 := sum_take_eq_sum_range l l.length le_rfl
rw [List.take_length] at h3
have h4 : ∑ i ∈ Finset.range t, l.getD i 0 + ∑ i ∈ Finset.Ico t l.length, l.getD i 0
    = ∑ i ∈ Finset.range l.length, l.getD i 0 := by
  rw [Finset.range_eq_Ico]
  exact Finset.sum_Ico_consecutive _ (Nat.zero_le t) h
omega

theorem sizesDesc_length (s : St) : (sizesDesc s).length = numGroups s := by
rw [sizesDesc, List.length_insertionSort, groupSizes, List.length_map, numGroups]

/-- C7: `description_cost_group_sizes` returns `0` for `k = 1` and otherwise
the claimed closed-form sum of `ceil(log2(1 - k + g + tail sum of the
descending-sorted sizes))` over `g` from `0` to `k - 2`, whenever it returns
at all. -/
theorem c7_dcgs_matches_spec (s : St) (v : ℝ) (h : dcgs? s = some v) : v = dcgsSpec s := by
rw [dcgs?] at h
by_cases hk : numGroups s = 1
· rw [if_pos hk] at h
  rw [dcgsSpec, if_pos hk]
  exact ((Option.some.injEq _ _).mp h).symm
· rw [if_neg hk] at h
  by_cases he : dcgsErr s
  · rw [if_pos he] at h
    exact absurd h (by simp)
  · rw [if_neg he] at h
    have hv : v = dcgsVal s := ((Option.some.injEq _ _).mp h).symm
    rw [hv, dcgsVal, dcgsSpec, if_neg hk]
    refine Finset.sum_congr rfl fun t ht => ?_
    rw [Finset.mem_range] at ht
    have hlen : (sizesDesc s).length = numGroups s := sizesDesc_length s
    have hk1 : 1 ≤ numGroups s := by
      by_contra hzero
      have : numGroups s = 0 := by omega
      rw [this] at ht
      omega
    have hIcc : Finset.Icc t (numGroups s - 1) = Finset.Ico t (numGroups s) := by
      rw [← Nat.Ico_succ_right]
      congr 1
      omega
    have hdrop : ((sizesDesc s).drop t).sum
        = ∑ i ∈ Finset.Icc t (numGroups s - 1), (sizesDesc s).getD i 0 := by
      rw [hIcc, ← hlen]
      exact sum_drop_eq_sum_Ico _ t (by omega)
    have harg : ((aVal s t : ℤ) : ℝ)
        = 1 - (numGroups s : ℝ) + (t : ℝ)
          + ∑ i ∈ Finset.Icc t (numGroups s - 1), ((sizesDesc s).getD i 0 : ℝ) := by
      rw [aVal, hdrop]
      push_cast
      ring
    rw [harg]

theorem c7_dcgs_matches_spec_witness : dcgsVal stC7 = dcgsSpec stC7 :=
c7_dcgs_matches_spec stC7 (dcgsVal stC7) (dcgs?_some (by decide) (by decide))

theorem sizesAsc_eq_reverse (s : St) : sizesAsc s = (sizesDesc s).reverse := by
letI : IsTotal ℕ fun a b : ℕ => b ≤ a := ⟨fun a b => le_total b a⟩
letI : IsTrans ℕ fun a b : ℕ => b ≤ a := ⟨fun _ _ _ h1 h2 => le_trans h2 h1⟩
refine List.eq_of_perm_of_sorted (r := fun a b : ℕ => a ≤ b) ?_ ?_ ?_
· refine (List.perm_insertionSort _ _).trans (List.Perm.trans ?_ (sizesDesc s).reverse_perm.symm)
  exact (List.perm_insertionSort _ _).symm
· exact List.sorted_insertionSort _ _
· show List.Pairwise _ _
  rw [List.pairwise_reverse]
  exact List.sorted_insertionSort (fun a b : ℕ => b ≤ a) (groupSizes s)

theorem mSmallestSum_eq_drop (s : St) (m : ℕ) (_hm : m ≤ numGroups s) :
    mSmallestSum s m = ((sizesDesc s).drop (numGroups s - m)).sum := by
rw [mSmallestSum, sizesAsc_eq_reverse, List.take_reverse, List.sum_reverse,
  sizesDesc_length]

/-- C9: `description_cost_group_sizes` hits a math domain error exactly when
the `m` smallest group sizes sum to less than `m` for some `2 ≤ m ≤ k`, and
the error propagates through `description_cost` and `total_cost`. -/
theorem c9_dcgs_domain_error (s : St) :
    (dcgs? s = none ↔ ∃ m, 2 ≤ m ∧ m ≤ numGroups s ∧ mSmallestSum s m < m)
    ∧ (dcgs? s = none → descriptionCost? s = none ∧ totalCost? s = none) := by
constructor
· by_cases hk : numGroups s = 1
  · rw [dcgs?_one hk]
    constructor
    · intro h
      exact absurd h (by simp)
    · rintro ⟨m, hm2, hmk, _⟩
      omega
  · constructor
    · intro h
      have he : dcgsErr s = true := by
        by_contra he
        rw [dcgs?_some hk (Bool.of_not_eq_true he)] at h
        exact absurd h (by simp)
      rw [dcgsErr, List.any_eq_true] at he
      obtain ⟨t, htm, hval⟩ := he
      rw [List.mem_range] at htm
      rw [decide_eq_true_eq] at hval
      refine ⟨numGroups s - t, by omega, by omega, ?_⟩
      have hdrop : mSmallestSum s (numGroups s - t)
          = ((sizesDesc s).drop t).sum := by
        rw [mSmallestSum_eq_drop s _ (by omega)]
        congr 2
        omega
      rw [hdrop]
      rw [aVal] at hval
      omega
    · rintro ⟨m, hm2, hmk, hsum⟩
      have he : dcgsErr s = true := by
        rw [dcgsErr, List.any_eq_true]
        refine ⟨numGroups s - m, List.mem_range.mpr (by omega), ?_⟩
        rw [decide_eq_true_eq, aVal]
        have hdrop : mSmallestSum s m = ((sizesDesc s).drop (numGroups s - m)).sum :=
          mSmallestSum_eq_drop s m hmk
        omega
      exact dcgs?_none hk he
· intro h
  refine ⟨?_, totalCost?_none_dcgs h⟩
  rw [descriptionCost?, h]

theorem c9_dcgs_domain_error_witness : dcgs? stC9 = none ∧ totalCost? stC9 = none := by
have h := (c9_dcgs_domain_error stC9).1.mpr ⟨2, by norm_num, by decide, by decide⟩
exact ⟨h, ((c9_dcgs_domain_error stC9).2 h).2⟩

theorem countP_ge_two {l : List (Finset ℕ)} {i j x : ℕ} (hi : i < l.length)
    (hj : j < l.length) (hij : i ≠ j) (hxi : x ∈ l[i]) (hxj : x ∈ l[j]) :
    2 ≤ l.countP fun t => decide (x ∈ t) := by
wlog hlt : i < j generalizing i j
· exact this hj hi (Ne.symm hij) hxj hxi (by omega)
have hsplit : (l.countP fun t => decide (x ∈ t))
    = ((l.take j).countP fun t => decide (x ∈ t))
      + ((l.drop j).countP fun t => decide (x ∈ t)) := by
  rw [← List.countP_append, List.take_append_drop]
have h1 : 0 < (l.take j).countP fun t => decide (x ∈ t) := by
  rw [List.countP_pos_iff]
  have hilen : i < (l.take j).length := by
    rw [List.length_take]
    omega
  refine ⟨(l.take j)[i], List.getElem_mem hilen, ?_⟩
  rw [List.getElem_take]
  simpa using hxi
have h2 : 0 < (l.drop j).countP fun t => decide (x ∈ t) := by
  rw [List.countP_pos_iff]
  have hlen : 0 < (l.drop j).length := by
    rw [List.length_drop]
    omega
  refine ⟨(l.drop j)[0], List.getElem_mem hlen, ?_⟩
  rw [List.getElem_drop]
  simpa using hxj
omega

/-- In a partition, a node lies in at most one group. -/
theorem mem_grp_unique {s : St} (hpart : isPartition s.gn (Finset.range s.g.n))
    {i j x : ℕ} (hxi : x ∈ grp s i) (hxj : x ∈ grp s j) : i = j := by
have hi := lt_numGroups_of_mem_grp hxi
have hj := lt_numGroups_of_mem_grp hxj
by_contra hij
have hxn : x ∈ Finset.range s.g.n := hpart.2 _ (grp_mem hi) hxi
have hc := hpart.1 x hxn
have e1 : s.gn[i] = grp s i := (List.getD_eq_getElem s.gn ∅ hi).symm
have e2 : s.gn[j] = grp s j := (List.getD_eq_getElem s.gn ∅ hj).symm
have h2 := countP_ge_two (l := s.gn) hi hj hij (e1 ▸ hxi) (e2 ▸ hxj)
omega

theorem grp_set_getD (l : List (Finset ℕ)) (i t : ℕ) (a : Finset ℕ) (hi : i < l.length) :
    (l.set i a).getD t ∅ = if i = t then a else l.getD t ∅ := by
by_cases ht : t < l.length
· rw [List.getD_eq_getElem _ ∅ (by rw [List.length_set]; exact ht), List.getElem_set]
  by_cases hit : i = t
  · rw [if_pos hit, if_pos hit]
  · rw [if_neg hit, if_neg hit, List.getD_eq_getElem _ ∅ ht]
· have h1 : l.length ≤ t := not_lt.mp ht
  rw [List.getD_eq_default _ ∅ (by rw [List.length_set]; exact h1),
    List.getD_eq_default _ ∅ h1, if_neg (by omega)]

theorem numGroups_movedState (s : St) (x : ℕ) : numGroups (movedState s x) = numGroups s := by
show ((s.gn.set _ _).set _ _).length = s.gn.length
rw [List.length_set, List.length_set]

theorem movedState_adj (s : St) (x : ℕ) : (movedState s x).g = s.g := rfl

theorem movedState_w (s : St) (x a b : ℕ) :
    (movedState s x).w a b = (blockWeightN (movedState s x) a b : ℚ) := rfl

theorem movedState_P (s : St) (x a b : ℕ) :
    (movedState s x).P a b
      = smoothedDensity (blockWeightN (movedState s x) a b : ℚ)
        (blockSize (movedState s x) a b : ℚ) := rfl

theorem grp_movedState (s : St) (x t : ℕ) (hgi : s.ng x < numGroups s)
    (hnl : s.ng x ≠ numGroups s - 1) :
    grp (movedState s x) t =
      if numGroups s - 1 = t then insert x (grp s (numGroups s - 1))
      else if s.ng x = t then (grp s (s.ng x)).erase x
      else grp s t := by
have hng : numGroups s = s.gn.length := rfl
have hgl : s.ng x < s.gn.length := by omega
have hlast1 : numGroups s - 1 < (s.gn.set (s.ng x) ((grp s (s.ng x)).erase x)).length := by
  rw [List.length_set]
  omega
have hinner : (s.gn.set (s.ng x) ((grp s (s.ng x)).erase x)).getD (numGroups s - 1) ∅
    = grp s (numGroups s - 1) := by
  rw [grp_set_getD _ _ _ _ hgl, if_neg hnl]
  rfl
show ((s.gn.set (s.ng x) ((grp s (s.ng x)).erase x)).set (numGroups s - 1)
    (insert x ((s.gn.set (s.ng x) ((grp s (s.ng x)).erase x)).getD (numGroups s - 1) ∅))).getD
    t ∅ = _
rw [grp_set_getD _ _ _ _ hlast1, hinner, grp_set_getD _ _ _ _ hgl]
rfl

theorem blockWeightQ (s : St) (i j : ℕ) :
    ((blockWeightN s i j : ℕ) : ℚ) = ∑ u ∈ grp s i, ∑ v ∈ grp s j, (s.g.adj u v : ℚ) := by
rw [blockWeightN]
push_cast
rfl

theorem rowWeightQ (s : St) (x j : ℕ) :
    ((rowWeightN s x j : ℕ) : ℚ) = ∑ v ∈ grp s j, (s.g.adj x v : ℚ) := by
rw [rowWeightN]
push_cast
rfl

theorem colWeightQ (s : St) (x j : ℕ) :
    ((colWeightN s x j : ℕ) : ℚ) = ∑ u ∈ grp s j, (s.g.adj u x : ℚ) := by
rw [colWeightN]
push_cast
rfl

theorem excludeTerm_eq_blockCodeCost (t : St) (a b : ℕ) (p : ℚ × ℚ)
    (h1 : p.1 = (blockWeightN t a b : ℚ)) (h2 : p.2 = (blockSize t a b : ℚ))
    (hww : t.w a b = (blockWeightN t a b : ℚ))
    (hpp : t.P a b = smoothedDensity (blockWeightN t a b : ℚ) (blockSize t a b : ℚ)) :
    excludeTerm p = blockCodeCost t a b := by
rw [excludeTerm, excludeP, blockCodeCost, h1, h2, hww, hpp]
push_cast
ring

/-- C2 (amended): for a node with no self-loop, in a group with more than
one member that is not the newest group, with every other group nonempty
and fresh cached weights, the analytic prediction
`group_entropy_per_node_exclude(g, n)` equals exactly the per-node entropy
`group_entropy_per_node(g)` reports after actually moving `n` to the newest
group and recomputing the block statistics. -/
theorem c2_entropy_prediction_exact (s : St) (x : ℕ)
    (hadj : ∀ u v, s.g.adj u v ≤ 1)
    (hpart : isPartition s.gn (Finset.range s.g.n))
    (hx : x ∈ grp s (s.ng x))
    (hgi : s.ng x < numGroups s - 1)
    (hsize : 1 < groupSize s (s.ng x))
    (hself : s.g.adj x x = 0)
    (hw : ∀ i j, s.w i j = (blockWeightN s i j : ℚ))
    (hne : ∀ j < numGroups s, j ≠ s.ng x → j ≠ numGroups s - 1 → 0 < groupSize s j) :
    moveNodeToNewGroup s x = some (movedState s x)
    ∧ groupEntropyPerNodeExclude? s (s.ng x) x
      = some (groupEntropyPerNode (movedState s x) (s.ng x)) := by
have hgik : s.ng x < numGroups s := by omega
have hk2 : 2 ≤ numGroups s := by omega
have hnl : s.ng x ≠ numGroups s - 1 := by omega
have hxonly : ∀ t, x ∈ grp s t → t = s.ng x := fun t ht => mem_grp_unique hpart ht hx
have hxlast : x ∉ grp s (numGroups s - 1) := fun hmem => hnl.symm (hxonly _ hmem)
have hmv : moveNodeToNewGroup s x = some (movedState s x) :=
  moveNodeToNewGroup_eq (movedGn_isPartition s x hpart hx (by omega))
set s' := movedState s x with hs'
have hadj' : ∀ u v, s'.g.adj u v ≤ 1 := by
  rw [hs', movedState_adj]
  exact hadj
have hk' : numGroups s' = numGroups s := numGroups_movedState s x
have hgA : grp s' (s.ng x) = (grp s (s.ng x)).erase x := by
  rw [hs', grp_movedState s x _ hgik hnl, if_neg (Ne.symm hnl), if_pos rfl]
have hgL : grp s' (numGroups s - 1) = insert x (grp s (numGroups s - 1)) := by
  rw [hs', grp_movedState s x _ hgik hnl, if_pos rfl]
have hgO : ∀ j, j ≠ s.ng x → j ≠ numGroups s - 1 → grp s' j = grp s j := by
  intro j h1 h2
  rw [hs', grp_movedState s x _ hgik hnl, if_neg (fun h => h2 h.symm),
    if_neg (fun h => h1 h.symm)]
have hsA : groupSize s' (s.ng x) = groupSize s (s.ng x) - 1 := by
  rw [groupSize, hgA, Finset.card_erase_of_mem hx]
  rfl
have hsL : groupSize s' (numGroups s - 1) = groupSize s (numGroups s - 1) + 1 := by
  rw [groupSize, hgL, Finset.card_insert_of_not_mem hxlast]
  rfl
have hsO : ∀ j, j ≠ s.ng x → j ≠ numGroups s - 1 → groupSize s' j = groupSize s j := by
  intro j h1 h2
  rw [groupSize, hgO j h1 h2]
  rfl
have hadjeq : ∀ u v, ((movedState s x).g.adj u v : ℚ) = (s.g.adj u v : ℚ) := by
  intro u v
  rw [movedState_adj]
have hWgg : (blockWeightN s' (s.ng x) (s.ng x) : ℚ)
    = s.w (s.ng x) (s.ng x) - (rowWeightN s x (s.ng x) : ℚ)
      - (colWeightN s x (s.ng x) : ℚ) + cell s x x := by
  rw [hw, blockWeightQ, blockWeightQ, rowWeightQ, colWeightQ, cell, hs']
  simp only [hadjeq]
  rw [← hs', hgA]
  have eOuter : ∑ u ∈ (grp s (s.ng x)).erase x, ∑ v ∈ (grp s (s.ng x)).erase x,
      (s.g.adj u v : ℚ)
      = ∑ u ∈ grp s (s.ng x), (∑ v ∈ (grp s (s.ng x)).erase x, (s.g.adj u v : ℚ))
        - ∑ v ∈ (grp s (s.ng x)).erase x, (s.g.adj x v : ℚ) := Finset.sum_erase_eq_sub hx
  have eInner : ∑ u ∈ grp s (s.ng x), (∑ v ∈ (grp s (s.ng x)).erase x, (s.g.adj u v : ℚ))
      = ∑ u ∈ grp s (s.ng x), ((∑ v ∈ grp s (s.ng x), (s.g.adj u v : ℚ))
        - (s.g.adj u x : ℚ)) :=
    Finset.sum_congr rfl fun u _ => Finset.sum_erase_eq_sub hx
  have eX : ∑ v ∈ (grp s (s.ng x)).erase x, (s.g.adj x v : ℚ)
      = ∑ v ∈ grp s (s.ng x), (s.g.adj x v : ℚ) - (s.g.adj x x : ℚ) :=
    Finset.sum_erase_eq_sub hx
  rw [eOuter, eInner, eX, Finset.sum_sub_distrib]
  ring
have hWgL : (blockWeightN s' (s.ng x) (numGroups s - 1) : ℚ)
    = s.w (s.ng x) (numGroups s - 1) - (rowWeightN s x (numGroups s - 1) : ℚ)
      + (colWeightN s x (s.ng x) : ℚ) := by
  rw [hw, blockWeightQ, blockWeightQ, rowWeightQ, colWeightQ, hs']
  simp only [hadjeq]
  rw [← hs', hgA, hgL]
  have eIns : ∀ u ∈ (grp s (s.ng x)).erase x,
      ∑ v ∈ insert x (grp s (numGroups s - 1)), (s.g.adj u v : ℚ)
      = (s.g.adj u x : ℚ) + ∑ v ∈ grp s (numGroups s - 1), (s.g.adj u v : ℚ) :=
    fun u _ => Finset.sum_insert hxlast
  rw [Finset.sum_congr rfl eIns, Finset.sum_add_distrib]
  have e1 : ∑ u ∈ (grp s (s.ng x)).erase x, (s.g.adj u x : ℚ)
      = ∑ u ∈ grp s (s.ng x), (s.g.adj u x : ℚ) - (s.g.adj x x : ℚ) :=
    Finset.sum_erase_eq_sub hx
  have e2 : ∑ u ∈ (grp s (s.ng x)).erase x,
      ∑ v ∈ grp s (numGroups s - 1), (s.g.adj u v : ℚ)
      = ∑ u ∈ grp s (s.ng x), (∑ v ∈ grp s (numGroups s - 1), (s.g.adj u v : ℚ))
        - ∑ v ∈ grp s (numGroups s - 1), (s.g.adj x v : ℚ) := Finset.sum_erase_eq_sub hx
  rw [e1, e2]
  have hc : (s.g.adj x x : ℚ) = 0 := by
    rw [hself]
    norm_num
  rw [hc]
  ring
have hWLg : (blockWeightN s' (numGroups s - 1) (s.ng x) : ℚ)
    = s.w (numGroups s - 1) (s.ng x) - (colWeightN s x (numGroups s - 1) : ℚ)
      + (rowWeightN s x (s.ng x) : ℚ) := by
  rw [hw, blockWeightQ, blockWeightQ, rowWeightQ, colWeightQ, hs']
  simp only [hadjeq]
  rw [← hs', hgA, hgL]
  rw [Finset.sum_insert hxlast]
  have e1 : ∑ v ∈ (grp s (s.ng x)).erase x, (s.g.adj x v : ℚ)
      = ∑ v ∈ grp s (s.ng x), (s.g.adj x v : ℚ) - (s.g.adj x x : ℚ) :=
    Finset.sum_erase_eq_sub hx
  have e2 : ∀ u ∈ grp s (numGroups s - 1),
      ∑ v ∈ (grp s (s.ng x)).erase x, (s.g.adj u v : ℚ)
      = ∑ v ∈ grp s (s.ng x), (s.g.adj u v : ℚ) - (s.g.adj u x : ℚ) :=
    fun u _ => Finset.sum_erase_eq_sub hx
  rw [e1, Finset.sum_congr rfl e2, Finset.sum_sub_distrib]
  have hc : (s.g.adj x x : ℚ) = 0 := by
    rw [hself]
    norm_num
  rw [hc]
  ring
have hWgO : ∀ j, j ≠ s.ng x → j ≠ numGroups s - 1 →
    (blockWeightN s' (s.ng x) j : ℚ) = s.w (s.ng x) j - (rowWeightN s x j : ℚ) := by
  intro j h1 h2
  rw [hw, blockWeightQ, blockWeightQ, rowWeightQ, hs']
  simp only [hadjeq]
  rw [← hs', hgA, hgO j h1 h2]
  exact Finset.sum_erase_eq_sub hx
have hWOg : ∀ j, j ≠ s.ng x → j ≠ numGroups s - 1 →
    (blockWeightN s' j (s.ng x) : ℚ) = s.w j (s.ng x) - (colWeightN s x j : ℚ) := by
  intro j h1 h2
  rw [hw, blockWeightQ, blockWeightQ, colWeightQ, hs']
  simp only [hadjeq]
  rw [← hs', hgA, hgO j h1 h2]
  have e2 : ∀ u ∈ grp s j, ∑ v ∈ (grp s (s.ng x)).erase x, (s.g.adj u v : ℚ)
      = ∑ v ∈ grp s (s.ng x), (s.g.adj u v : ℚ) - (s.g.adj u x : ℚ) :=
    fun u _ => Finset.sum_erase_eq_sub hx
  rw [Finset.sum_congr rfl e2, Finset.sum_sub_distrib]
have hbranch : ∀ j < numGroups s, ∃ W1 W2 N,
    excludeWN s (s.ng x) x j = some ((W1, N), (W2, N))
    ∧ W1 = (blockWeightN s' (s.ng x) j : ℚ) ∧ W2 = (blockWeightN s' j (s.ng x) : ℚ)
    ∧ N = (blockSize s' (s.ng x) j : ℚ) ∧ N = (blockSize s' j (s.ng x) : ℚ) := by
  intro j hj
  by_cases hjgi : j = s.ng x
  · rw [hjgi]
    refine ⟨s.w (s.ng x) (s.ng x) - (rowWeightN s x (s.ng x) : ℚ)
        - (colWeightN s x (s.ng x) : ℚ) + cell s x x,
      s.w (s.ng x) (s.ng x) - (rowWeightN s x (s.ng x) : ℚ)
        - (colWeightN s x (s.ng x) : ℚ) + cell s x x,
      ((groupSize s (s.ng x) : ℚ) - 1) * ((groupSize s (s.ng x) : ℚ) - 1),
      ?_, ?_, ?_, ?_, ?_⟩
    · rw [excludeWN, if_pos rfl, if_pos hsize]
    · rw [hWgg]
    · rw [hWgg]
    · rw [blockSize, hsA]
      push_cast [Nat.cast_sub (by omega : 1 ≤ groupSize s (s.ng x))]
      ring
    · rw [blockSize, hsA]
      push_cast [Nat.cast_sub (by omega : 1 ≤ groupSize s (s.ng x))]
      ring
  · by_cases hjl : j = numGroups s - 1
    · subst hjl
      refine ⟨s.w (s.ng x) (numGroups s - 1) - (rowWeightN s x (numGroups s - 1) : ℚ)
          + (colWeightN s x (s.ng x) : ℚ),
        s.w (numGroups s - 1) (s.ng x) - (colWeightN s x (numGroups s - 1) : ℚ)
          + (rowWeightN s x (s.ng x) : ℚ),
        ((groupSize s (s.ng x) : ℚ) - 1) * ((groupSize s (numGroups s - 1) : ℚ) + 1),
        ?_, ?_, ?_, ?_, ?_⟩
      · rw [excludeWN, if_neg (fun h => hjgi h), if_pos rfl, if_pos hsize]
      · rw [hWgL]
      · rw [hWLg]
      · rw [blockSize, hsA, hsL]
        push_cast [Nat.cast_sub (by omega : 1 ≤ groupSize s (s.ng x))]
        ring
      · rw [blockSize, hsA, hsL]
        push_cast [Nat.cast_sub (by omega : 1 ≤ groupSize s (s.ng x))]
        ring
    · refine ⟨s.w (s.ng x) j - (rowWeightN s x j : ℚ),
        s.w j (s.ng x) - (colWeightN s x j : ℚ),
        ((groupSize s (s.ng x) : ℚ) - 1) * (groupSize s j : ℚ), ?_, ?_, ?_, ?_, ?_⟩
      · rw [excludeWN, if_neg (fun h => hjgi h), if_neg (fun h => hjl h),
          if_pos ⟨hsize, hne j hj hjgi hjl⟩]
      · rw [hWgO j hjgi hjl]
      · rw [hWOg j hjgi hjl]
      · rw [blockSize, hsA, hsO j hjgi hjl]
        push_cast [Nat.cast_sub (by omega : 1 ≤ groupSize s (s.ng x))]
        ring
      · rw [blockSize, hsA, hsO j hjgi hjl]
        push_cast [Nat.cast_sub (by omega : 1 ≤ groupSize s (s.ng x))]
        ring
have herr : excludeErr s (s.ng x) x = false := by
  rw [excludeErr, List.any_eq_false]
  intro j hjm
  rw [List.mem_range] at hjm
  obtain ⟨W1, W2, N, hWN, h1, h2, h3, h4⟩ := hbranch j hjm
  rw [hWN]
  have hb1 : 0 < excludeP (W1, N) ∧ excludeP (W1, N) < 1 := by
    rw [excludeP]
    show 0 < smoothedDensity W1 N ∧ _
    rw [h1, h3]
    refine smoothedDensity_bounds (by positivity) ?_
    exact_mod_cast blockWeightN_le_blockSize s' (s.ng x) j hadj'
  have hb2 : 0 < excludeP (W2, N) ∧ excludeP (W2, N) < 1 := by
    rw [excludeP]
    show 0 < smoothedDensity W2 N ∧ _
    rw [h2, h4]
    refine smoothedDensity_bounds (by positivity) ?_
    exact_mod_cast blockWeightN_le_blockSize s' j (s.ng x) hadj'
  simp only [Bool.or_eq_true, decide_eq_true_eq, not_or, not_le]
  exact ⟨⟨hb1, hb2.1⟩, hb2.2⟩
have hww' : ∀ a b, s'.w a b = (blockWeightN s' a b : ℚ) := by
  intro a b
  rw [hs']
  exact movedState_w s x a b
have hpp' : ∀ a b, s'.P a b
    = smoothedDensity (blockWeightN s' a b : ℚ) (blockSize s' a b : ℚ) := by
  intro a b
  rw [hs']
  exact movedState_P s x a b
have hterm : ∀ j ∈ Finset.range (numGroups s),
    (match excludeWN s (s.ng x) x j with
      | none => (0 : ℝ)
      | some (a, b) => excludeTerm a + excludeTerm b)
    = blockCodeCost s' (s.ng x) j + blockCodeCost s' j (s.ng x) := by
  intro j hjm
  rw [Finset.mem_range] at hjm
  obtain ⟨W1, W2, N, hWN, h1, h2, h3, h4⟩ := hbranch j hjm
  rw [hWN]
  show excludeTerm (W1, N) + excludeTerm (W2, N) = _
  rw [excludeTerm_eq_blockCodeCost s' (s.ng x) j (W1, N) h1 h3 (hww' _ _) (hpp' _ _),
    excludeTerm_eq_blockCodeCost s' j (s.ng x) (W2, N) h2 h4 (hww' _ _) (hpp' _ _)]
refine ⟨hmv, ?_⟩
rw [groupEntropyPerNodeExclude?, if_neg (by omega), if_neg (by rw [herr]; exact
  Bool.false_ne_true)]
rw [groupEntropyPerNode, if_neg (by rw [hsA]; omega)]
rw [excludeSum, Finset.sum_congr rfl hterm]
rw [hk', hsA]
congr 1
rw [Nat.cast_sub (by omega : 1 ≤ groupSize s (s.ng x))]
norm_num

/-- On the 3-node star graph `G7` (which has a self-loop
at node 0), at the exact state where `_run` first compares predictions —
all three nodes in group 0 plus the fresh empty group — the prediction
`group_entropy_per_node_exclude(0, 0)` raises a math domain error (its
density for the block crossing the new group is `(3+0.5)/(2+1) = 7/6 > 1`),
so it does not agree with the well-defined value
`group_entropy_per_node(0)` would report after the move. -/
theorem exclude_stC2bad_none : groupEntropyPerNodeExclude? stC2bad 0 0 = none := by
have h1 : excludeWN stC2bad 0 0 1 = some ((1, 2), (3, 2)) := by
  rw [excludeWN, if_neg (by norm_num), if_pos (show (1 : ℕ) = numGroups stC2bad - 1
    from rfl), if_pos (show 1 < groupSize stC2bad 0 by decide)]
  rw [show stC2bad.w 0 1 = 0 from rfl, show stC2bad.w 1 0 = 0 from rfl,
    show rowWeightN stC2bad 0 1 = 0 from rfl,
    show colWeightN stC2bad 0 0 = 1 by decide,
    show colWeightN stC2bad 0 1 = 0 from rfl,
    show rowWeightN stC2bad 0 0 = 3 by decide,
    show groupSize stC2bad 0 = 3 by decide, show groupSize stC2bad 1 = 0 from rfl]
  norm_num
have herr : excludeErr stC2bad 0 0 = true := by
  rw [excludeErr, List.any_eq_true]
  refine ⟨1, by decide, ?_⟩
  rw [h1]
  simp only [excludeP, smoothedDensity, Bool.or_eq_true, decide_eq_true_eq]
  right
  norm_num
rw [groupEntropyPerNodeExclude?, if_neg (by decide), if_pos herr]

/-- C2 counterexample: on the self-loop star graph the entropy prediction
for node 0 of the (size-3) group 0 raises instead of matching the entropy
after the move. -/
theorem c2_counterexample :
    groupEntropyPerNodeExclude? stC2bad 0 0 = none ∧ 1 < groupSize stC2bad 0 :=
⟨exclude_stC2bad_none, by decide⟩

theorem c2_entropy_prediction_exact_witness :
    moveNodeToNewGroup stC2w 0 = some (movedState stC2w 0)
    ∧ groupEntropyPerNodeExclude? stC2w (stC2w.ng 0) 0
      = some (groupEntropyPerNode (movedState stC2w 0) (stC2w.ng 0)) :=
c2_entropy_prediction_exact stC2w 0 (fun _ _ => Nat.zero_le 1) (by decide) (by decide)
  (by decide) (by decide) rfl (fun _ _ => rfl)
  (by
    intro j hj h2 h3
    have hk : numGroups stC2w = 2 := rfl
    have h0 : stC2w.ng 0 = 0 := rfl
    omega)

theorem innerLoop_lvl_indep (a b Fi : ℕ) (s : St) :
    (innerLoop a Fi s).s = (innerLoop b Fi s).s
    ∧ (innerLoop a Fi s).pairs = (innerLoop b Fi s).pairs
    ∧ (innerLoop a Fi s).exit = (innerLoop b Fi s).exit := by
induction Fi generalizing s with
| zero => exact ⟨rfl, rfl, rfl⟩
| succ n ih =>
  cases h0 : totalCost? s with
  | none => simp [innerLoop, h0]
  | some prev =>
    cases h1 : rearrange? s (innerNewGn s) (innerAssign s) with
    | none => simp [innerLoop, h0, h1]
    | some s1 =>
      cases h2 : totalCost? { s1 with step := s1.step + 1 } with
      | none => simp [innerLoop, reportAdjMatrix, h0, h1, h2]
      | some cur =>
        by_cases hlt : prev - cur < eps
        · simp [innerLoop, reportAdjMatrix, h0, h1, h2, hlt]
        · obtain ⟨g1, g2, g3⟩ := ih { s1 with step := s1.step + 1 }
          simp only [innerLoop, reportAdjMatrix, h0, h1, h2, if_neg hlt]
          exact ⟨g1, by rw [g2], g3⟩

theorem outerLoop_lvl_indep (a b Fi Fo : ℕ) (s : St) :
    (outerLoop a Fi Fo s).s = (outerLoop b Fi Fo s).s
    ∧ (outerLoop a Fi Fo s).pairs = (outerLoop b Fi Fo s).pairs
    ∧ (outerLoop a Fi Fo s).exit = (outerLoop b Fi Fo s).exit := by
induction Fo generalizing s with
| zero => exact ⟨rfl, rfl, rfl⟩
| succ n ih =>
  cases h0 : totalCost? s with
  | none => simp [outerLoop, h0]
  | some prev =>
    cases hs : seedLoop (pyMax (groupEntropyPerNode s) (List.range (numGroups s)))
        (addNewGroup s)
        (seedList (addNewGroup s)
          (pyMax (groupEntropyPerNode s) (List.range (numGroups s)))) with
    | mk s2 oe =>
      cases oe with
      | some e => simp [outerLoop, h0, hs]
      | none =>
        obtain ⟨h1, h2, h3⟩ :=
          innerLoop_lvl_indep a b Fi { s2 with step := s2.step + 1 }
        cases hE : (innerLoop b Fi { s2 with step := s2.step + 1 }).exit with
        | stopped =>
          cases hc : totalCost? (innerLoop b Fi { s2 with step := s2.step + 1 }).s with
          | none => simp [outerLoop, reportAdjMatrix, h0, hs, h1, h2, h3, hE, hc]
          | some cur =>
            by_cases hlt : prev - cur < eps
            · simp [outerLoop, reportAdjMatrix, h0, hs, h1, h2, h3, hE, hc, hlt]
            · obtain ⟨g1, g2, g3⟩ :=
                ih (innerLoop b Fi { s2 with step := s2.step + 1 }).s
              simp only [outerLoop, reportAdjMatrix, h0, hs, h1, h2, h3, hE, hc,
                if_neg hlt]
              exact ⟨g1, by rw [g2], g3⟩
        | domainErr => simp [outerLoop, reportAdjMatrix, h0, hs, h1, h2, h3, hE]
        | assertFail => simp [outerLoop, reportAdjMatrix, h0, hs, h1, h2, h3, hE]
        | innerFuelOut => simp [outerLoop, reportAdjMatrix, h0, hs, h1, h2, h3, hE]
        | outerFuelOut => simp [outerLoop, reportAdjMatrix, h0, hs, h1, h2, h3, hE]

/-- C10: two runs on the same graph that differ only in the logging level
produce the same final partition, the same final total cost, and the same
exit condition; the level influences only the snapshot side channel. -/
theorem c10_level_independence (g : Graph) (a b Fi Fo : ℕ) :
    runResult (autopartRun g a Fi Fo) = runResult (autopartRun g b Fi Fo)
    ∧ (autopartRun g a Fi Fo).exit = (autopartRun g b Fi Fo).exit := by
obtain ⟨h1, h2, h3⟩ := outerLoop_lvl_indep a b Fi Fo (initState g)
exact ⟨by simp only [runResult, autopartRun, h1], h3⟩

theorem fresh_recalc (s : St) : fresh (recalc s) := fun _ _ => rfl

theorem fresh_step {s : St} (h : fresh s) : fresh { s with step := s.step + 1 } :=
fun i j => h i j

theorem rearrange?_some {s : St} {gn : List (Finset ℕ)} {ng : ℕ → ℕ} {s' : St}
    (h : rearrange? s gn ng = some s') : s'.g = s.g ∧ fresh s' := by
rw [rearrange?_some_of_isPartition s gn ng (isPartition_of_rearrange?_some h)] at h
injection h with h'
subst h'
exact ⟨rfl, fresh_recalc _⟩

theorem dcgsErr_false_pos {s : St} (h : dcgsErr s = false) {t : ℕ}
    (ht : t < numGroups s - 1) : 0 < aVal s t := by
rw [dcgsErr, List.any_eq_false] at h
have h2 := h t (List.mem_range.mpr ht)
simp only [decide_eq_true_eq] at h2
exact lt_of_not_le h2

theorem codeCostErr_false_bounds {s : St} (h : codeCostErr s = false) {i j : ℕ}
    (hi : i < numGroups s) (hj : j < numGroups s) : 0 < s.P i j ∧ s.P i j < 1 := by
rw [codeCostErr, List.any_eq_false] at h
have h2 := h i (List.mem_range.mpr hi)
simp only [List.any_eq_true, List.mem_range, not_exists, not_and, Bool.or_eq_true,
  decide_eq_true_eq, not_or] at h2
obtain ⟨ha, hb⟩ := h2 j hj
exact ⟨lt_of_not_le ha, lt_of_not_le hb⟩

theorem blockCodeCost_nonneg {s : St} (hadj : ∀ u v, s.g.adj u v ≤ 1) (hw : fresh s)
    {i j : ℕ} (hP : 0 < s.P i j ∧ s.P i j < 1) : 0 ≤ blockCodeCost s i j := by
obtain ⟨hP0, hP1⟩ := hP
have hP0' : (0 : ℝ) < ((s.P i j : ℚ) : ℝ) := by exact_mod_cast hP0
have hP1' : ((s.P i j : ℚ) : ℝ) < 1 := by exact_mod_cast hP1
have hlp : log2 ((s.P i j : ℚ) : ℝ) ≤ 0 :=
  Real.logb_nonpos (by norm_num) hP0'.le hP1'.le
have hl1p : log2 (1 - ((s.P i j : ℚ) : ℝ)) ≤ 0 :=
  Real.logb_nonpos (by norm_num) (by linarith) (by linarith)
have hw0 : (0 : ℝ) ≤ ((s.w i j : ℚ) : ℝ) := by
  rw [hw i j]
  push_cast
  positivity
have hwn : ((s.w i j : ℚ) : ℝ) ≤ (blockSize s i j : ℝ) := by
  rw [hw i j]
  exact_mod_cast blockWeightN_le_blockSize s i j hadj
rw [blockCodeCost]
nlinarith [mul_nonneg hw0 (neg_nonneg.mpr hlp),
  mul_nonneg (by linarith : (0 : ℝ) ≤ (blockSize s i j : ℝ) - ((s.w i j : ℚ) : ℝ))
    (neg_nonneg.mpr hl1p)]

theorem codeCost_nonneg {s : St} (hadj : ∀ u v, s.g.adj u v ≤ 1) (hw : fresh s)
    (hcc : codeCostErr s = false) : 0 ≤ codeCost s :=
Finset.sum_nonneg fun i hi => Finset.sum_nonneg fun j hj =>
  blockCodeCost_nonneg hadj hw
    (codeCostErr_false_bounds hcc (Finset.mem_range.mp hi) (Finset.mem_range.mp hj))

theorem dcbw_nonneg (s : St) : 0 ≤ dcbw s :=
Finset.sum_nonneg fun i _ => Finset.sum_nonneg fun j _ => by
  have h1 : (1 : ℝ) ≤ (blockSize s i j : ℝ) + 1 := by
    have := Nat.cast_nonneg (α := ℝ) (blockSize s i j)
    linarith
  exact_mod_cast Int.ceil_nonneg (log2_nonneg h1)

theorem dcgsVal_nonneg {s : St} (h : dcgsErr s = false) : 0 ≤ dcgsVal s :=
Finset.sum_nonneg fun t ht => by
  have h1 : 0 < aVal s t := dcgsErr_false_pos h (Finset.mem_range.mp ht)
  have h2 : (1 : ℝ) ≤ (aVal s t : ℝ) := by exact_mod_cast h1
  exact_mod_cast Int.ceil_nonneg (log2_nonneg h2)

/-- Whenever `total_cost` returns on a freshly cached state of a 0/1 matrix,
its value is non-negative: the claim's "cost is bounded below". -/
theorem totalCost?_nonneg {s : St} {c : ℝ} (hadj : ∀ u v, s.g.adj u v ≤ 1)
    (hw : fresh s) (h : totalCost? s = some c) : 0 ≤ c := by
cases hg : dcgs? s with
| none =>
  rw [totalCost?_none_dcgs hg] at h
  simp at h
| some d0 =>
  by_cases hcc : codeCostErr s = true
  · rw [totalCost?_none_code hg hcc] at h
    simp at h
  · have hccf : codeCostErr s = false := by
      revert hcc
      cases codeCostErr s <;> simp
    rw [totalCost?_some hg hccf] at h
    injection h with h'
    subst h'
    have l1 := logStar_nonneg (numGroups s)
    have l2 : 0 ≤ d0 := by
      by_cases hk : numGroups s = 1
      · rw [dcgs?_one hk] at hg
        injection hg with hg'
        rw [← hg']
      · by_cases he : dcgsErr s = true
        · rw [dcgs?_none hk he] at hg
          simp at hg
        · have hef : dcgsErr s = false := by
            revert he
            cases dcgsErr s <;> simp
          rw [dcgs?_some hk hef] at hg
          injection hg with hg'
          rw [← hg']
          exact dcgsVal_nonneg hef
    have l3 := dcbw_nonneg s
    have l4 := codeCost_nonneg hadj hw hccf
    linarith

theorem seedLoop_g (r : ℕ) : ∀ (xs : List ℕ) (s : St), ((seedLoop r s xs).1).g = s.g := by
intro xs
induction xs with
| nil => intro s; rfl
| cons x rest ih =>
  intro s
  cases hE : groupEntropyPerNodeExclude? s r x with
  | none => simp [seedLoop, hE]
  | some ex =>
    by_cases hlt : ex < groupEntropyPerNode s r
    · cases hm : moveNodeToNewGroup s x with
      | none => simp [seedLoop, hE, hlt, hm]
      | some s' =>
        obtain ⟨hg, _⟩ := rearrange?_some hm
        simp only [seedLoop, hE, if_pos hlt, hm]
        rw [ih s']
        exact hg
    · simp only [seedLoop, hE, if_neg hlt]
      exact ih s

theorem seedLoop_exit (r : ℕ) : ∀ (xs : List ℕ) (s : St) (e : ExitK),
    (seedLoop r s xs).2 = some e → e = .domainErr ∨ e = .assertFail := by
intro xs
induction xs with
| nil =>
  intro s e h
  exact absurd h (by simp [seedLoop])
| cons x rest ih =>
  intro s e h
  cases hE : groupEntropyPerNodeExclude? s r x with
  | none =>
    simp only [seedLoop, hE] at h
    injection h with h'
    exact Or.inl h'.symm
  | some ex =>
    by_cases hlt : ex < groupEntropyPerNode s r
    · cases hm : moveNodeToNewGroup s x with
      | none =>
        simp only [seedLoop, hE, if_pos hlt, hm] at h
        injection h with h'
        exact Or.inr h'.symm
      | some s' =>
        simp only [seedLoop, hE, if_pos hlt, hm] at h
        exact ih s' e h
    · simp only [seedLoop, hE, if_neg hlt] at h
      exact ih s e h

theorem innerLoop_ne_outerFuelOut (lvl : ℕ) : ∀ (Fi : ℕ) (s : St),
    (innerLoop lvl Fi s).exit ≠ .outerFuelOut := by
intro Fi
induction Fi with
| zero => intro s; simp [innerLoop]
| succ n ih =>
  intro s
  cases h0 : totalCost? s with
  | none => simp [innerLoop, h0]
  | some prev =>
    cases h1 : rearrange? s (innerNewGn s) (innerAssign s) with
    | none => simp [innerLoop, h0, h1]
    | some s1 =>
      cases h2 : totalCost? { s1 with step := s1.step + 1 } with
      | none => simp [innerLoop, reportAdjMatrix, h0, h1, h2]
      | some cur =>
        by_cases hlt : prev - cur < eps
        · simp [innerLoop, reportAdjMatrix, h0, h1, h2, hlt]
        · simp only [innerLoop, reportAdjMatrix, h0, h1, h2, if_neg hlt]
          exact ih { s1 with step := s1.step + 1 }

/-- When the inner loop stops through its `epsilon` condition, its final
state has just been rearranged: the graph is unchanged and the cache is
fresh. -/
theorem innerLoop_stopped (lvl : ℕ) : ∀ (Fi : ℕ) (s : St),
    (innerLoop lvl Fi s).exit = .stopped →
    (innerLoop lvl Fi s).s.g = s.g ∧ fresh (innerLoop lvl Fi s).s := by
intro Fi
induction Fi with
| zero =>
  intro s h
  exact absurd h (by simp [innerLoop])
| succ n ih =>
  intro s h
  cases h0 : totalCost? s with
  | none => simp [innerLoop, h0] at h
  | some prev =>
    cases h1 : rearrange? s (innerNewGn s) (innerAssign s) with
    | none => simp [innerLoop, h0, h1] at h
    | some s1 =>
      obtain ⟨hg1, hf1⟩ := rearrange?_some h1
      cases h2 : totalCost? { s1 with step := s1.step + 1 } with
      | none => simp [innerLoop, reportAdjMatrix, h0, h1, h2] at h
      | some cur =>
        by_cases hlt : prev - cur < eps
        · simp only [innerLoop, reportAdjMatrix, h0, h1, h2, if_pos hlt]
          exact ⟨hg1, fresh_step hf1⟩
        · simp only [innerLoop, reportAdjMatrix, h0, h1, h2, if_neg hlt] at h ⊢
          obtain ⟨ha, hb⟩ := ih { s1 with step := s1.step + 1 } h
          refine ⟨?_, hb⟩
          rw [ha]
          exact hg1

/-- The inner loop stops (or raises) before exhausting `⌈cost/epsilon⌉ + 1`
iterations: once the entry cost is below `epsilon * fuel`, the fuel cannot
run out, because every continuing iteration lowers the cost by at least
`epsilon` and the cost is bounded below by `0`. -/
theorem innerLoop_no_fuelOut (lvl : ℕ) : ∀ (Fi : ℕ) (s : St) (c : ℝ),
    (∀ u v, s.g.adj u v ≤ 1) → fresh s → totalCost? s = some c →
    c < eps * Fi → (innerLoop lvl Fi s).exit ≠ .innerFuelOut := by
intro Fi
induction Fi with
| zero =>
  intro s c hadj hw htc hlt
  exfalso
  have h0 := totalCost?_nonneg hadj hw htc
  rw [Nat.cast_zero, mul_zero] at hlt
  linarith
| succ n ih =>
  intro s c hadj hw htc hlt
  cases h1 : rearrange? s (innerNewGn s) (innerAssign s) with
  | none => simp [innerLoop, htc, h1]
  | some s1 =>
    obtain ⟨hg1, hf1⟩ := rearrange?_some h1
    cases h2 : totalCost? { s1 with step := s1.step + 1 } with
    | none => simp [innerLoop, reportAdjMatrix, htc, h1, h2]
    | some cur =>
      by_cases hcur : c - cur < eps
      · simp [innerLoop, reportAdjMatrix, htc, h1, h2, hcur]
      · simp only [innerLoop, reportAdjMatrix, htc, h1, h2, if_neg hcur]
        have hadj1 : ∀ u v, s1.g.adj u v ≤ 1 := by
          rw [hg1]
          exact hadj
        refine ih { s1 with step := s1.step + 1 } cur hadj1 (fresh_step hf1) h2 ?_
        have hge : eps ≤ c - cur := not_lt.mp hcur
        push_cast at hlt ⊢
        linarith

/-- The outer loop stops (or raises, or runs against the inner fuel bound)
before exhausting `⌈cost/epsilon⌉ + 1` iterations, for the same reason. -/
theorem outerLoop_no_fuelOut (lvl Fi : ℕ) : ∀ (Fo : ℕ) (s : St) (c : ℝ),
    (∀ u v, s.g.adj u v ≤ 1) → fresh s → totalCost? s = some c →
    c < eps * Fo → (outerLoop lvl Fi Fo s).exit ≠ .outerFuelOut := by
intro Fo
induction Fo with
| zero =>
  intro s c hadj hw htc hlt
  exfalso
  have h0 := totalCost?_nonneg hadj hw htc
  rw [Nat.cast_zero, mul_zero] at hlt
  linarith
| succ n ih =>
  intro s c hadj hw htc hlt
  cases hs : seedLoop (pyMax (groupEntropyPerNode s) (List.range (numGroups s)))
      (addNewGroup s)
      (seedList (addNewGroup s)
        (pyMax (groupEntropyPerNode s) (List.range (numGroups s)))) with
  | mk s2 oe =>
    cases oe with
    | some e =>
      have he := seedLoop_exit (pyMax (groupEntropyPerNode s) (List.range (numGroups s)))
        (seedList (addNewGroup s)
          (pyMax (groupEntropyPerNode s) (List.range (numGroups s))))
        (addNewGroup s) e (by rw [hs])
      simp only [outerLoop, htc, hs]
      rcases he with h | h <;> rw [h] <;> simp
    | none =>
      cases hE : (innerLoop lvl Fi { s2 with step := s2.step + 1 }).exit with
      | stopped =>
        cases hc : totalCost? (innerLoop lvl Fi { s2 with step := s2.step + 1 }).s with
        | none => simp [outerLoop, reportAdjMatrix, htc, hs, hE, hc]
        | some cur =>
          by_cases hcur : c - cur < eps
          · simp [outerLoop, reportAdjMatrix, htc, hs, hE, hc, hcur]
          · simp only [outerLoop, reportAdjMatrix, htc, hs, hE, hc, if_neg hcur]
            obtain ⟨hg2, hf2⟩ :=
              innerLoop_stopped lvl Fi { s2 with step := s2.step + 1 } hE
            have hgseed : s2.g = s.g := by
              have hsg := seedLoop_g
                (pyMax (groupEntropyPerNode s) (List.range (numGroups s)))
                (seedList (addNewGroup s)
                  (pyMax (groupEntropyPerNode s) (List.range (numGroups s))))
                (addNewGroup s)
              rw [hs] at hsg
              exact hsg
            refine ih (innerLoop lvl Fi { s2 with step := s2.step + 1 }).s cur
              ?_ hf2 hc ?_
            · intro u v
              rw [show (innerLoop lvl Fi { s2 with step := s2.step + 1 }).s.g = s.g
                from by rw [hg2]; exact hgseed]
              exact hadj u v
            · have hge : eps ≤ c - cur := not_lt.mp hcur
              push_cast at hlt ⊢
              linarith
      | domainErr => simp [outerLoop, reportAdjMatrix, htc, hs, hE]
      | assertFail => simp [outerLoop, reportAdjMatrix, htc, hs, hE]
      | innerFuelOut => simp [outerLoop, reportAdjMatrix, htc, hs, hE]
      | outerFuelOut =>
        exact absurd hE (innerLoop_ne_outerFuelOut lvl Fi _)

/-- C3 (amended): on a freshly cached state of a 0/1 adjacency matrix whose
total cost is defined, the cost is bounded below by `0`, and each loop's
`epsilon` stop condition is satisfied (or the loop ends by an exception)
within `cost / epsilon` iterations — so with that much fuel neither loop's
fuel can run out.  The loops need *not* terminate through the stop
condition, however: a run may instead die with a `ValueError`, as
`c3_counterexample` shows. -/
theorem c3_termination (lvl Fi Fo : ℕ) (s : St) (c : ℝ)
    (hadj : ∀ u v, s.g.adj u v ≤ 1) (hw : fresh s)
    (htc : totalCost? s = some c) (hFi : c < eps * Fi) (hFo : c < eps * Fo) :
    0 ≤ c ∧ (innerLoop lvl Fi s).exit ≠ .innerFuelOut
    ∧ (outerLoop lvl Fi Fo s).exit ≠ .outerFuelOut :=
⟨totalCost?_nonneg hadj hw htc,
  innerLoop_no_fuelOut lvl Fi s c hadj hw htc hFi,
  outerLoop_no_fuelOut lvl Fi Fo s c hadj hw htc hFo⟩

theorem c3_termination_witness :
    (0 : ℝ) ≤ logStar (numGroups stZero) + 0 + dcbw stZero + codeCost stZero
    ∧ (innerLoop 40 20001 stZero).exit ≠ .innerFuelOut
    ∧ (outerLoop 40 20001 20001 stZero).exit ≠ .outerFuelOut := by
have hP00 : stZero.P 0 0 = 1 / 4 := by
  show smoothedDensity ((blockWeightN (initBase ⟨1, fun _ _ => 0⟩) 0 0 : ℕ) : ℚ)
    ((blockSize (initBase ⟨1, fun _ _ => 0⟩) 0 0 : ℕ) : ℚ) = 1 / 4
  rw [show blockWeightN (initBase ⟨1, fun _ _ => 0⟩) 0 0 = 0 from rfl,
    show blockSize (initBase ⟨1, fun _ _ => 0⟩) 0 0 = 1 from rfl]
  norm_num [smoothedDensity]
have hccZ : codeCostErr stZero = false := by
  refine codeCostErr_eq_false ?_
  intro i hi j hj
  have hk : numGroups stZero = 1 := rfl
  rw [hk] at hi hj
  have hi0 : i = 0 := by omega
  have hj0 : j = 0 := by omega
  rw [hi0, hj0, hP00]
  norm_num
have hnum : logStar (numGroups stZero) + 0 + dcbw stZero + codeCost stZero
    < eps * ((20001 : ℕ) : ℝ) := by
  have hk : numGroups stZero = 1 := rfl
  have hls : logStar (numGroups stZero) = 0 := by
    rw [hk]
    exact logStar_one
  have hbs : blockSize stZero 0 0 = 1 := rfl
  have hdb : dcbw stZero = 1 := by
    rw [dcbw, hk, Finset.sum_range_one, Finset.sum_range_one, hbs]
    rw [show ((1 : ℕ) : ℝ) + 1 = 2 by norm_num, log2_two]
    norm_num
  have hw00 : stZero.w 0 0 = 0 := rfl
  have hcz : codeCost stZero = -log2 (3 / 4) := by
    rw [codeCost, hk, Finset.sum_range_one, Finset.sum_range_one, blockCodeCost,
      hw00, hP00, hbs]
    rw [show (((1 / 4 : ℚ)) : ℝ) = 1 / 4 by norm_num,
      show (1 : ℝ) - 1 / 4 = 3 / 4 by norm_num]
    push_cast
    ring
  have hb : -log2 (3 / 4) ≤ 1 := by
    have hmul : log2 (3 / 4) + 1 = log2 (3 / 2) := by
      calc log2 (3 / 4) + 1 = log2 (3 / 4) + log2 2 := by rw [log2_two]
        _ = log2 (3 / 4 * 2) :=
            (Real.logb_mul (by norm_num) (by norm_num)).symm
        _ = log2 (3 / 2) := by norm_num
    have h32 : 0 ≤ log2 (3 / 2) := log2_nonneg (by norm_num)
    linarith
  rw [hls, hdb, hcz, eps]
  push_cast
  linarith
exact c3_termination 40 20001 20001 stZero
  (logStar (numGroups stZero) + 0 + dcbw stZero + codeCost stZero)
  (fun _ _ => Nat.zero_le 1) (fun _ _ => rfl)
  (totalCost?_some (dcgs?_one rfl) hccZ) hnum hnum

/-- C3 counterexample: on the 3-node star graph with a self-loop, the run
raises a `ValueError` (math domain error) during the very first splitting
step, so neither loop ever reaches its `epsilon` stop condition; the spec's
unconditional "both loops terminate [through the stop condition]" does not
hold for every finite graph. -/
theorem c3_counterexample : (autopartRun G7 40 9 9).exit = .domainErr := by
have hP : (initState G7).P 0 0 = 7 / 20 := by
  show smoothedDensity ((blockWeightN (initBase G7) 0 0 : ℕ) : ℚ)
    ((blockSize (initBase G7) 0 0 : ℕ) : ℚ) = 7 / 20
  rw [show blockWeightN (initBase G7) 0 0 = 3 by decide,
    show blockSize (initBase G7) 0 0 = 9 by decide]
  norm_num [smoothedDensity]
have hcc : codeCostErr (initState G7) = false := by
  refine codeCostErr_eq_false ?_
  intro i hi j hj
  have hk : numGroups (initState G7) = 1 := rfl
  rw [hk] at hi hj
  have hi0 : i = 0 := by omega
  have hj0 : j = 0 := by omega
  rw [hi0, hj0, hP]
  norm_num
have htc : totalCost? (initState G7)
    = some (logStar (numGroups (initState G7)) + 0 + dcbw (initState G7)
      + codeCost (initState G7)) := totalCost?_some (dcgs?_one rfl) hcc
have hpy : pyMax (groupEntropyPerNode (initState G7))
    (List.range (numGroups (initState G7))) = 0 := rfl
have hsl : seedList (addNewGroup (initState G7)) 0 = [0, 1, 2] := by decide
have hex : groupEntropyPerNodeExclude? (addNewGroup (initState G7)) 0 0 = none :=
  exclude_stC2bad_none
have hseed : seedLoop 0 (addNewGroup (initState G7)) [0, 1, 2]
    = (addNewGroup (initState G7), some .domainErr) := by
  simp only [seedLoop, hex]
show (autopartRun G7 40 9 (8 + 1)).exit = ExitK.domainErr
simp only [autopartRun, outerLoop, htc, hpy, hsl, hseed]

theorem log2_div {x y : ℝ} (hx : x ≠ 0) (hy : y ≠ 0) :
    log2 (x / y) = log2 x - log2 y := Real.logb_div hx hy

theorem log2_mul {x y : ℝ} (hx : x ≠ 0) (hy : y ≠ 0) :
    log2 (x * y) = log2 x + log2 y := Real.logb_mul hx hy

theorem log2_pow (x : ℝ) (k : ℕ) : log2 (x ^ k) = k * log2 x := Real.logb_pow 2 x k

/-- Expansion of `log2` of a `{2,3,5,7,11}`-smooth product into the four
irrational atoms `log2 3`, `log2 5`, `log2 7`, `log2 11`. -/
theorem log2_factored (a b c d e : ℕ) :
    log2 ((2 : ℝ) ^ a * 3 ^ b * 5 ^ c * 7 ^ d * 11 ^ e)
      = (a : ℝ) + b * log2 3 + c * log2 5 + d * log2 7 + e * log2 11 := by
rw [log2_mul (by positivity) (by positivity), log2_mul (by positivity) (by positivity),
  log2_mul (by positivity) (by positivity), log2_mul (by positivity) (by positivity),
  log2_pow, log2_pow, log2_pow, log2_pow, log2_pow, log2_two]
ring

theorem atom310 : log2 ((3 : ℝ) / 10) = log2 3 - 1 - log2 5 := by
rw [show ((3 : ℝ) / 10) = 3 / (2 * 5) by norm_num,
  log2_div (by norm_num) (by norm_num), log2_mul (by norm_num) (by norm_num), log2_two]
ring

theorem atom710 : log2 ((7 : ℝ) / 10) = log2 7 - 1 - log2 5 := by
rw [show ((7 : ℝ) / 10) = 7 / (2 * 5) by norm_num,
  log2_div (by norm_num) (by norm_num), log2_mul (by norm_num) (by norm_num), log2_two]
ring

theorem atomHalf : log2 ((1 : ℝ) / 2) = -1 := by
rw [log2_div (by norm_num) (by norm_num), log2_one, log2_two]
ring

theorem atom56 : log2 ((5 : ℝ) / 6) = log2 5 - 1 - log2 3 := by
rw [show ((5 : ℝ) / 6) = 5 / (2 * 3) by norm_num,
  log2_div (by norm_num) (by norm_num), log2_mul (by norm_num) (by norm_num), log2_two]
ring

theorem atom16 : log2 ((1 : ℝ) / 6) = -1 - log2 3 := by
rw [show ((1 : ℝ) / 6) = 1 / (2 * 3) by norm_num,
  log2_div (by norm_num) (by norm_num), log2_mul (by norm_num) (by norm_num), log2_two,
  log2_one]
ring

theorem atom920 : log2 ((9 : ℝ) / 20) = 2 * log2 3 - 2 - log2 5 := by
rw [show ((9 : ℝ) / 20) = 3 ^ (2 : ℕ) / (2 ^ (2 : ℕ) * 5) by norm_num,
  log2_div (by norm_num) (by norm_num), log2_mul (by norm_num) (by norm_num),
  log2_pow, log2_two_pow]
push_cast
ring

theorem atom1120 : log2 ((11 : ℝ) / 20) = log2 11 - 2 - log2 5 := by
rw [show ((11 : ℝ) / 20) = 11 / (2 ^ (2 : ℕ) * 5) by norm_num,
  log2_div (by norm_num) (by norm_num), log2_mul (by norm_num) (by norm_num),
  log2_two_pow]
push_cast
ring

theorem atom34 : log2 ((3 : ℝ) / 4) = log2 3 - 2 := by
rw [show ((3 : ℝ) / 4) = 3 / 2 ^ (2 : ℕ) by norm_num,
  log2_div (by norm_num) (by norm_num), log2_two_pow]
push_cast
ring

theorem atom14 : log2 ((1 : ℝ) / 4) = -2 := by
rw [show ((1 : ℝ) / 4) = 1 / 2 ^ (2 : ℕ) by norm_num,
  log2_div (by norm_num) (by norm_num), log2_two_pow, log2_one]
push_cast
ring

theorem certSeed0 :
    (0 : ℝ) < 18 - 16 * log2 3 + 9 * log2 5 + 9 * log2 7 - 10 * log2 11 := by
have h := log2_lt_log2 (show (0 : ℝ) < 1116521080257783321 by norm_num)
  (show (1116521080257783321 : ℝ) < 20661046784000000000 by norm_num)
rw [show (1116521080257783321 : ℝ) = 2 ^ 0 * 3 ^ 16 * 5 ^ 0 * 7 ^ 0 * 11 ^ 10 by norm_num,
  show (20661046784000000000 : ℝ) = 2 ^ 18 * 3 ^ 0 * 5 ^ 9 * 7 ^ 9 * 11 ^ 0 by norm_num,
  log2_factored, log2_factored] at h
push_cast at h
linarith

theorem certSeed1 :
    (0 : ℝ) < -2 - 2 * log2 3 + 7 * log2 5 - 3 * log2 7 := by
have h := log2_lt_log2 (show (0 : ℝ) < 12348 by norm_num)
  (show (12348 : ℝ) < 78125 by norm_num)
rw [show (12348 : ℝ) = 2 ^ 2 * 3 ^ 2 * 5 ^ 0 * 7 ^ 3 * 11 ^ 0 by norm_num,
  show (78125 : ℝ) = 2 ^ 0 * 3 ^ 0 * 5 ^ 7 * 7 ^ 0 * 11 ^ 0 by norm_num,
  log2_factored, log2_factored] at h
push_cast at h
linarith

theorem certSeed2 : (0 : ℝ) < 8 + 2 * log2 3 - 4 * log2 5 := by
have h := log2_lt_log2 (show (0 : ℝ) < 625 by norm_num)
  (show (625 : ℝ) < 2304 by norm_num)
rw [show (625 : ℝ) = 2 ^ 0 * 3 ^ 0 * 5 ^ 4 * 7 ^ 0 * 11 ^ 0 by norm_num,
  show (2304 : ℝ) = 2 ^ 8 * 3 ^ 2 * 5 ^ 0 * 7 ^ 0 * 11 ^ 0 by norm_num,
  log2_factored, log2_factored] at h
push_cast at h
linarith

theorem certAssign :
    (0 : ℝ) < 6 - 6 * log2 3 + 6 * log2 5 - 3 * log2 11 := by
have h := log2_lt_log2 (show (0 : ℝ) < 970299 by norm_num)
  (show (970299 : ℝ) < 1000000 by norm_num)
rw [show (970299 : ℝ) = 2 ^ 0 * 3 ^ 6 * 5 ^ 0 * 7 ^ 0 * 11 ^ 3 by norm_num,
  show (1000000 : ℝ) = 2 ^ 6 * 3 ^ 0 * 5 ^ 6 * 7 ^ 0 * 11 ^ 0 by norm_num,
  log2_factored, log2_factored] at h
push_cast at h
linarith

theorem certAssign2 :
    (0 : ℝ) < -6 + 4 * log2 3 - 6 * log2 5 + 4 * log2 11 := by
have h := log2_lt_log2 (show (0 : ℝ) < 1000000 by norm_num)
  (show (1000000 : ℝ) < 1185921 by norm_num)
rw [show (1000000 : ℝ) = 2 ^ 6 * 3 ^ 0 * 5 ^ 6 * 7 ^ 0 * 11 ^ 0 by norm_num,
  show (1185921 : ℝ) = 2 ^ 0 * 3 ^ 4 * 5 ^ 0 * 7 ^ 0 * 11 ^ 4 by norm_num,
  log2_factored, log2_factored] at h
push_cast at h
linarith

theorem certIncr :
    (0 : ℝ) < -4 + 11 * log2 3 - 13 * log2 5 + 5 * log2 11 := by
have h := log2_lt_log2 (show (0 : ℝ) < 19531250000 by norm_num)
  (show (19531250000 : ℝ) < 28529701497 by norm_num)
rw [show (19531250000 : ℝ) = 2 ^ 4 * 3 ^ 0 * 5 ^ 13 * 7 ^ 0 * 11 ^ 0 by norm_num,
  show (28529701497 : ℝ) = 2 ^ 0 * 3 ^ 11 * 5 ^ 0 * 7 ^ 0 * 11 ^ 5 by norm_num,
  log2_factored, log2_factored] at h
push_cast at h
linarith

theorem movedState_gn (s : St) (x : ℕ) : (movedState s x).gn
    = (s.gn.set (s.ng x) ((grp s (s.ng x)).erase x)).set (numGroups s - 1)
      (insert x ((s.gn.set (s.ng x) ((grp s (s.ng x)).erase x)).getD
        (numGroups s - 1) ∅)) := rfl

theorem addNewGroup_P (s : St) (a b : ℕ) : (addNewGroup s).P a b
    = smoothedDensity ((blockWeightN (addNewGroup s) a b : ℕ) : ℚ)
      ((blockSize (addNewGroup s) a b : ℕ) : ℚ) := rfl

theorem addNewGroup_w (s : St) (a b : ℕ) : (addNewGroup s).w a b
    = ((blockWeightN (addNewGroup s) a b : ℕ) : ℚ) := rfl

theorem recalc_P_self (s : St) (a b : ℕ) : (recalc s).P a b
    = smoothedDensity ((blockWeightN (recalc s) a b : ℕ) : ℚ)
      ((blockSize (recalc s) a b : ℕ) : ℚ) := rfl

theorem recalc_w_self (s : St) (a b : ℕ) : (recalc s).w a b
    = ((blockWeightN (recalc s) a b : ℕ) : ℚ) := rfl

theorem sB46_gnL : sB46.gn = [{0, 1, 2}, ∅] := by decide

theorem sB46_Pdef (a b : ℕ) : sB46.P a b
    = smoothedDensity ((blockWeightN sB46 a b : ℕ) : ℚ)
      ((blockSize sB46 a b : ℕ) : ℚ) := addNewGroup_P (initState G46) a b

theorem sB46_wdef (a b : ℕ) : sB46.w a b
    = ((blockWeightN sB46 a b : ℕ) : ℚ) := addNewGroup_w (initState G46) a b

theorem sC46_Pdef (a b : ℕ) : sC46.P a b
    = smoothedDensity ((blockWeightN sC46 a b : ℕ) : ℚ)
      ((blockSize sC46 a b : ℕ) : ℚ) := movedState_P sB46 0 a b

theorem sC46_wdef (a b : ℕ) : sC46.w a b
    = ((blockWeightN sC46 a b : ℕ) : ℚ) := movedState_w sB46 0 a b

theorem sD46_Pdef (a b : ℕ) : sD46.P a b
    = smoothedDensity ((blockWeightN sD46 a b : ℕ) : ℚ)
      ((blockSize sD46 a b : ℕ) : ℚ) := movedState_P sC46 1 a b

theorem sD46_wdef (a b : ℕ) : sD46.w a b
    = ((blockWeightN sD46 a b : ℕ) : ℚ) := movedState_w sC46 1 a b

theorem sE46s_Pdef (a b : ℕ) : sE46s.P a b
    = smoothedDensity ((blockWeightN sE46s a b : ℕ) : ℚ)
      ((blockSize sE46s a b : ℕ) : ℚ) := movedState_P sD46 2 a b

theorem sE46s_wdef (a b : ℕ) : sE46s.w a b
    = ((blockWeightN sE46s a b : ℕ) : ℚ) := movedState_w sD46 2 a b

theorem sF46s_Pdef (a b : ℕ) : sF46s.P a b
    = smoothedDensity ((blockWeightN sF46s a b : ℕ) : ℚ)
      ((blockSize sF46s a b : ℕ) : ℚ) :=
recalc_P_self { sE46s with gn := [{0, 1}, {2}], ng := innerAssign sE46s } a b

theorem sF46s_wdef (a b : ℕ) : sF46s.w a b
    = ((blockWeightN sF46s a b : ℕ) : ℚ) :=
recalc_w_self { sE46s with gn := [{0, 1}, {2}], ng := innerAssign sE46s } a b

theorem sB46_k : numGroups sB46 = 2 := by rw [numGroups, sB46_gnL]; rfl

theorem sC46_gnL : sC46.gn = [{1, 2}, {0}] := by
rw [show sC46.gn = (movedState sB46 0).gn from rfl, movedState_gn,
  show sB46.ng 0 = 0 from rfl, sB46_k, grp, sB46_gnL]
decide

theorem sC46_k : numGroups sC46 = 2 := by rw [numGroups, sC46_gnL]; rfl

theorem sD46_gnL : sD46.gn = [{2}, {0, 1}] := by
rw [show sD46.gn = (movedState sC46 1).gn from rfl, movedState_gn,
  show sC46.ng 1 = 0 from rfl, sC46_k, grp, sC46_gnL]
decide

theorem sD46_k : numGroups sD46 = 2 := by rw [numGroups, sD46_gnL]; rfl

theorem sE46_gnL : sE46.gn = [∅, {0, 1, 2}] := by
rw [show sE46.gn = (movedState sD46 2).gn from rfl, movedState_gn,
  show sD46.ng 2 = 0 from rfl, sD46_k, grp, sD46_gnL]
decide

theorem sE46s_gnL : sE46s.gn = [∅, {0, 1, 2}] := sE46_gnL

theorem sE46s_k : numGroups sE46s = 2 := by rw [numGroups, sE46s_gnL]; rfl

theorem sF46s_gnL : sF46s.gn = [{0, 1}, {2}] := rfl

theorem sF46s_k : numGroups sF46s = 2 := rfl

theorem et14 : excludeTerm ((1 : ℚ), (4 : ℚ)) = 4 - log2 3 + 4 * log2 5 - 3 * log2 7 := by
rw [excludeTerm, show excludeP ((1 : ℚ), (4 : ℚ)) = 3 / 10 by
  norm_num [excludeP, smoothedDensity]]
rw [show (((3 : ℚ) / 10 : ℚ) : ℝ) = 3 / 10 by norm_num,
  show (1 : ℝ) - 3 / 10 = 7 / 10 by norm_num, atom310, atom710]
push_cast
ring

theorem et12 : excludeTerm ((1 : ℚ), (2 : ℚ)) = 2 := by
rw [excludeTerm, show excludeP ((1 : ℚ), (2 : ℚ)) = 1 / 2 by
  norm_num [excludeP, smoothedDensity]]
rw [show (((1 : ℚ) / 2 : ℚ) : ℝ) = 1 / 2 by norm_num,
  show (1 : ℝ) - 1 / 2 = 1 / 2 by norm_num, atomHalf]
push_cast
ring

theorem et22 : excludeTerm ((2 : ℚ), (2 : ℚ)) = 2 + 2 * log2 3 - 2 * log2 5 := by
rw [excludeTerm, show excludeP ((2 : ℚ), (2 : ℚ)) = 5 / 6 by
  norm_num [excludeP, smoothedDensity]]
rw [show (((5 : ℚ) / 6 : ℚ) : ℝ) = 5 / 6 by norm_num,
  show (1 : ℝ) - 5 / 6 = 1 / 6 by norm_num, atom56, atom16]
push_cast
ring

theorem et01 : excludeTerm ((0 : ℚ), (1 : ℚ)) = 2 - log2 3 := by
rw [excludeTerm, show excludeP ((0 : ℚ), (1 : ℚ)) = 1 / 4 by
  norm_num [excludeP, smoothedDensity]]
rw [show (((1 : ℚ) / 4 : ℚ) : ℝ) = 1 / 4 by norm_num,
  show (1 : ℝ) - 1 / 4 = 3 / 4 by norm_num, atom14, atom34]
push_cast
ring

theorem et02 : excludeTerm ((0 : ℚ), (2 : ℚ)) = 2 + 2 * log2 3 - 2 * log2 5 := by
rw [excludeTerm, show excludeP ((0 : ℚ), (2 : ℚ)) = 1 / 6 by
  norm_num [excludeP, smoothedDensity]]
rw [show (((1 : ℚ) / 6 : ℚ) : ℝ) = 1 / 6 by norm_num,
  show (1 : ℝ) - 1 / 6 = 5 / 6 by norm_num, atom16, atom56]
push_cast
ring

theorem sB46_w00 : sB46.w 0 0 = 4 := by
rw [sB46_wdef 0 0,
  show blockWeightN sB46 0 0 = 4 by simp only [blockWeightN, grp, sB46_gnL, show sB46.g = G46 from rfl]; decide]
norm_num

theorem sB46_w01 : sB46.w 0 1 = 0 := by
rw [sB46_wdef 0 1,
  show blockWeightN sB46 0 1 = 0 by simp only [blockWeightN, grp, sB46_gnL, show sB46.g = G46 from rfl]; decide]
norm_num

theorem sB46_w10 : sB46.w 1 0 = 0 := by
rw [sB46_wdef 1 0,
  show blockWeightN sB46 1 0 = 0 by simp only [blockWeightN, grp, sB46_gnL, show sB46.g = G46 from rfl]; decide]
norm_num

theorem sB46_P00 : sB46.P 0 0 = 9 / 20 := by
rw [sB46_Pdef 0 0,
  show blockWeightN sB46 0 0 = 4 by simp only [blockWeightN, grp, sB46_gnL, show sB46.g = G46 from rfl]; decide, show blockSize sB46 0 0 = 9 by simp only [blockSize, groupSize, grp, sB46_gnL]; decide]
norm_num [smoothedDensity]

theorem sB46_P01 : sB46.P 0 1 = 1 / 2 := by
rw [sB46_Pdef 0 1,
  show blockWeightN sB46 0 1 = 0 by simp only [blockWeightN, grp, sB46_gnL, show sB46.g = G46 from rfl]; decide, show blockSize sB46 0 1 = 0 by simp only [blockSize, groupSize, grp, sB46_gnL]; decide]
norm_num [smoothedDensity]

theorem sB46_P10 : sB46.P 1 0 = 1 / 2 := by
rw [sB46_Pdef 1 0,
  show blockWeightN sB46 1 0 = 0 by simp only [blockWeightN, grp, sB46_gnL, show sB46.g = G46 from rfl]; decide, show blockSize sB46 1 0 = 0 by simp only [blockSize, groupSize, grp, sB46_gnL]; decide]
norm_num [smoothedDensity]

theorem sB46_wn0 : excludeWN sB46 0 0 0 = some ((1, 4), (1, 4)) := by
rw [excludeWN, if_pos rfl, if_pos (show 1 < groupSize sB46 0 by simp only [groupSize, grp, sB46_gnL]; decide)]
rw [sB46_w00, show rowWeightN sB46 0 0 = 2 by simp only [rowWeightN, grp, sB46_gnL, show sB46.g = G46 from rfl]; decide,
  show colWeightN sB46 0 0 = 1 by simp only [colWeightN, grp, sB46_gnL, show sB46.g = G46 from rfl]; decide,
  show cell sB46 0 0 = 0 by rw [cell, show sB46.g.adj 0 0 = 0 from rfl]; norm_num,
  show groupSize sB46 0 = 3 by simp only [groupSize, grp, sB46_gnL]; decide]
norm_num

theorem sB46_wn1 : excludeWN sB46 0 0 1 = some ((1, 2), (2, 2)) := by
rw [excludeWN, if_neg (by norm_num),
  if_pos (show (1 : ℕ) = numGroups sB46 - 1 from rfl),
  if_pos (show 1 < groupSize sB46 0 by simp only [groupSize, grp, sB46_gnL]; decide)]
rw [sB46_w01, sB46_w10, show rowWeightN sB46 0 1 = 0 by simp only [rowWeightN, grp, sB46_gnL, show sB46.g = G46 from rfl]; decide,
  show colWeightN sB46 0 0 = 1 by simp only [colWeightN, grp, sB46_gnL, show sB46.g = G46 from rfl]; decide, show colWeightN sB46 0 1 = 0 by simp only [colWeightN, grp, sB46_gnL, show sB46.g = G46 from rfl]; decide,
  show rowWeightN sB46 0 0 = 2 by simp only [rowWeightN, grp, sB46_gnL, show sB46.g = G46 from rfl]; decide, show groupSize sB46 0 = 3 by simp only [groupSize, grp, sB46_gnL]; decide,
  show groupSize sB46 1 = 0 by simp only [groupSize, grp, sB46_gnL]; decide]
norm_num

theorem sB46_err : excludeErr sB46 0 0 = false := by
rw [excludeErr, List.any_eq_false]
intro j hj
rw [List.mem_range, sB46_k] at hj
have hj01 : j = 0 ∨ j = 1 := by omega
rcases hj01 with rfl | rfl
· rw [sB46_wn0]
  simp only [Bool.or_eq_true, decide_eq_true_eq, not_or]
  norm_num [excludeP, smoothedDensity]
· rw [sB46_wn1]
  simp only [Bool.or_eq_true, decide_eq_true_eq, not_or]
  norm_num [excludeP, smoothedDensity]

theorem sB46_sum : excludeSum sB46 0 0 = 12 + 6 * log2 5 - 6 * log2 7 := by
rw [excludeSum, sB46_k, Finset.sum_range_succ,
  Finset.sum_range_one, sB46_wn0, sB46_wn1]
show (excludeTerm ((1 : ℚ), (4 : ℚ)) + excludeTerm ((1 : ℚ), (4 : ℚ)))
  + (excludeTerm ((1 : ℚ), (2 : ℚ)) + excludeTerm ((2 : ℚ), (2 : ℚ)))
  = 12 + 6 * log2 5 - 6 * log2 7
rw [et14, et12, et22]
ring

theorem sB46_ex : groupEntropyPerNodeExclude? sB46 0 0
    = some (excludeSum sB46 0 0 / ((groupSize sB46 0 : ℝ) - 1)) := by
rw [groupEntropyPerNodeExclude?,
  if_neg (by simp only [groupSize, grp, sB46_gnL]; decide),
  if_neg (by rw [sB46_err]; exact Bool.false_ne_true)]

theorem sB46_bcc00 : blockCodeCost sB46 0 0 = 18 - 8 * log2 3 + 9 * log2 5 - 5 * log2 11 := by
rw [blockCodeCost, sB46_w00, sB46_P00,
  show ((blockSize sB46 0 0 : ℕ) : ℝ) = 9 by
    rw [show blockSize sB46 0 0 = 9 by simp only [blockSize, groupSize, grp, sB46_gnL]; decide]; norm_num,
  show (((9 : ℚ) / 20 : ℚ) : ℝ) = 9 / 20 by norm_num,
  show (1 : ℝ) - 9 / 20 = 11 / 20 by norm_num, atom920, atom1120]
push_cast
ring

theorem sB46_bcc01 : blockCodeCost sB46 0 1 = 0 := by
rw [blockCodeCost, sB46_w01, sB46_P01,
  show ((blockSize sB46 0 1 : ℕ) : ℝ) = 0 by
    rw [show blockSize sB46 0 1 = 0 by simp only [blockSize, groupSize, grp, sB46_gnL]; decide]; norm_num]
push_cast
ring

theorem sB46_bcc10 : blockCodeCost sB46 1 0 = 0 := by
rw [blockCodeCost, sB46_w10, sB46_P10,
  show ((blockSize sB46 1 0 : ℕ) : ℝ) = 0 by
    rw [show blockSize sB46 1 0 = 0 by simp only [blockSize, groupSize, grp, sB46_gnL]; decide]; norm_num]
push_cast
ring

theorem sB46_g : groupEntropyPerNode sB46 0
    = (36 - 16 * log2 3 + 18 * log2 5 - 10 * log2 11) / 3 := by
rw [groupEntropyPerNode,
  if_neg (by simp only [groupSize, grp, sB46_gnL]; decide), sB46_k,
  Finset.sum_range_succ, Finset.sum_range_one, sB46_bcc00, sB46_bcc01, sB46_bcc10,
  show ((groupSize sB46 0 : ℕ) : ℝ) = 3 by
    rw [show groupSize sB46 0 = 3 by simp only [groupSize, grp, sB46_gnL]; decide]; norm_num]
ring

theorem sB46_cmp : excludeSum sB46 0 0 / ((groupSize sB46 0 : ℝ) - 1)
    < groupEntropyPerNode sB46 0 := by
rw [sB46_sum, sB46_g,
  show ((groupSize sB46 0 : ℕ) : ℝ) = 3 by
    rw [show groupSize sB46 0 = 3 by simp only [groupSize, grp, sB46_gnL]; decide]; norm_num]
have h := certSeed0
rw [show (3 : ℝ) - 1 = 2 by norm_num]
rw [div_lt_div_iff (by norm_num) (by norm_num)]
nlinarith [certSeed0]

theorem sB46_move : moveNodeToNewGroup sB46 0 = some sC46 :=
moveNodeToNewGroup_eq (by
  simp only [show sB46.ng 0 = 0 from rfl, sB46_k, grp, sB46_gnL,
    show sB46.g.n = 3 from rfl]
  decide)

theorem sC46_w00 : sC46.w 0 0 = 1 := by
rw [sC46_wdef 0 0,
  show blockWeightN sC46 0 0 = 1 by simp only [blockWeightN, grp, sC46_gnL, show sC46.g = G46 from rfl]; decide]
norm_num

theorem sC46_w01 : sC46.w 0 1 = 1 := by
rw [sC46_wdef 0 1,
  show blockWeightN sC46 0 1 = 1 by simp only [blockWeightN, grp, sC46_gnL, show sC46.g = G46 from rfl]; decide]
norm_num

theorem sC46_w10 : sC46.w 1 0 = 2 := by
rw [sC46_wdef 1 0,
  show blockWeightN sC46 1 0 = 2 by simp only [blockWeightN, grp, sC46_gnL, show sC46.g = G46 from rfl]; decide]
norm_num

theorem sC46_P00 : sC46.P 0 0 = 3 / 10 := by
rw [sC46_Pdef 0 0,
  show blockWeightN sC46 0 0 = 1 by simp only [blockWeightN, grp, sC46_gnL, show sC46.g = G46 from rfl]; decide, show blockSize sC46 0 0 = 4 by simp only [blockSize, groupSize, grp, sC46_gnL]; decide]
norm_num [smoothedDensity]

theorem sC46_P01 : sC46.P 0 1 = 1 / 2 := by
rw [sC46_Pdef 0 1,
  show blockWeightN sC46 0 1 = 1 by simp only [blockWeightN, grp, sC46_gnL, show sC46.g = G46 from rfl]; decide, show blockSize sC46 0 1 = 2 by simp only [blockSize, groupSize, grp, sC46_gnL]; decide]
norm_num [smoothedDensity]

theorem sC46_P10 : sC46.P 1 0 = 5 / 6 := by
rw [sC46_Pdef 1 0,
  show blockWeightN sC46 1 0 = 2 by simp only [blockWeightN, grp, sC46_gnL, show sC46.g = G46 from rfl]; decide, show blockSize sC46 1 0 = 2 by simp only [blockSize, groupSize, grp, sC46_gnL]; decide]
norm_num [smoothedDensity]

theorem sC46_wn0 : excludeWN sC46 0 1 0 = some ((0, 1), (0, 1)) := by
rw [excludeWN, if_pos rfl, if_pos (show 1 < groupSize sC46 0 by simp only [groupSize, grp, sC46_gnL]; decide)]
rw [sC46_w00, show rowWeightN sC46 1 0 = 1 by simp only [rowWeightN, grp, sC46_gnL, show sC46.g = G46 from rfl]; decide,
  show colWeightN sC46 1 0 = 0 by simp only [colWeightN, grp, sC46_gnL, show sC46.g = G46 from rfl]; decide,
  show cell sC46 1 1 = 0 by rw [cell, show sC46.g.adj 1 1 = 0 from rfl]; norm_num,
  show groupSize sC46 0 = 2 by simp only [groupSize, grp, sC46_gnL]; decide]
norm_num

theorem sC46_wn1 : excludeWN sC46 0 1 1 = some ((0, 2), (2, 2)) := by
rw [excludeWN, if_neg (by norm_num),
  if_pos (show (1 : ℕ) = numGroups sC46 - 1 from rfl),
  if_pos (show 1 < groupSize sC46 0 by simp only [groupSize, grp, sC46_gnL]; decide)]
rw [sC46_w01, sC46_w10, show rowWeightN sC46 1 1 = 1 by simp only [rowWeightN, grp, sC46_gnL, show sC46.g = G46 from rfl]; decide,
  show colWeightN sC46 1 0 = 0 by simp only [colWeightN, grp, sC46_gnL, show sC46.g = G46 from rfl]; decide, show colWeightN sC46 1 1 = 1 by simp only [colWeightN, grp, sC46_gnL, show sC46.g = G46 from rfl]; decide,
  show rowWeightN sC46 1 0 = 1 by simp only [rowWeightN, grp, sC46_gnL, show sC46.g = G46 from rfl]; decide, show groupSize sC46 0 = 2 by simp only [groupSize, grp, sC46_gnL]; decide,
  show groupSize sC46 1 = 1 by simp only [groupSize, grp, sC46_gnL]; decide]
norm_num

theorem sC46_err : excludeErr sC46 0 1 = false := by
rw [excludeErr, List.any_eq_false]
intro j hj
rw [List.mem_range, sC46_k] at hj
have hj01 : j = 0 ∨ j = 1 := by omega
rcases hj01 with rfl | rfl
· rw [sC46_wn0]
  simp only [Bool.or_eq_true, decide_eq_true_eq, not_or]
  norm_num [excludeP, smoothedDensity]
· rw [sC46_wn1]
  simp only [Bool.or_eq_true, decide_eq_true_eq, not_or]
  norm_num [excludeP, smoothedDensity]

theorem sC46_sum : excludeSum sC46 0 1 = 8 + 2 * log2 3 - 4 * log2 5 := by
rw [excludeSum, sC46_k, Finset.sum_range_succ,
  Finset.sum_range_one, sC46_wn0, sC46_wn1]
show (excludeTerm ((0 : ℚ), (1 : ℚ)) + excludeTerm ((0 : ℚ), (1 : ℚ)))
  + (excludeTerm ((0 : ℚ), (2 : ℚ)) + excludeTerm ((2 : ℚ), (2 : ℚ)))
  = 8 + 2 * log2 3 - 4 * log2 5
rw [et01, et02, et22]
ring

theorem sC46_ex : groupEntropyPerNodeExclude? sC46 0 1
    = some (excludeSum sC46 0 1 / ((groupSize sC46 0 : ℝ) - 1)) := by
rw [groupEntropyPerNodeExclude?,
  if_neg (by simp only [groupSize, grp, sC46_gnL]; decide),
  if_neg (by rw [sC46_err]; exact Bool.false_ne_true)]

theorem sC46_bcc00 : blockCodeCost sC46 0 0 = 4 - log2 3 + 4 * log2 5 - 3 * log2 7 := by
rw [blockCodeCost, sC46_w00, sC46_P00,
  show ((blockSize sC46 0 0 : ℕ) : ℝ) = 4 by
    rw [show blockSize sC46 0 0 = 4 by simp only [blockSize, groupSize, grp, sC46_gnL]; decide]; norm_num,
  show (((3 : ℚ) / 10 : ℚ) : ℝ) = 3 / 10 by norm_num,
  show (1 : ℝ) - 3 / 10 = 7 / 10 by norm_num, atom310, atom710]
push_cast
ring

theorem sC46_bcc01 : blockCodeCost sC46 0 1 = 2 := by
rw [blockCodeCost, sC46_w01, sC46_P01,
  show ((blockSize sC46 0 1 : ℕ) : ℝ) = 2 by
    rw [show blockSize sC46 0 1 = 2 by simp only [blockSize, groupSize, grp, sC46_gnL]; decide]; norm_num,
  show (((1 : ℚ) / 2 : ℚ) : ℝ) = 1 / 2 by norm_num,
  show (1 : ℝ) - 1 / 2 = 1 / 2 by norm_num, atomHalf]
push_cast
ring

theorem sC46_bcc10 : blockCodeCost sC46 1 0 = 2 + 2 * log2 3 - 2 * log2 5 := by
rw [blockCodeCost, sC46_w10, sC46_P10,
  show ((blockSize sC46 1 0 : ℕ) : ℝ) = 2 by
    rw [show blockSize sC46 1 0 = 2 by simp only [blockSize, groupSize, grp, sC46_gnL]; decide]; norm_num,
  show (((5 : ℚ) / 6 : ℚ) : ℝ) = 5 / 6 by norm_num,
  show (1 : ℝ) - 5 / 6 = 1 / 6 by norm_num, atom56, atom16]
push_cast
ring

theorem sC46_g : groupEntropyPerNode sC46 0
    = (12 + 6 * log2 5 - 6 * log2 7) / 2 := by
rw [groupEntropyPerNode,
  if_neg (by simp only [groupSize, grp, sC46_gnL]; decide), sC46_k,
  Finset.sum_range_succ, Finset.sum_range_one, sC46_bcc00, sC46_bcc01, sC46_bcc10,
  show ((groupSize sC46 0 : ℕ) : ℝ) = 2 by
    rw [show groupSize sC46 0 = 2 by simp only [groupSize, grp, sC46_gnL]; decide]; norm_num]
ring

theorem sC46_cmp : excludeSum sC46 0 1 / ((groupSize sC46 0 : ℝ) - 1)
    < groupEntropyPerNode sC46 0 := by
rw [sC46_sum, sC46_g,
  show ((groupSize sC46 0 : ℕ) : ℝ) = 2 by
    rw [show groupSize sC46 0 = 2 by simp only [groupSize, grp, sC46_gnL]; decide]; norm_num,
  show (2 : ℝ) - 1 = 1 by norm_num, div_one]
linarith [certSeed1]

theorem sC46_move : moveNodeToNewGroup sC46 1 = some sD46 :=
moveNodeToNewGroup_eq (by
  simp only [show sC46.ng 1 = 0 from rfl, sC46_k, grp, sC46_gnL,
    show sC46.g.n = 3 from rfl]
  decide)

theorem sD46_ex : groupEntropyPerNodeExclude? sD46 0 2 = some 0 := by
rw [groupEntropyPerNodeExclude?,
  if_pos (by simp only [groupSize, grp, sD46_gnL]; decide)]

theorem sD46_P00 : sD46.P 0 0 = 1 / 4 := by
rw [sD46_Pdef 0 0,
  show blockWeightN sD46 0 0 = 0 by simp only [blockWeightN, grp, sD46_gnL, show sD46.g = G46 from rfl]; decide, show blockSize sD46 0 0 = 1 by simp only [blockSize, groupSize, grp, sD46_gnL]; decide]
norm_num [smoothedDensity]

theorem sD46_P01 : sD46.P 0 1 = 1 / 6 := by
rw [sD46_Pdef 0 1,
  show blockWeightN sD46 0 1 = 0 by simp only [blockWeightN, grp, sD46_gnL, show sD46.g = G46 from rfl]; decide, show blockSize sD46 0 1 = 2 by simp only [blockSize, groupSize, grp, sD46_gnL]; decide]
norm_num [smoothedDensity]

theorem sD46_P10 : sD46.P 1 0 = 5 / 6 := by
rw [sD46_Pdef 1 0,
  show blockWeightN sD46 1 0 = 2 by simp only [blockWeightN, grp, sD46_gnL, show sD46.g = G46 from rfl]; decide, show blockSize sD46 1 0 = 2 by simp only [blockSize, groupSize, grp, sD46_gnL]; decide]
norm_num [smoothedDensity]

theorem sD46_w00 : sD46.w 0 0 = 0 := by
rw [sD46_wdef 0 0,
  show blockWeightN sD46 0 0 = 0 by simp only [blockWeightN, grp, sD46_gnL, show sD46.g = G46 from rfl]; decide]
norm_num

theorem sD46_w01 : sD46.w 0 1 = 0 := by
rw [sD46_wdef 0 1,
  show blockWeightN sD46 0 1 = 0 by simp only [blockWeightN, grp, sD46_gnL, show sD46.g = G46 from rfl]; decide]
norm_num

theorem sD46_w10 : sD46.w 1 0 = 2 := by
rw [sD46_wdef 1 0,
  show blockWeightN sD46 1 0 = 2 by simp only [blockWeightN, grp, sD46_gnL, show sD46.g = G46 from rfl]; decide]
norm_num

theorem sD46_bcc00 : blockCodeCost sD46 0 0 = 2 - log2 3 := by
rw [blockCodeCost, sD46_w00, sD46_P00,
  show ((blockSize sD46 0 0 : ℕ) : ℝ) = 1 by
    rw [show blockSize sD46 0 0 = 1 by simp only [blockSize, groupSize, grp, sD46_gnL]; decide]; norm_num,
  show (((1 : ℚ) / 4 : ℚ) : ℝ) = 1 / 4 by norm_num,
  show (1 : ℝ) - 1 / 4 = 3 / 4 by norm_num, atom14, atom34]
push_cast
ring

theorem sD46_bcc01 : blockCodeCost sD46 0 1 = 2 + 2 * log2 3 - 2 * log2 5 := by
rw [blockCodeCost, sD46_w01, sD46_P01,
  show ((blockSize sD46 0 1 : ℕ) : ℝ) = 2 by
    rw [show blockSize sD46 0 1 = 2 by simp only [blockSize, groupSize, grp, sD46_gnL]; decide]; norm_num,
  show (((1 : ℚ) / 6 : ℚ) : ℝ) = 1 / 6 by norm_num,
  show (1 : ℝ) - 1 / 6 = 5 / 6 by norm_num, atom16, atom56]
push_cast
ring

theorem sD46_bcc10 : blockCodeCost sD46 1 0 = 2 + 2 * log2 3 - 2 * log2 5 := by
rw [blockCodeCost, sD46_w10, sD46_P10,
  show ((blockSize sD46 1 0 : ℕ) : ℝ) = 2 by
    rw [show blockSize sD46 1 0 = 2 by simp only [blockSize, groupSize, grp, sD46_gnL]; decide]; norm_num,
  show (((5 : ℚ) / 6 : ℚ) : ℝ) = 5 / 6 by norm_num,
  show (1 : ℝ) - 5 / 6 = 1 / 6 by norm_num, atom56, atom16]
push_cast
ring

theorem sD46_g : groupEntropyPerNode sD46 0 = 8 + 2 * log2 3 - 4 * log2 5 := by
rw [groupEntropyPerNode,
  if_neg (by simp only [groupSize, grp, sD46_gnL]; decide), sD46_k,
  Finset.sum_range_succ, Finset.sum_range_one, sD46_bcc00, sD46_bcc01, sD46_bcc10,
  show ((groupSize sD46 0 : ℕ) : ℝ) = 1 by
    rw [show groupSize sD46 0 = 1 by simp only [groupSize, grp, sD46_gnL]; decide]; norm_num, div_one]
ring

theorem sD46_cmp : (0 : ℝ) < groupEntropyPerNode sD46 0 := by
rw [sD46_g]
linarith [certSeed2]

theorem sD46_move : moveNodeToNewGroup sD46 2 = some sE46 :=
moveNodeToNewGroup_eq (by
  simp only [show sD46.ng 2 = 0 from rfl, sD46_k, grp, sD46_gnL,
    show sD46.g.n = 3 from rfl]
  decide)

theorem g46_seed : seedLoop 0 sB46 [0, 1, 2] = (sE46, none) := by
have s0 : seedLoop 0 sB46 [0, 1, 2] = seedLoop 0 sC46 [1, 2] := by
  simp only [seedLoop, sB46_ex, if_pos sB46_cmp, sB46_move]
have s1 : seedLoop 0 sC46 [1, 2] = seedLoop 0 sD46 [2] := by
  simp only [seedLoop, sC46_ex, if_pos sC46_cmp, sC46_move]
have s2 : seedLoop 0 sD46 [2] = seedLoop 0 sE46 [] := by
  simp only [seedLoop, sD46_ex, if_pos sD46_cmp, sD46_move]
rw [s0, s1, s2]
rfl

theorem sE46_P00 : sE46s.P 0 0 = 1 / 2 := by
rw [sE46s_Pdef 0 0,
  show blockWeightN sE46s 0 0 = 0 by simp only [blockWeightN, grp, sE46s_gnL, show sE46s.g = G46 from rfl]; decide, show blockSize sE46s 0 0 = 0 by simp only [blockSize, groupSize, grp, sE46s_gnL]; decide]
norm_num [smoothedDensity]

theorem sE46_P01 : sE46s.P 0 1 = 1 / 2 := by
rw [sE46s_Pdef 0 1,
  show blockWeightN sE46s 0 1 = 0 by simp only [blockWeightN, grp, sE46s_gnL, show sE46s.g = G46 from rfl]; decide, show blockSize sE46s 0 1 = 0 by simp only [blockSize, groupSize, grp, sE46s_gnL]; decide]
norm_num [smoothedDensity]

theorem sE46_P10 : sE46s.P 1 0 = 1 / 2 := by
rw [sE46s_Pdef 1 0,
  show blockWeightN sE46s 1 0 = 0 by simp only [blockWeightN, grp, sE46s_gnL, show sE46s.g = G46 from rfl]; decide, show blockSize sE46s 1 0 = 0 by simp only [blockSize, groupSize, grp, sE46s_gnL]; decide]
norm_num [smoothedDensity]

theorem sE46_P11 : sE46s.P 1 1 = 9 / 20 := by
rw [sE46s_Pdef 1 1,
  show blockWeightN sE46s 1 1 = 4 by simp only [blockWeightN, grp, sE46s_gnL, show sE46s.g = G46 from rfl]; decide, show blockSize sE46s 1 1 = 9 by simp only [blockSize, groupSize, grp, sE46s_gnL]; decide]
norm_num [smoothedDensity]

theorem sE46_w00 : sE46s.w 0 0 = 0 := by
rw [sE46s_wdef 0 0,
  show blockWeightN sE46s 0 0 = 0 by simp only [blockWeightN, grp, sE46s_gnL, show sE46s.g = G46 from rfl]; decide]
norm_num

theorem sE46_w01 : sE46s.w 0 1 = 0 := by
rw [sE46s_wdef 0 1,
  show blockWeightN sE46s 0 1 = 0 by simp only [blockWeightN, grp, sE46s_gnL, show sE46s.g = G46 from rfl]; decide]
norm_num

theorem sE46_w10 : sE46s.w 1 0 = 0 := by
rw [sE46s_wdef 1 0,
  show blockWeightN sE46s 1 0 = 0 by simp only [blockWeightN, grp, sE46s_gnL, show sE46s.g = G46 from rfl]; decide]
norm_num

theorem sE46_w11 : sE46s.w 1 1 = 4 := by
rw [sE46s_wdef 1 1,
  show blockWeightN sE46s 1 1 = 4 by simp only [blockWeightN, grp, sE46s_gnL, show sE46s.g = G46 from rfl]; decide]
norm_num

theorem sE46_bcc00 : blockCodeCost sE46s 0 0 = 0 := by
rw [blockCodeCost, sE46_w00, sE46_P00,
  show ((blockSize sE46s 0 0 : ℕ) : ℝ) = 0 by
    rw [show blockSize sE46s 0 0 = 0 by simp only [blockSize, groupSize, grp, sE46s_gnL]; decide]; norm_num]
push_cast
ring

theorem sE46_bcc01 : blockCodeCost sE46s 0 1 = 0 := by
rw [blockCodeCost, sE46_w01, sE46_P01,
  show ((blockSize sE46s 0 1 : ℕ) : ℝ) = 0 by
    rw [show blockSize sE46s 0 1 = 0 by simp only [blockSize, groupSize, grp, sE46s_gnL]; decide]; norm_num]
push_cast
ring

theorem sE46_bcc10 : blockCodeCost sE46s 1 0 = 0 := by
rw [blockCodeCost, sE46_w10, sE46_P10,
  show ((blockSize sE46s 1 0 : ℕ) : ℝ) = 0 by
    rw [show blockSize sE46s 1 0 = 0 by simp only [blockSize, groupSize, grp, sE46s_gnL]; decide]; norm_num]
push_cast
ring

theorem sE46_bcc11 : blockCodeCost sE46s 1 1
    = 18 - 8 * log2 3 + 9 * log2 5 - 5 * log2 11 := by
rw [blockCodeCost, sE46_w11, sE46_P11,
  show ((blockSize sE46s 1 1 : ℕ) : ℝ) = 9 by
    rw [show blockSize sE46s 1 1 = 9 by simp only [blockSize, groupSize, grp, sE46s_gnL]; decide]; norm_num,
  show (((9 : ℚ) / 20 : ℚ) : ℝ) = 9 / 20 by norm_num,
  show (1 : ℝ) - 9 / 20 = 11 / 20 by norm_num, atom920, atom1120]
push_cast
ring

theorem sE46_rc00 : rearrangeCost sE46s 0 0 = 6 := by
rw [rearrangeCost, sE46s_k, Finset.sum_range_succ,
  Finset.sum_range_one, sE46_P00, sE46_P01, sE46_P10,
  show rowWeightN sE46s 0 0 = 0 by simp only [rowWeightN, grp, sE46s_gnL, show sE46s.g = G46 from rfl]; decide, show colWeightN sE46s 0 0 = 0 by simp only [colWeightN, grp, sE46s_gnL, show sE46s.g = G46 from rfl]; decide,
  show rowWeightN sE46s 0 1 = 2 by simp only [rowWeightN, grp, sE46s_gnL, show sE46s.g = G46 from rfl]; decide, show colWeightN sE46s 0 1 = 1 by simp only [colWeightN, grp, sE46s_gnL, show sE46s.g = G46 from rfl]; decide,
  show groupSize sE46s 0 = 0 by simp only [groupSize, grp, sE46s_gnL]; decide, show groupSize sE46s 1 = 3 by simp only [groupSize, grp, sE46s_gnL]; decide,
  show (((1 : ℚ) / 2 : ℚ) : ℝ) = 1 / 2 by norm_num,
  show (1 : ℝ) - 1 / 2 = 1 / 2 by norm_num, atomHalf]
push_cast
ring

theorem sE46_rc01 : rearrangeCost sE46s 0 1
    = 12 - 6 * log2 3 + 6 * log2 5 - 3 * log2 11 := by
rw [rearrangeCost, sE46s_k, Finset.sum_range_succ,
  Finset.sum_range_one, sE46_P10, sE46_P01, sE46_P11,
  show rowWeightN sE46s 0 0 = 0 by simp only [rowWeightN, grp, sE46s_gnL, show sE46s.g = G46 from rfl]; decide, show colWeightN sE46s 0 0 = 0 by simp only [colWeightN, grp, sE46s_gnL, show sE46s.g = G46 from rfl]; decide,
  show rowWeightN sE46s 0 1 = 2 by simp only [rowWeightN, grp, sE46s_gnL, show sE46s.g = G46 from rfl]; decide, show colWeightN sE46s 0 1 = 1 by simp only [colWeightN, grp, sE46s_gnL, show sE46s.g = G46 from rfl]; decide,
  show groupSize sE46s 0 = 0 by simp only [groupSize, grp, sE46s_gnL]; decide, show groupSize sE46s 1 = 3 by simp only [groupSize, grp, sE46s_gnL]; decide,
  show (((1 : ℚ) / 2 : ℚ) : ℝ) = 1 / 2 by norm_num,
  show (1 : ℝ) - 1 / 2 = 1 / 2 by norm_num, atomHalf,
  show (((9 : ℚ) / 20 : ℚ) : ℝ) = 9 / 20 by norm_num,
  show (1 : ℝ) - 9 / 20 = 11 / 20 by norm_num, atom920, atom1120]
push_cast
ring

theorem sE46_rc10 : rearrangeCost sE46s 1 0 = 6 := by
rw [rearrangeCost, sE46s_k, Finset.sum_range_succ,
  Finset.sum_range_one, sE46_P00, sE46_P01, sE46_P10,
  show rowWeightN sE46s 1 0 = 0 by simp only [rowWeightN, grp, sE46s_gnL, show sE46s.g = G46 from rfl]; decide, show colWeightN sE46s 1 0 = 0 by simp only [colWeightN, grp, sE46s_gnL, show sE46s.g = G46 from rfl]; decide,
  show rowWeightN sE46s 1 1 = 2 by simp only [rowWeightN, grp, sE46s_gnL, show sE46s.g = G46 from rfl]; decide, show colWeightN sE46s 1 1 = 1 by simp only [colWeightN, grp, sE46s_gnL, show sE46s.g = G46 from rfl]; decide,
  show groupSize sE46s 0 = 0 by simp only [groupSize, grp, sE46s_gnL]; decide, show groupSize sE46s 1 = 3 by simp only [groupSize, grp, sE46s_gnL]; decide,
  show (((1 : ℚ) / 2 : ℚ) : ℝ) = 1 / 2 by norm_num,
  show (1 : ℝ) - 1 / 2 = 1 / 2 by norm_num, atomHalf]
push_cast
ring

theorem sE46_rc11 : rearrangeCost sE46s 1 1
    = 12 - 6 * log2 3 + 6 * log2 5 - 3 * log2 11 := by
rw [rearrangeCost, sE46s_k, Finset.sum_range_succ,
  Finset.sum_range_one, sE46_P10, sE46_P01, sE46_P11,
  show rowWeightN sE46s 1 0 = 0 by simp only [rowWeightN, grp, sE46s_gnL, show sE46s.g = G46 from rfl]; decide, show colWeightN sE46s 1 0 = 0 by simp only [colWeightN, grp, sE46s_gnL, show sE46s.g = G46 from rfl]; decide,
  show rowWeightN sE46s 1 1 = 2 by simp only [rowWeightN, grp, sE46s_gnL, show sE46s.g = G46 from rfl]; decide, show colWeightN sE46s 1 1 = 1 by simp only [colWeightN, grp, sE46s_gnL, show sE46s.g = G46 from rfl]; decide,
  show groupSize sE46s 0 = 0 by simp only [groupSize, grp, sE46s_gnL]; decide, show groupSize sE46s 1 = 3 by simp only [groupSize, grp, sE46s_gnL]; decide,
  show (((1 : ℚ) / 2 : ℚ) : ℝ) = 1 / 2 by norm_num,
  show (1 : ℝ) - 1 / 2 = 1 / 2 by norm_num, atomHalf,
  show (((9 : ℚ) / 20 : ℚ) : ℝ) = 9 / 20 by norm_num,
  show (1 : ℝ) - 9 / 20 = 11 / 20 by norm_num, atom920, atom1120]
push_cast
ring

theorem sE46_rc20 : rearrangeCost sE46s 2 0 = 6 := by
rw [rearrangeCost, sE46s_k, Finset.sum_range_succ,
  Finset.sum_range_one, sE46_P00, sE46_P01, sE46_P10,
  show rowWeightN sE46s 2 0 = 0 by simp only [rowWeightN, grp, sE46s_gnL, show sE46s.g = G46 from rfl]; decide, show colWeightN sE46s 2 0 = 0 by simp only [colWeightN, grp, sE46s_gnL, show sE46s.g = G46 from rfl]; decide,
  show rowWeightN sE46s 2 1 = 0 by simp only [rowWeightN, grp, sE46s_gnL, show sE46s.g = G46 from rfl]; decide, show colWeightN sE46s 2 1 = 2 by simp only [colWeightN, grp, sE46s_gnL, show sE46s.g = G46 from rfl]; decide,
  show groupSize sE46s 0 = 0 by simp only [groupSize, grp, sE46s_gnL]; decide, show groupSize sE46s 1 = 3 by simp only [groupSize, grp, sE46s_gnL]; decide,
  show (((1 : ℚ) / 2 : ℚ) : ℝ) = 1 / 2 by norm_num,
  show (1 : ℝ) - 1 / 2 = 1 / 2 by norm_num, atomHalf]
push_cast
ring

theorem sE46_rc21 : rearrangeCost sE46s 2 1
    = 12 - 4 * log2 3 + 6 * log2 5 - 4 * log2 11 := by
rw [rearrangeCost, sE46s_k, Finset.sum_range_succ,
  Finset.sum_range_one, sE46_P10, sE46_P01, sE46_P11,
  show rowWeightN sE46s 2 0 = 0 by simp only [rowWeightN, grp, sE46s_gnL, show sE46s.g = G46 from rfl]; decide, show colWeightN sE46s 2 0 = 0 by simp only [colWeightN, grp, sE46s_gnL, show sE46s.g = G46 from rfl]; decide,
  show rowWeightN sE46s 2 1 = 0 by simp only [rowWeightN, grp, sE46s_gnL, show sE46s.g = G46 from rfl]; decide, show colWeightN sE46s 2 1 = 2 by simp only [colWeightN, grp, sE46s_gnL, show sE46s.g = G46 from rfl]; decide,
  show groupSize sE46s 0 = 0 by simp only [groupSize, grp, sE46s_gnL]; decide, show groupSize sE46s 1 = 3 by simp only [groupSize, grp, sE46s_gnL]; decide,
  show (((1 : ℚ) / 2 : ℚ) : ℝ) = 1 / 2 by norm_num,
  show (1 : ℝ) - 1 / 2 = 1 / 2 by norm_num, atomHalf,
  show (((9 : ℚ) / 20 : ℚ) : ℝ) = 9 / 20 by norm_num,
  show (1 : ℝ) - 9 / 20 = 11 / 20 by norm_num, atom920, atom1120]
push_cast
ring

theorem sE46_as0 : innerAssign sE46s 0 = 0 := by
have hn : ¬(rearrangeCost sE46s 0 1 < rearrangeCost sE46s 0 0) := by
  rw [sE46_rc00, sE46_rc01, not_lt]
  linarith [certAssign]
rw [innerAssign, show List.range (numGroups sE46s) = [0, 1] from rfl]
show pyMinAux (rearrangeCost sE46s 0) 0 [1] = 0
simp only [pyMinAux, if_neg hn]

theorem sE46_as1 : innerAssign sE46s 1 = 0 := by
have hn : ¬(rearrangeCost sE46s 1 1 < rearrangeCost sE46s 1 0) := by
  rw [sE46_rc10, sE46_rc11, not_lt]
  linarith [certAssign]
rw [innerAssign, show List.range (numGroups sE46s) = [0, 1] from rfl]
show pyMinAux (rearrangeCost sE46s 1) 0 [1] = 0
simp only [pyMinAux, if_neg hn]

theorem sE46_as2 : innerAssign sE46s 2 = 1 := by
have hy : rearrangeCost sE46s 2 1 < rearrangeCost sE46s 2 0 := by
  rw [sE46_rc20, sE46_rc21]
  linarith [certAssign2]
rw [innerAssign, show List.range (numGroups sE46s) = [0, 1] from rfl]
show pyMinAux (rearrangeCost sE46s 2) 0 [1] = 1
simp only [pyMinAux, if_pos hy]

theorem sE46_gn : innerNewGn sE46s = [{0, 1}, {2}] := by
show [(Finset.range 3).filter (fun u => innerAssign sE46s u = 0),
  (Finset.range 3).filter (fun u => innerAssign sE46s u = 1)] = [{0, 1}, {2}]
have hf0 : (Finset.range 3).filter (fun u => innerAssign sE46s u = 0) = {0, 1} := by
  rw [show (Finset.range 3 : Finset ℕ) = {0, 1, 2} by decide]
  rw [Finset.filter_insert, if_pos sE46_as0, Finset.filter_insert, if_pos sE46_as1,
    Finset.filter_singleton, if_neg (by rw [sE46_as2]; norm_num)]
  decide
have hf1 : (Finset.range 3).filter (fun u => innerAssign sE46s u = 1) = {2} := by
  rw [show (Finset.range 3 : Finset ℕ) = {0, 1, 2} by decide]
  rw [Finset.filter_insert, if_neg (by rw [sE46_as0]; norm_num),
    Finset.filter_insert, if_neg (by rw [sE46_as1]; norm_num),
    Finset.filter_singleton, if_pos sE46_as2]
rw [hf0, hf1]

theorem sE46_re : rearrange? sE46s (innerNewGn sE46s) (innerAssign sE46s)
    = some sF46 := by
rw [sE46_gn]
exact rearrange?_some_of_isPartition sE46s [{0, 1}, {2}] (innerAssign sE46s) (by
  rw [show sE46s.g.n = 3 from rfl]
  decide)

theorem sE46_ccErr : codeCostErr sE46s = false := by
refine codeCostErr_eq_false ?_
intro i hi j hj
rw [sE46s_k] at hi hj
have hi01 : i = 0 ∨ i = 1 := by omega
have hj01 : j = 0 ∨ j = 1 := by omega
rcases hi01 with rfl | rfl <;> rcases hj01 with rfl | rfl
· rw [sE46_P00]; norm_num
· rw [sE46_P01]; norm_num
· rw [sE46_P10]; norm_num
· rw [sE46_P11]; norm_num

theorem sE46_tc : totalCost? sE46s
    = some (logStar (numGroups sE46s) + dcgsVal sE46s + dcbw sE46s + codeCost sE46s) :=
totalCost?_some (dcgs?_some (by rw [sE46s_k]; norm_num)
  (by simp only [dcgsErr, aVal, sizesDesc, groupSizes, numGroups, sE46s_gnL]; decide))
  sE46_ccErr

theorem sE46_cost : logStar (numGroups sE46s) + dcgsVal sE46s + dcbw sE46s
    + codeCost sE46s = 24 - 8 * log2 3 + 9 * log2 5 - 5 * log2 11 := by
have h1 : logStar (numGroups sE46s) = 1 := by
  rw [sE46s_k, logStar_two]
have h2 : dcgsVal sE46s = 1 := by
  rw [dcgsVal, sE46s_k, show (2 : ℕ) - 1 = 1 from rfl,
    Finset.sum_range_one, show aVal sE46s 0 = 2 by simp only [aVal, sizesDesc, groupSizes, numGroups, sE46s_gnL]; decide,
    show (((2 : ℤ) : ℝ)) = 2 by norm_num, log2_two]
  norm_num
have h3 : dcbw sE46s = 4 := by
  rw [dcbw, sE46s_k]
  simp only [Finset.sum_range_succ, Finset.sum_range_zero]
  rw [show blockSize sE46s 0 0 = 0 by simp only [blockSize, groupSize, grp, sE46s_gnL]; decide, show blockSize sE46s 0 1 = 0 by simp only [blockSize, groupSize, grp, sE46s_gnL]; decide,
    show blockSize sE46s 1 0 = 0 by simp only [blockSize, groupSize, grp, sE46s_gnL]; decide, show blockSize sE46s 1 1 = 9 by simp only [blockSize, groupSize, grp, sE46s_gnL]; decide,
    show (((0 : ℕ) : ℝ) + 1 : ℝ) = 1 by norm_num,
    show (((9 : ℕ) : ℝ) + 1 : ℝ) = 10 by norm_num, log2_one,
    ceil_log2_eq 4 (by norm_num) (by norm_num) (by norm_num)]
  norm_num
have h4 : codeCost sE46s = 18 - 8 * log2 3 + 9 * log2 5 - 5 * log2 11 := by
  rw [codeCost, sE46s_k]
  simp only [Finset.sum_range_succ, Finset.sum_range_zero]
  rw [sE46_bcc00, sE46_bcc01, sE46_bcc10, sE46_bcc11]
  ring
rw [h1, h2, h3, h4]
ring

theorem sF46_P00 : sF46s.P 0 0 = 1 / 2 := by
rw [sF46s_Pdef 0 0,
  show blockWeightN sF46s 0 0 = 2 by simp only [blockWeightN, grp, sF46s_gnL, show sF46s.g = G46 from rfl]; decide, show blockSize sF46s 0 0 = 4 by simp only [blockSize, groupSize, grp, sF46s_gnL]; decide]
norm_num [smoothedDensity]

theorem sF46_P01 : sF46s.P 0 1 = 5 / 6 := by
rw [sF46s_Pdef 0 1,
  show blockWeightN sF46s 0 1 = 2 by simp only [blockWeightN, grp, sF46s_gnL, show sF46s.g = G46 from rfl]; decide, show blockSize sF46s 0 1 = 2 by simp only [blockSize, groupSize, grp, sF46s_gnL]; decide]
norm_num [smoothedDensity]

theorem sF46_P10 : sF46s.P 1 0 = 1 / 6 := by
rw [sF46s_Pdef 1 0,
  show blockWeightN sF46s 1 0 = 0 by simp only [blockWeightN, grp, sF46s_gnL, show sF46s.g = G46 from rfl]; decide, show blockSize sF46s 1 0 = 2 by simp only [blockSize, groupSize, grp, sF46s_gnL]; decide]
norm_num [smoothedDensity]

theorem sF46_P11 : sF46s.P 1 1 = 1 / 4 := by
rw [sF46s_Pdef 1 1,
  show blockWeightN sF46s 1 1 = 0 by simp only [blockWeightN, grp, sF46s_gnL, show sF46s.g = G46 from rfl]; decide, show blockSize sF46s 1 1 = 1 by simp only [blockSize, groupSize, grp, sF46s_gnL]; decide]
norm_num [smoothedDensity]

theorem sF46_w00 : sF46s.w 0 0 = 2 := by
rw [sF46s_wdef 0 0,
  show blockWeightN sF46s 0 0 = 2 by simp only [blockWeightN, grp, sF46s_gnL, show sF46s.g = G46 from rfl]; decide]
norm_num

theorem sF46_w01 : sF46s.w 0 1 = 2 := by
rw [sF46s_wdef 0 1,
  show blockWeightN sF46s 0 1 = 2 by simp only [blockWeightN, grp, sF46s_gnL, show sF46s.g = G46 from rfl]; decide]
norm_num

theorem sF46_w10 : sF46s.w 1 0 = 0 := by
rw [sF46s_wdef 1 0,
  show blockWeightN sF46s 1 0 = 0 by simp only [blockWeightN, grp, sF46s_gnL, show sF46s.g = G46 from rfl]; decide]
norm_num

theorem sF46_w11 : sF46s.w 1 1 = 0 := by
rw [sF46s_wdef 1 1,
  show blockWeightN sF46s 1 1 = 0 by simp only [blockWeightN, grp, sF46s_gnL, show sF46s.g = G46 from rfl]; decide]
norm_num

theorem sF46_bcc00 : blockCodeCost sF46s 0 0 = 4 := by
rw [blockCodeCost, sF46_w00, sF46_P00,
  show ((blockSize sF46s 0 0 : ℕ) : ℝ) = 4 by
    rw [show blockSize sF46s 0 0 = 4 by simp only [blockSize, groupSize, grp, sF46s_gnL]; decide]; norm_num,
  show (((1 : ℚ) / 2 : ℚ) : ℝ) = 1 / 2 by norm_num,
  show (1 : ℝ) - 1 / 2 = 1 / 2 by norm_num, atomHalf]
push_cast
ring

theorem sF46_bcc01 : blockCodeCost sF46s 0 1 = 2 + 2 * log2 3 - 2 * log2 5 := by
rw [blockCodeCost, sF46_w01, sF46_P01,
  show ((blockSize sF46s 0 1 : ℕ) : ℝ) = 2 by
    rw [show blockSize sF46s 0 1 = 2 by simp only [blockSize, groupSize, grp, sF46s_gnL]; decide]; norm_num,
  show (((5 : ℚ) / 6 : ℚ) : ℝ) = 5 / 6 by norm_num,
  show (1 : ℝ) - 5 / 6 = 1 / 6 by norm_num, atom56, atom16]
push_cast
ring

theorem sF46_bcc10 : blockCodeCost sF46s 1 0 = 2 + 2 * log2 3 - 2 * log2 5 := by
rw [blockCodeCost, sF46_w10, sF46_P10,
  show ((blockSize sF46s 1 0 : ℕ) : ℝ) = 2 by
    rw [show blockSize sF46s 1 0 = 2 by simp only [blockSize, groupSize, grp, sF46s_gnL]; decide]; norm_num,
  show (((1 : ℚ) / 6 : ℚ) : ℝ) = 1 / 6 by norm_num,
  show (1 : ℝ) - 1 / 6 = 5 / 6 by norm_num, atom16, atom56]
push_cast
ring

theorem sF46_bcc11 : blockCodeCost sF46s 1 1 = 2 - log2 3 := by
rw [blockCodeCost, sF46_w11, sF46_P11,
  show ((blockSize sF46s 1 1 : ℕ) : ℝ) = 1 by
    rw [show blockSize sF46s 1 1 = 1 by simp only [blockSize, groupSize, grp, sF46s_gnL]; decide]; norm_num,
  show (((1 : ℚ) / 4 : ℚ) : ℝ) = 1 / 4 by norm_num,
  show (1 : ℝ) - 1 / 4 = 3 / 4 by norm_num, atom14, atom34]
push_cast
ring

theorem sF46_ccErr : codeCostErr sF46s = false := by
refine codeCostErr_eq_false ?_
intro i hi j hj
rw [sF46s_k] at hi hj
have hi01 : i = 0 ∨ i = 1 := by omega
have hj01 : j = 0 ∨ j = 1 := by omega
rcases hi01 with rfl | rfl <;> rcases hj01 with rfl | rfl
· rw [sF46_P00]; norm_num
· rw [sF46_P01]; norm_num
· rw [sF46_P10]; norm_num
· rw [sF46_P11]; norm_num

theorem sF46_tc : totalCost? sF46s
    = some (logStar (numGroups sF46s) + dcgsVal sF46s + dcbw sF46s + codeCost sF46s) :=
totalCost?_some (dcgs?_some (by rw [sF46s_k]; norm_num)
  (by simp only [dcgsErr, aVal, sizesDesc, groupSizes, numGroups, sF46s_gnL]; decide))
  sF46_ccErr

theorem sF46_cost : logStar (numGroups sF46s) + dcgsVal sF46s + dcbw sF46s
    + codeCost sF46s = 20 + 3 * log2 3 - 4 * log2 5 := by
have h1 : logStar (numGroups sF46s) = 1 := by
  rw [sF46s_k, logStar_two]
have h2 : dcgsVal sF46s = 1 := by
  rw [dcgsVal, sF46s_k, show (2 : ℕ) - 1 = 1 from rfl,
    Finset.sum_range_one, show aVal sF46s 0 = 2 by simp only [aVal, sizesDesc, groupSizes, numGroups, sF46s_gnL]; decide,
    show (((2 : ℤ) : ℝ)) = 2 by norm_num, log2_two]
  norm_num
have h3 : dcbw sF46s = 8 := by
  rw [dcbw, sF46s_k]
  simp only [Finset.sum_range_succ, Finset.sum_range_zero]
  rw [show blockSize sF46s 0 0 = 4 by simp only [blockSize, groupSize, grp, sF46s_gnL]; decide, show blockSize sF46s 0 1 = 2 by simp only [blockSize, groupSize, grp, sF46s_gnL]; decide,
    show blockSize sF46s 1 0 = 2 by simp only [blockSize, groupSize, grp, sF46s_gnL]; decide, show blockSize sF46s 1 1 = 1 by simp only [blockSize, groupSize, grp, sF46s_gnL]; decide,
    show (((4 : ℕ) : ℝ) + 1 : ℝ) = 5 by norm_num,
    show (((2 : ℕ) : ℝ) + 1 : ℝ) = 3 by norm_num,
    show (((1 : ℕ) : ℝ) + 1 : ℝ) = 2 by norm_num,
    ceil_log2_eq 3 (by norm_num) (by norm_num) (by norm_num),
    ceil_log2_eq 2 (by norm_num) (by norm_num) (by norm_num),
    show ⌈log2 2⌉ = 1 by rw [log2_two]; norm_num]
  norm_num
have h4 : codeCost sF46s = 10 + 3 * log2 3 - 4 * log2 5 := by
  rw [codeCost, sF46s_k]
  simp only [Finset.sum_range_succ, Finset.sum_range_zero]
  rw [sF46_bcc00, sF46_bcc01, sF46_bcc10, sF46_bcc11]
  ring
rw [h1, h2, h3, h4]
ring

theorem g46_guard : (logStar (numGroups sE46s) + dcgsVal sE46s + dcbw sE46s
      + codeCost sE46s)
    - (logStar (numGroups sF46s) + dcgsVal sF46s + dcbw sF46s + codeCost sF46s)
    < eps := by
rw [sE46_cost, sF46_cost, eps]
linarith [certIncr]

theorem g46_inner : innerLoop 40 9 sE46s
    = ⟨sF46s,
      [(logStar (numGroups sE46s) + dcgsVal sE46s + dcbw sE46s + codeCost sE46s,
        logStar (numGroups sF46s) + dcgsVal sF46s + dcbw sF46s + codeCost sF46s)],
      [], .stopped⟩ := by
have hrep : reportAdjMatrix 40 sF46 = (sF46s, []) := rfl
show innerLoop 40 (8 + 1) sE46s = _
simp only [innerLoop, sE46_tc, sE46_re, hrep, sF46_tc, if_pos g46_guard]

theorem g46_init_P00 : (initState G46).P 0 0 = 9 / 20 := by
rw [show (initState G46).P 0 0
    = smoothedDensity ((blockWeightN (initBase G46) 0 0 : ℕ) : ℚ)
      ((blockSize (initBase G46) 0 0 : ℕ) : ℚ) from rfl,
  show blockWeightN (initBase G46) 0 0 = 4 by decide,
  show blockSize (initBase G46) 0 0 = 9 by decide]
norm_num [smoothedDensity]

theorem g46_init_ccErr : codeCostErr (initState G46) = false := by
refine codeCostErr_eq_false ?_
intro i hi j hj
rw [show numGroups (initState G46) = 1 from rfl] at hi hj
have hi0 : i = 0 := by omega
have hj0 : j = 0 := by omega
rw [hi0, hj0, g46_init_P00]
norm_num

theorem g46_init_tc : totalCost? (initState G46)
    = some (logStar (numGroups (initState G46)) + 0 + dcbw (initState G46)
      + codeCost (initState G46)) :=
totalCost?_some (dcgs?_one rfl) g46_init_ccErr

/-- C1 counterexample: on the graph `G46` the very first inner-loop
iteration of the run *increases* the total cost: the pair `(prev, cur)`
recorded by that iteration has `prev < cur`, contradicting the claimed
Theorem-1 monotonicity. -/
theorem c1_counterexample :
    ((autopartRun G46 40 9 9).pairs.getD 0 (0, 0)).1
      < ((autopartRun G46 40 9 9).pairs.getD 0 (0, 0)).2 := by
have habn : addNewGroup (initState G46) = sB46 := rfl
have hrepE : reportAdjMatrix 40 sE46 = (sE46s, []) := rfl
have hpy : pyMax (groupEntropyPerNode (initState G46))
    (List.range (numGroups (initState G46))) = 0 := rfl
have hsl : seedList sB46 0 = [0, 1, 2] := by
  simp only [seedList, grp, sB46_gnL, show sB46.g.n = 3 from rfl]
  decide
have hbase : (autopartRun G46 40 9 9).pairs.getD 0 (0, 0)
    = (logStar (numGroups sE46s) + dcgsVal sE46s + dcbw sE46s + codeCost sE46s,
       logStar (numGroups sF46s) + dcgsVal sF46s + dcbw sF46s + codeCost sF46s) := by
  show ((outerLoop 40 9 (8 + 1) (initState G46)).pairs.getD 0 (0, 0)) = _
  simp only [outerLoop, g46_init_tc, hpy, habn, hsl, g46_seed, hrepE, g46_inner,
    sF46_tc]
  by_cases hog : (logStar (numGroups (initState G46)) + 0 + dcbw (initState G46)
      + codeCost (initState G46))
    - (logStar (numGroups sF46s) + dcgsVal sF46s + dcbw sF46s + codeCost sF46s)
    < eps
  · rw [if_pos hog]
    rfl
  · rw [if_neg hog]
    rfl
rw [hbase]
show (logStar (numGroups sE46s) + dcgsVal sE46s + dcbw sE46s + codeCost sE46s)
  < (logStar (numGroups sF46s) + dcgsVal sF46s + dcbw sF46s + codeCost sF46s)
rw [sE46_cost, sF46_cost]
linarith [certIncr]

/-- C1 (amended): the inner loop's guard guarantees that any recorded
iteration whose cost decrease is below `epsilon` — in particular any
iteration that increases the cost — is the loop's last: the claimed
monotonicity holds in the weakened form "every iteration except the final
one lowers the total cost by at least `epsilon`". -/
theorem c1_eps_guard (lvl Fi : ℕ) (s : St) (i : ℕ)
    (hi : i < (innerLoop lvl Fi s).pairs.length)
    (hsmall : ((innerLoop lvl Fi s).pairs.getD i (0, 0)).1
      - ((innerLoop lvl Fi s).pairs.getD i (0, 0)).2 < eps) :
    i = (innerLoop lvl Fi s).pairs.length - 1 := by
revert hi hsmall
induction Fi generalizing s i with
| zero =>
  intro hi hsmall
  simp [innerLoop] at hi
| succ n ih =>
  intro hi hsmall
  cases h0 : totalCost? s with
  | none => simp [innerLoop, h0] at hi
  | some prev =>
    cases h1 : rearrange? s (innerNewGn s) (innerAssign s) with
    | none => simp [innerLoop, h0, h1] at hi
    | some s1 =>
      cases h2 : totalCost? { s1 with step := s1.step + 1 } with
      | none => simp [innerLoop, reportAdjMatrix, h0, h1, h2] at hi
      | some cur =>
        by_cases hlt : prev - cur < eps
        · simp only [innerLoop, reportAdjMatrix, h0, h1, h2, if_pos hlt] at hi ⊢
          simp only [List.length_cons, List.length_nil] at hi ⊢
          omega
        · simp only [innerLoop, reportAdjMatrix, h0, h1, h2, if_neg hlt] at hi hsmall ⊢
          cases i with
          | zero =>
            exfalso
            rw [List.getD_cons_zero] at hsmall
            exact hlt hsmall
          | succ k =>
            rw [List.getD_cons_succ] at hsmall
            rw [List.length_cons] at hi ⊢
            have hk : k < (innerLoop lvl n { s1 with step := s1.step + 1 }).pairs.length := by
              omega
            have hres := ih { s1 with step := s1.step + 1 } k hk hsmall
            omega

theorem stZero_P00a : stZero.P 0 0 = 1 / 4 := by
rw [show stZero.P 0 0
    = smoothedDensity ((blockWeightN (initBase ⟨1, fun _ _ => 0⟩) 0 0 : ℕ) : ℚ)
      ((blockSize (initBase ⟨1, fun _ _ => 0⟩) 0 0 : ℕ) : ℚ) from rfl,
  show blockWeightN (initBase ⟨1, fun _ _ => 0⟩) 0 0 = 0 from rfl,
  show blockSize (initBase ⟨1, fun _ _ => 0⟩) 0 0 = 1 from rfl]
norm_num [smoothedDensity]

theorem stZero_ccErr : codeCostErr stZero = false := by
refine codeCostErr_eq_false ?_
intro i hi j hj
rw [show numGroups stZero = 1 from rfl] at hi hj
have hi0 : i = 0 := by omega
have hj0 : j = 0 := by omega
rw [hi0, hj0, stZero_P00a]
norm_num

theorem stZero_tc : totalCost? stZero
    = some (logStar (numGroups stZero) + 0 + dcbw stZero + codeCost stZero) :=
totalCost?_some (dcgs?_one rfl) stZero_ccErr

theorem stZero_cost : logStar (numGroups stZero) + 0 + dcbw stZero + codeCost stZero
    = 1 - log2 ((3 : ℝ) / 4) := by
have h1 : logStar (numGroups stZero) = 0 := by
  rw [show numGroups stZero = 1 from rfl, logStar_one]
have h3 : dcbw stZero = 1 := by
  rw [dcbw, show numGroups stZero = 1 from rfl, Finset.sum_range_one,
    Finset.sum_range_one, show blockSize stZero 0 0 = 1 from rfl,
    show (((1 : ℕ) : ℝ) + 1 : ℝ) = 2 by norm_num, log2_two]
  norm_num
have h4 : codeCost stZero = -log2 ((3 : ℝ) / 4) := by
  rw [codeCost, show numGroups stZero = 1 from rfl, Finset.sum_range_one,
    Finset.sum_range_one, blockCodeCost,
    show stZero.w 0 0 = 0 from rfl, stZero_P00a,
    show ((blockSize stZero 0 0 : ℕ) : ℝ) = 1 by
      rw [show blockSize stZero 0 0 = 1 from rfl]; norm_num,
    show (((1 : ℚ) / 4 : ℚ) : ℝ) = 1 / 4 by norm_num,
    show (1 : ℝ) - 1 / 4 = 3 / 4 by norm_num]
  push_cast
  ring
rw [h1, h3, h4]
ring

theorem stZ_re : rearrange? stZero (innerNewGn stZero) (innerAssign stZero)
    = some stZF :=
rearrange?_some_of_isPartition stZero (innerNewGn stZero) (innerAssign stZero) (by
  rw [show stZero.g.n = 1 from rfl]
  decide)

theorem stZF_P00 : stZFs.P 0 0 = 1 / 4 := by
rw [show stZFs.P 0 0 = smoothedDensity ((blockWeightN stZFs 0 0 : ℕ) : ℚ)
    ((blockSize stZFs 0 0 : ℕ) : ℚ) from rfl,
  show blockWeightN stZFs 0 0 = 0 by decide, show blockSize stZFs 0 0 = 1 by decide]
norm_num [smoothedDensity]

theorem stZF_ccErr : codeCostErr stZFs = false := by
refine codeCostErr_eq_false ?_
intro i hi j hj
rw [show numGroups stZFs = 1 from rfl] at hi hj
have hi0 : i = 0 := by omega
have hj0 : j = 0 := by omega
rw [hi0, hj0, stZF_P00]
norm_num

theorem stZF_tc : totalCost? stZFs
    = some (logStar (numGroups stZFs) + 0 + dcbw stZFs + codeCost stZFs) :=
totalCost?_some (dcgs?_one rfl) stZF_ccErr

theorem stZF_cost : logStar (numGroups stZFs) + 0 + dcbw stZFs + codeCost stZFs
    = 1 - log2 ((3 : ℝ) / 4) := by
have h1 : logStar (numGroups stZFs) = 0 := by
  rw [show numGroups stZFs = 1 from rfl, logStar_one]
have h3 : dcbw stZFs = 1 := by
  rw [dcbw, show numGroups stZFs = 1 from rfl, Finset.sum_range_one,
    Finset.sum_range_one, show blockSize stZFs 0 0 = 1 by decide,
    show (((1 : ℕ) : ℝ) + 1 : ℝ) = 2 by norm_num, log2_two]
  norm_num
have h4 : codeCost stZFs = -log2 ((3 : ℝ) / 4) := by
  rw [codeCost, show numGroups stZFs = 1 from rfl, Finset.sum_range_one,
    Finset.sum_range_one, blockCodeCost,
    show stZFs.w 0 0 = 0 by
      rw [show stZFs.w 0 0 = ((blockWeightN stZFs 0 0 : ℕ) : ℚ) from rfl,
        show blockWeightN stZFs 0 0 = 0 by decide]
      norm_num,
    stZF_P00,
    show ((blockSize stZFs 0 0 : ℕ) : ℝ) = 1 by
      rw [show blockSize stZFs 0 0 = 1 by decide]; norm_num,
    show (((1 : ℚ) / 4 : ℚ) : ℝ) = 1 / 4 by norm_num,
    show (1 : ℝ) - 1 / 4 = 3 / 4 by norm_num]
  push_cast
  ring
rw [h1, h3, h4]
ring

theorem stZ_guard : (logStar (numGroups stZero) + 0 + dcbw stZero + codeCost stZero)
    - (logStar (numGroups stZFs) + 0 + dcbw stZFs + codeCost stZFs) < eps := by
rw [stZero_cost, stZF_cost, eps]
norm_num

theorem stZ_inner : innerLoop 40 1 stZero
    = ⟨stZFs,
      [(logStar (numGroups stZero) + 0 + dcbw stZero + codeCost stZero,
        logStar (numGroups stZFs) + 0 + dcbw stZFs + codeCost stZFs)],
      [], .stopped⟩ := by
have hrep : reportAdjMatrix 40 stZF = (stZFs, []) := rfl
show innerLoop 40 (0 + 1) stZero = _
simp only [innerLoop, stZero_tc, stZ_re, hrep, stZF_tc, if_pos stZ_guard]

theorem c1_eps_guard_witness :
    0 < (innerLoop 40 1 stZero).pairs.length
    ∧ ((innerLoop 40 1 stZero).pairs.getD 0 (0, 0)).1
        - ((innerLoop 40 1 stZero).pairs.getD 0 (0, 0)).2 < eps
    ∧ 0 = (innerLoop 40 1 stZero).pairs.length - 1 := by
have hlen : 0 < (innerLoop 40 1 stZero).pairs.length := by
  rw [stZ_inner]
  norm_num
have hsm : ((innerLoop 40 1 stZero).pairs.getD 0 (0, 0)).1
    - ((innerLoop 40 1 stZero).pairs.getD 0 (0, 0)).2 < eps := by
  rw [stZ_inner]
  show (logStar (numGroups stZero) + 0 + dcbw stZero + codeCost stZero)
    - (logStar (numGroups stZFs) + 0 + dcbw stZFs + codeCost stZFs) < eps
  exact stZ_guard
exact ⟨hlen, hsm, c1_eps_guard 40 1 stZero 0 hlen hsm⟩

end Autopart
